import Mathlib

/-!
The OAuth2 redirect handler of `main.go` in cherevan.art_auth.

A shallow embedding of `main.go` (`generateState`, `parseState`, `init`,
`handleRequest`) together with the library routines these functions call:
`encoding/base64` (`URLEncoding`), `unicode/utf8`, `encoding/json`
(`Marshal` and `Unmarshal` at the type `StateData`), `net/url`
(`QueryEscape`, `Values.Encode`) and `oauth2.Config.AuthCodeURL`.

Conventions of the embedding.

* A Go `string` or `[]byte` is a list of bytes, `Bytes = List Nat`; a byte is a
  natural number below 256.  Machine arithmetic on bytes and runes is written
  with `*`, `/`, `%` and `+`: `x << k` is `x * 2^k`, `x >> k` is `x / 2^k`,
  `x & (2^k - 1)` is `x % 2^k`, and `|` between disjoint bit fields is `+`.
* An index into an immutable slice is represented by the suffix that starts at
  that index, so loops `for i < len(src)` become recursion on the suffix.
* Loops whose step consumes a variable number of bytes carry a fuel argument,
  initialised with a bound on the number of iterations.
* A Go `error` is a value of `GoError`; `GoError.Error` is its text.
* The token exchange of `oauth2.Config.Exchange` is a network call; it is a
  parameter of `handleRequest`.
-/

namespace CherevanAuth

/-- A Go string or byte slice. -/
abbrev Bytes := List Nat

/-- The bytes of an ASCII string literal. -/
def ascii (s : String) : Bytes := s.data.map Char.toNat

/-- Every element is a byte. -/
def IsBytes (s : Bytes) : Prop := ∀ b ∈ s, b < 256

/-! ## Errors -/

/-- The Go errors that reach `handleRequest`. -/
inductive GoError where
  /-- `base64.CorruptInputError(n)`. -/
  | CorruptInputError (n : Nat)
  /-- `*json.SyntaxError` with message `msg`. -/
  | SyntaxError (msg : Bytes)
  /-- `*json.UnmarshalTypeError`: JSON `value` kind met where the Go type does
  not accept it; `inField` tells whether the target is the struct field
  `StateData.redirect_url` (type `string`) or the top-level `main.StateData`. -/
  | UnmarshalTypeError (value : Bytes) (inField : Bool)
  /-- The decoder's `panic(phasePanicMsg)`; it cannot happen on input accepted
  by `checkValid` and is kept so that the decoder is a total function. -/
  | phasePanic
  /-- An error of the token exchange, given by its text. -/
  | exchangeError (text : Bytes)
  deriving DecidableEq, Repr

/-- The decimal digits of a natural number, most significant first (`strconv.FormatInt(n, 10)`). -/
def formatDecimal (n : Nat) : Bytes := (Nat.toDigits 10 n).map Char.toNat

/-- The method `Error()` of the modelled errors. -/
def GoError.Error : GoError → Bytes
  | .CorruptInputError n => ascii "illegal base64 data at input byte " ++ formatDecimal n
  | .SyntaxError msg => msg
  | .UnmarshalTypeError value true =>
      ascii "json: cannot unmarshal " ++ value ++
        ascii " into Go struct field StateData.redirect_url of type string"
  | .UnmarshalTypeError value false =>
      ascii "json: cannot unmarshal " ++ value ++ ascii " into Go value of type main.StateData"
  | .phasePanic => ascii "JSON decoder out of sync - data changing underfoot?"
  | .exchangeError text => text

/-! ## encoding/base64, `URLEncoding` -/

namespace base64

/-- The constant `encodeURL`: the alphabet of `URLEncoding`. -/
def encodeURL : Bytes :=
  ascii "ABCDEFGHIJKLMNOPQRSTUVWXYZabcdefghijklmnopqrstuvwxyz0123456789-_"

/-- The padding character `StdPadding` of `URLEncoding`. -/
def padChar : Nat := 61

/-- The table `enc.encode`: `enc.encode[v]`. -/
def encodeChar (v : Nat) : Nat := encodeURL.getD v 0

/-- The table `enc.decodeMap`: `0xff` everywhere except at the alphabet's characters,
where it holds the character's index. -/
def decodeMap (c : Nat) : Nat :=
  let i := encodeURL.indexOf c
  if i < 64 then i else 0xff

/-- Embeds `Encoding.Encode` (with `EncodeToString`): three source bytes give four
characters; a final block of one or two bytes is padded with `=`. -/
def EncodeToString : Bytes → Bytes
  | b0 :: b1 :: b2 :: rest =>
      let val := b0 * 65536 + b1 * 256 + b2
      encodeChar (val / 262144 % 64) :: encodeChar (val / 4096 % 64) ::
        encodeChar (val / 64 % 64) :: encodeChar (val % 64) :: EncodeToString rest
  | [b0, b1] =>
      let val := b0 * 65536 + b1 * 256
      [encodeChar (val / 262144 % 64), encodeChar (val / 4096 % 64),
        encodeChar (val / 64 % 64), padChar]
  | [b0] =>
      let val := b0 * 65536
      [encodeChar (val / 262144 % 64), encodeChar (val / 4096 % 64), padChar, padChar]
  | [] => []

/-- What `decodeQuantum` returns: the new source index `nsi` with the source
from there on, the bytes written to `dst`, and the error. -/
structure Quantum where
  nsi : Nat
  rest : Bytes
  out : Bytes
  err : Option GoError
  deriving DecidableEq, Repr

/-- The loops `for si < len(src) && (src[si] == '\n' || src[si] == '\r') { si++ }`. -/
def skipNewlines : Nat → Bytes → Nat × Bytes
  | si, c :: rest => if c = 10 ∨ c = 13 then skipNewlines (si + 1) rest else (si, c :: rest)
  | si, [] => (si, [])

/-- The end of `decodeQuantum`: the collected 6-bit values `dbuf` (missing ones
are 0) are packed into three bytes, of which `dlen - 1` are written.
`URLEncoding` is not strict, so the unused bits are not checked. -/
def quantumBytes (dbuf : List Nat) (dlen : Nat) : Bytes :=
  let val := dbuf.getD 0 0 * 262144 + dbuf.getD 1 0 * 4096 + dbuf.getD 2 0 * 64 + dbuf.getD 3 0
  [val / 65536 % 256, val / 256 % 256, val % 256].take (dlen - 1)

/-- The part of `decodeQuantum` after the padding has been read: newlines are
skipped, anything else after them is trailing garbage. -/
def afterPadding (dbuf : List Nat) (si : Nat) (src : Bytes) : Quantum :=
  let (si2, rest2) := skipNewlines si src
  { nsi := si2, rest := rest2, out := quantumBytes dbuf dbuf.length,
    err := if rest2 ≠ [] then some (.CorruptInputError si2) else none }

/-- Embeds `Encoding.decodeQuantum` for `URLEncoding` (padded, not strict).  `dbuf`
holds the values read so far (`j = dbuf.length`), `si` is the index of the
head of the third argument in `src`, and `srcLen = len(src)`. -/
def decodeQuantum (srcLen : Nat) : List Nat → Nat → Bytes → Quantum
  | dbuf, si, [] =>
      if dbuf.length = 0 then { nsi := si, rest := [], out := [], err := none }
      else { nsi := si, rest := [], out := [], err := some (.CorruptInputError (si - dbuf.length)) }
  | dbuf, si, c :: rest =>
      let out := decodeMap c
      if out ≠ 0xff then
        if dbuf.length = 3 then
          { nsi := si + 1, rest := rest, out := quantumBytes (dbuf ++ [out]) 4, err := none }
        else decodeQuantum srcLen (dbuf ++ [out]) (si + 1) rest
      else if c = 10 ∨ c = 13 then decodeQuantum srcLen dbuf (si + 1) rest
      else if c ≠ padChar then
        { nsi := si + 1, rest := rest, out := [], err := some (.CorruptInputError si) }
      else if dbuf.length ≤ 1 then
        { nsi := si + 1, rest := rest, out := [], err := some (.CorruptInputError si) }
      else if dbuf.length = 2 then
        match skipNewlines (si + 1) rest with
        | (si1, []) => { nsi := si1, rest := [], out := [], err := some (.CorruptInputError srcLen) }
        | (si1, c1 :: rest1) =>
            if c1 ≠ padChar then
              { nsi := si1, rest := c1 :: rest1, out := [],
                err := some (.CorruptInputError (si1 - 1)) }
            else afterPadding dbuf (si1 + 1) rest1
      else afterPadding dbuf (si + 1) rest

/-- The loop `for si < len(src)` of `Encoding.Decode`, calling `decodeQuantum`
until the source is used up or an error is met.  (The 8- and 4-character fast
paths of `Decode` compute the same bytes and fall back to `decodeQuantum`.) -/
def decodeLoop (srcLen : Nat) : Nat → Nat → Bytes → Except GoError Bytes
  | 0, _, _ => .ok []
  | _ + 1, _, [] => .ok []
  | fuel + 1, si, c :: rest =>
      let q := decodeQuantum srcLen [] si (c :: rest)
      match q.err with
      | some e => .error e
      | none =>
          match decodeLoop srcLen fuel q.nsi q.rest with
          | .ok bs => .ok (q.out ++ bs)
          | .error e => .error e

/-- Embeds `Encoding.DecodeString` of `URLEncoding`. -/
def DecodeString (s : Bytes) : Except GoError Bytes :=
  decodeLoop s.length s.length 0 s

end base64

/-! ## unicode/utf8 -/

namespace utf8

/-- Embeds `utf8.RuneError`, U+FFFD. -/
def RuneError : Nat := 0xFFFD

/-- The table `first` with `acceptRanges`: for a leading byte, the length of
the sequence and the range accepted for the second byte; `none` for a byte
that starts no sequence (`xx`: 0x80..0xC1, 0xF5..0xFF). -/
def first (s0 : Nat) : Option (Nat × Nat × Nat) :=
  if 0xC2 ≤ s0 ∧ s0 ≤ 0xDF then some (2, 0x80, 0xBF)
  else if s0 = 0xE0 then some (3, 0xA0, 0xBF)
  else if 0xE1 ≤ s0 ∧ s0 ≤ 0xEC then some (3, 0x80, 0xBF)
  else if s0 = 0xED then some (3, 0x80, 0x9F)
  else if 0xEE ≤ s0 ∧ s0 ≤ 0xEF then some (3, 0x80, 0xBF)
  else if s0 = 0xF0 then some (4, 0x90, 0xBF)
  else if 0xF1 ≤ s0 ∧ s0 ≤ 0xF3 then some (4, 0x80, 0xBF)
  else if s0 = 0xF4 then some (4, 0x80, 0x8F)
  else none

/-- Embeds `utf8.DecodeRune` / `utf8.DecodeRuneInString`: the first rune of `s` and
its width in bytes; `(RuneError, 1)` for an invalid or short encoding and
`(RuneError, 0)` for the empty input. -/
def DecodeRune (s : Bytes) : Nat × Nat :=
  match s with
  | [] => (RuneError, 0)
  | s0 :: t =>
    if s0 < 0x80 then (s0, 1)
    else
      match first s0 with
      | none => (RuneError, 1)
      | some (sz, lo, hi) =>
        match t with
        | [] => (RuneError, 1)
        | s1 :: t1 =>
          if s1 < lo ∨ hi < s1 then (RuneError, 1)
          else if sz ≤ 2 then (s0 % 32 * 64 + s1 % 64, 2)
          else
            match t1 with
            | [] => (RuneError, 1)
            | s2 :: t2 =>
              if s2 < 0x80 ∨ 0xBF < s2 then (RuneError, 1)
              else if sz ≤ 3 then (s0 % 16 * 4096 + s1 % 64 * 64 + s2 % 64, 3)
              else
                match t2 with
                | [] => (RuneError, 1)
                | s3 :: _ =>
                  if s3 < 0x80 ∨ 0xBF < s3 then (RuneError, 1)
                  else (s0 % 8 * 262144 + s1 % 64 * 4096 + s2 % 64 * 64 + s3 % 64, 4)

/-- Embeds `utf8.EncodeRune` / `utf8.AppendRune`: surrogates and values above
U+10FFFF are written as U+FFFD. -/
def EncodeRune (r : Nat) : Bytes :=
  if r ≤ 0x7F then [r]
  else if r ≤ 0x7FF then [0xC0 + r / 64, 0x80 + r % 64]
  else if r > 0x10FFFF ∨ (0xD800 ≤ r ∧ r ≤ 0xDFFF) then [0xEF, 0xBF, 0xBD]
  else if r ≤ 0xFFFF then [0xE0 + r / 4096, 0x80 + r / 64 % 64, 0x80 + r % 64]
  else [0xF0 + r / 262144, 0x80 + r / 4096 % 64, 0x80 + r / 64 % 64, 0x80 + r % 64]

/-- The loop of `utf8.ValidString`: no position decodes to `(RuneError, 1)`. -/
def validLoop : Nat → Bytes → Bool
  | 0, s => s.isEmpty
  | _ + 1, [] => true
  | fuel + 1, c :: rest =>
      let (r, size) := DecodeRune (c :: rest)
      if r = RuneError ∧ size = 1 then false
      else validLoop fuel (rest.drop (size - 1))

/-- Embeds `utf8.ValidString`. -/
def ValidString (s : Bytes) : Bool := validLoop s.length s

end utf8

deriving instance DecidableEq for Except

/-! ## encoding/json: the scanner (`scanner.go`) -/

namespace json

/-- The digits `"0123456789abcdef"` used by `encoding/json` and `strconv`. -/
def hex (n : Nat) : Nat := (ascii "0123456789abcdef").getD n 0

/-- Latin-1 part of `strconv.IsPrint`. -/
def isPrintLatin1 (r : Nat) : Bool :=
  (0x20 ≤ r ∧ r ≤ 0x7E) ∨ (0xA1 ≤ r ∧ r ≤ 0xFF ∧ r ≠ 0xAD)

/-- Embeds `quoteChar(c)` of `scanner.go`: the byte `c` between single quotes, written as
`strconv.Quote(string(c))` writes the rune `c`, except for `'` and `"`. -/
def quoteChar (c : Nat) : Bytes :=
  if c = 39 then ascii "'\\''"
  else if c = 34 then ascii "'\"'"
  else
    let body : Bytes :=
      if c = 92 then ascii "\\\\"
      else if isPrintLatin1 c then utf8.EncodeRune c
      else if c = 7 then ascii "\\a"
      else if c = 8 then ascii "\\b"
      else if c = 12 then ascii "\\f"
      else if c = 10 then ascii "\\n"
      else if c = 13 then ascii "\\r"
      else if c = 9 then ascii "\\t"
      else if c = 11 then ascii "\\v"
      else if c < 32 ∨ c = 0x7f then ascii "\\x" ++ [hex (c / 16 % 16), hex (c % 16)]
      else ascii "\\u" ++ [hex (c / 4096 % 16), hex (c / 256 % 16), hex (c / 16 % 16), hex (c % 16)]
    [39] ++ body ++ [39]

/-- The step functions of the scanner (the values of the field `scanner.step`). -/
inductive Step where
  | stateBeginValueOrEmpty | stateBeginValue | stateBeginStringOrEmpty | stateBeginString
  | stateEndValue | stateEndTop
  | stateInString | stateInStringEsc | stateInStringEscU | stateInStringEscU1
  | stateInStringEscU12 | stateInStringEscU123
  | stateNeg | state1 | state0 | stateDot | stateDot0 | stateE | stateESign | stateE0
  | stateT | stateTr | stateTru | stateF | stateFa | stateFal | stateFals
  | stateN | stateNu | stateNul | stateError
  deriving DecidableEq, Repr

/-- The scan op codes returned by the step functions. -/
inductive Op where
  | scanContinue | scanBeginLiteral | scanBeginObject | scanObjectKey | scanObjectValue
  | scanEndObject | scanBeginArray | scanArrayValue | scanEndArray | scanSkipSpace
  | scanEnd | scanError
  deriving DecidableEq, Repr

/-- The entries of the scanner's parse-state stack. -/
inductive ParseState where
  | parseObjectKey | parseObjectValue | parseArrayValue
  deriving DecidableEq, Repr

/-- The type `scanner`.  The stack `parseState` has its innermost entry first
(Go appends it last). -/
structure scanner where
  step : Step
  endTop : Bool
  parseState : List ParseState
  err : Option GoError
  deriving DecidableEq, Repr

/-- Embeds `maxNestingDepth`. -/
def maxNestingDepth : Nat := 10000

/-- Embeds `scanner.reset`. -/
def scanner.reset : scanner :=
  { step := .stateBeginValue, endTop := false, parseState := [], err := none }

/-- Embeds `scanner.error`: records a syntax error and moves to `stateError`. -/
def scanner.error (s : scanner) (c : Nat) (context : String) : scanner × Op :=
  ({ s with step := .stateError,
            err := some (.SyntaxError (ascii "invalid character " ++ quoteChar c ++
              ascii " " ++ ascii context)) }, .scanError)

/-- Embeds `scanner.pushParseState`. -/
def scanner.pushParseState (s : scanner) (c : Nat) (newParseState : ParseState)
    (successState : Op) : scanner × Op :=
  let s1 := { s with parseState := newParseState :: s.parseState }
  if s1.parseState.length ≤ maxNestingDepth then (s1, successState)
  else s1.error c "exceeded max depth"

/-- Embeds `scanner.popParseState`. -/
def scanner.popParseState (s : scanner) : scanner :=
  let ps := s.parseState.tail
  if ps.length = 0 then { s with parseState := ps, step := .stateEndTop, endTop := true }
  else { s with parseState := ps, step := .stateEndValue }

/-- Embeds `isSpace`. -/
def isSpace (c : Nat) : Bool := c = 32 ∨ c = 9 ∨ c = 13 ∨ c = 10

/-- The test `'0' <= c && c <= '9'`. -/
def isDigit (c : Nat) : Bool := 48 ≤ c ∧ c ≤ 57

/-- The test for a hexadecimal digit in `stateInStringEscU` and its successors. -/
def isHexDigit (c : Nat) : Bool :=
  (48 ≤ c ∧ c ≤ 57) ∨ (97 ≤ c ∧ c ≤ 102) ∨ (65 ≤ c ∧ c ≤ 70)

/-- Embeds `stateEndTop`: after the top-level value only space is accepted; the
complaint about another byte is recorded and surfaces at the next step. -/
def stateEndTop (s : scanner) (c : Nat) : scanner × Op :=
  if !isSpace c then ((s.error c "after top-level value").1, .scanEnd)
  else (s, .scanEnd)

/-- Embeds `stateEndValue`. -/
def stateEndValue (s : scanner) (c : Nat) : scanner × Op :=
  match s.parseState with
  | [] => stateEndTop { s with step := .stateEndTop, endTop := true } c
  | ps :: below =>
    if isSpace c then ({ s with step := .stateEndValue }, .scanSkipSpace)
    else
      match ps with
      | .parseObjectKey =>
          if c = 58 then
            ({ s with parseState := .parseObjectValue :: below, step := .stateBeginValue },
              .scanObjectKey)
          else s.error c "after object key"
      | .parseObjectValue =>
          if c = 44 then
            ({ s with parseState := .parseObjectKey :: below, step := .stateBeginString },
              .scanObjectValue)
          else if c = 125 then (s.popParseState, .scanEndObject)
          else s.error c "after object key:value pair"
      | .parseArrayValue =>
          if c = 44 then ({ s with step := .stateBeginValue }, .scanArrayValue)
          else if c = 93 then (s.popParseState, .scanEndArray)
          else s.error c "after array element"

/-- Embeds `stateBeginValue`. -/
def stateBeginValue (s : scanner) (c : Nat) : scanner × Op :=
  if isSpace c then (s, .scanSkipSpace)
  else if c = 123 then
    scanner.pushParseState { s with step := .stateBeginStringOrEmpty } c .parseObjectKey
      .scanBeginObject
  else if c = 91 then
    scanner.pushParseState { s with step := .stateBeginValueOrEmpty } c .parseArrayValue
      .scanBeginArray
  else if c = 34 then ({ s with step := .stateInString }, .scanBeginLiteral)
  else if c = 45 then ({ s with step := .stateNeg }, .scanBeginLiteral)
  else if c = 48 then ({ s with step := .state0 }, .scanBeginLiteral)
  else if c = 116 then ({ s with step := .stateT }, .scanBeginLiteral)
  else if c = 102 then ({ s with step := .stateF }, .scanBeginLiteral)
  else if c = 110 then ({ s with step := .stateN }, .scanBeginLiteral)
  else if 49 ≤ c ∧ c ≤ 57 then ({ s with step := .state1 }, .scanBeginLiteral)
  else s.error c "looking for beginning of value"

/-- Embeds `stateBeginValueOrEmpty`. -/
def stateBeginValueOrEmpty (s : scanner) (c : Nat) : scanner × Op :=
  if isSpace c then (s, .scanSkipSpace)
  else if c = 93 then stateEndValue s c
  else stateBeginValue s c

/-- Embeds `stateBeginString`. -/
def stateBeginString (s : scanner) (c : Nat) : scanner × Op :=
  if isSpace c then (s, .scanSkipSpace)
  else if c = 34 then ({ s with step := .stateInString }, .scanBeginLiteral)
  else s.error c "looking for beginning of object key string"

/-- Embeds `stateBeginStringOrEmpty`. -/
def stateBeginStringOrEmpty (s : scanner) (c : Nat) : scanner × Op :=
  if isSpace c then (s, .scanSkipSpace)
  else if c = 125 then
    stateEndValue { s with parseState := .parseObjectValue :: s.parseState.tail } c
  else stateBeginString s c

/-- Embeds `stateInString`. -/
def stateInString (s : scanner) (c : Nat) : scanner × Op :=
  if c = 34 then ({ s with step := .stateEndValue }, .scanContinue)
  else if c = 92 then ({ s with step := .stateInStringEsc }, .scanContinue)
  else if c < 0x20 then s.error c "in string literal"
  else (s, .scanContinue)

/-- Embeds `stateInStringEsc`. -/
def stateInStringEsc (s : scanner) (c : Nat) : scanner × Op :=
  if c = 98 ∨ c = 102 ∨ c = 110 ∨ c = 114 ∨ c = 116 ∨ c = 92 ∨ c = 47 ∨ c = 34 then
    ({ s with step := .stateInString }, .scanContinue)
  else if c = 117 then ({ s with step := .stateInStringEscU }, .scanContinue)
  else s.error c "in string escape code"

/-- The states `stateInStringEscU`, `stateInStringEscU1`, `stateInStringEscU12` and
`stateInStringEscU123`: one hexadecimal digit each, then on to `next`. -/
def stateInStringEscHex (next : Step) (s : scanner) (c : Nat) : scanner × Op :=
  if isHexDigit c then ({ s with step := next }, .scanContinue)
  else s.error c "in \\u hexadecimal character escape"

/-- Embeds `stateNeg`. -/
def stateNeg (s : scanner) (c : Nat) : scanner × Op :=
  if c = 48 then ({ s with step := .state0 }, .scanContinue)
  else if 49 ≤ c ∧ c ≤ 57 then ({ s with step := .state1 }, .scanContinue)
  else s.error c "in numeric literal"

/-- Embeds `state0`. -/
def state0 (s : scanner) (c : Nat) : scanner × Op :=
  if c = 46 then ({ s with step := .stateDot }, .scanContinue)
  else if c = 101 ∨ c = 69 then ({ s with step := .stateE }, .scanContinue)
  else stateEndValue s c

/-- Embeds `state1`. -/
def state1 (s : scanner) (c : Nat) : scanner × Op :=
  if isDigit c then ({ s with step := .state1 }, .scanContinue)
  else state0 s c

/-- Embeds `stateDot`. -/
def stateDot (s : scanner) (c : Nat) : scanner × Op :=
  if isDigit c then ({ s with step := .stateDot0 }, .scanContinue)
  else s.error c "after decimal point in numeric literal"

/-- Embeds `stateDot0`. -/
def stateDot0 (s : scanner) (c : Nat) : scanner × Op :=
  if isDigit c then (s, .scanContinue)
  else if c = 101 ∨ c = 69 then ({ s with step := .stateE }, .scanContinue)
  else stateEndValue s c

/-- Embeds `stateESign`. -/
def stateESign (s : scanner) (c : Nat) : scanner × Op :=
  if isDigit c then ({ s with step := .stateE0 }, .scanContinue)
  else s.error c "in exponent of numeric literal"

/-- Embeds `stateE`. -/
def stateE (s : scanner) (c : Nat) : scanner × Op :=
  if c = 43 ∨ c = 45 then ({ s with step := .stateESign }, .scanContinue)
  else stateESign s c

/-- Embeds `stateE0`. -/
def stateE0 (s : scanner) (c : Nat) : scanner × Op :=
  if isDigit c then (s, .scanContinue)
  else stateEndValue s c

/-- The states inside the literals `true`, `false` and `null` (`stateT` ... `stateNul`):
the byte `want` is expected; the last letter leads to `stateEndValue`. -/
def stateLetter (want : Nat) (next : Step) (context : String) (s : scanner) (c : Nat) :
    scanner × Op :=
  if c = want then ({ s with step := next }, .scanContinue)
  else s.error c context

/-- The call `s.step(s, c)`: the step function stored in `s.step` applied to `c`. -/
def scanner.doStep (s : scanner) (c : Nat) : scanner × Op :=
  match s.step with
  | .stateBeginValueOrEmpty => stateBeginValueOrEmpty s c
  | .stateBeginValue => stateBeginValue s c
  | .stateBeginStringOrEmpty => stateBeginStringOrEmpty s c
  | .stateBeginString => stateBeginString s c
  | .stateEndValue => stateEndValue s c
  | .stateEndTop => stateEndTop s c
  | .stateInString => stateInString s c
  | .stateInStringEsc => stateInStringEsc s c
  | .stateInStringEscU => stateInStringEscHex .stateInStringEscU1 s c
  | .stateInStringEscU1 => stateInStringEscHex .stateInStringEscU12 s c
  | .stateInStringEscU12 => stateInStringEscHex .stateInStringEscU123 s c
  | .stateInStringEscU123 => stateInStringEscHex .stateInString s c
  | .stateNeg => stateNeg s c
  | .state1 => state1 s c
  | .state0 => state0 s c
  | .stateDot => stateDot s c
  | .stateDot0 => stateDot0 s c
  | .stateE => stateE s c
  | .stateESign => stateESign s c
  | .stateE0 => stateE0 s c
  | .stateT => stateLetter 114 .stateTr "in literal true (expecting 'r')" s c
  | .stateTr => stateLetter 117 .stateTru "in literal true (expecting 'u')" s c
  | .stateTru => stateLetter 101 .stateEndValue "in literal true (expecting 'e')" s c
  | .stateF => stateLetter 97 .stateFa "in literal false (expecting 'a')" s c
  | .stateFa => stateLetter 108 .stateFal "in literal false (expecting 'l')" s c
  | .stateFal => stateLetter 115 .stateFals "in literal false (expecting 's')" s c
  | .stateFals => stateLetter 101 .stateEndValue "in literal false (expecting 'e')" s c
  | .stateN => stateLetter 117 .stateNu "in literal null (expecting 'u')" s c
  | .stateNu => stateLetter 108 .stateNul "in literal null (expecting 'l')" s c
  | .stateNul => stateLetter 108 .stateEndValue "in literal null (expecting 'l')" s c
  | .stateError => (s, .scanError)

/-- Embeds `scanner.eof`. -/
def scanner.eof (s : scanner) : scanner × Op :=
  if s.err ≠ none then (s, .scanError)
  else if s.endTop then (s, .scanEnd)
  else
    let s1 := (s.doStep 32).1
    if s1.endTop then (s1, .scanEnd)
    else if s1.err = none then
      ({ s1 with err := some (.SyntaxError (ascii "unexpected end of JSON input")) }, .scanError)
    else (s1, .scanError)

/-- The loop of `checkValid`: the error of the first step that returns `scanError`,
otherwise the scanner after the last byte. -/
def checkValidLoop : scanner → Bytes → Except GoError scanner
  | s, [] => .ok s
  | s, c :: rest =>
      let (s1, op) := s.doStep c
      if op = .scanError then .error (s1.err.getD .phasePanic)
      else checkValidLoop s1 rest

/-- Embeds `checkValid`: `none` when `data` is one JSON value, otherwise the syntax error. -/
def checkValid (data : Bytes) : Option GoError :=
  match checkValidLoop scanner.reset data with
  | .error e => some e
  | .ok s =>
      let (s1, op) := s.eof
      if op = .scanError then some (s1.err.getD .phasePanic) else none

end json

/-! ## encoding/json: `Marshal` at the type `StateData` (`encode.go`) -/

/-- The type `StateData` of `main.go`: one field, `RedirectURL`, with the JSON
name `redirect_url`. -/
structure StateData where
  RedirectURL : Bytes
  deriving DecidableEq, Repr

namespace json

/-- The table `htmlSafeSet`: the ASCII bytes that `appendString` copies when it
escapes HTML, that is 0x20..0x7f without `"`, `&`, `<`, `>` and `\`. -/
def htmlSafeSet (b : Nat) : Bool :=
  0x20 ≤ b ∧ b < 0x80 ∧ b ≠ 34 ∧ b ≠ 38 ∧ b ≠ 60 ∧ b ≠ 62 ∧ b ≠ 92

/-- The `switch b` of `appendString`: the escape written for an ASCII byte that
is not in `htmlSafeSet`. -/
def escapeByte (b : Nat) : Bytes :=
  if b = 92 ∨ b = 34 then [92, b]
  else if b = 8 then [92, 98]
  else if b = 12 then [92, 102]
  else if b = 10 then [92, 110]
  else if b = 13 then [92, 114]
  else if b = 9 then [92, 116]
  else [92, 117, 48, 48, hex (b / 16), hex (b % 16)]

/-- The loop of `appendString(dst, src, escapeHTML = true)`, giving the bytes
written between the two quotes. -/
def appendStringLoop : Nat → Bytes → Bytes
  | 0, _ => []
  | _ + 1, [] => []
  | fuel + 1, b :: rest =>
      if b < 0x80 then
        (if htmlSafeSet b then [b] else escapeByte b) ++ appendStringLoop fuel rest
      else
        let (c, size) := utf8.DecodeRune ((b :: rest).take 4)
        if c = utf8.RuneError ∧ size = 1 then
          [92, 117, 102, 102, 102, 100] ++ appendStringLoop fuel rest
        else if c = 0x2028 ∨ c = 0x2029 then
          [92, 117, 50, 48, 50, hex (c % 16)] ++ appendStringLoop fuel (rest.drop (size - 1))
        else (b :: rest).take size ++ appendStringLoop fuel (rest.drop (size - 1))

/-- Embeds `appendString(dst, src, true)`: `src` as a JSON string literal. -/
def appendString (src : Bytes) : Bytes :=
  [34] ++ appendStringLoop src.length src ++ [34]

/-- Embeds `json.Marshal` of a `StateData`: the object with the single member
`redirect_url`.  Encoding a struct with one string field cannot fail. -/
def Marshal (v : StateData) : Except GoError Bytes :=
  .ok (ascii "\x7b\"redirect_url\":" ++ appendString v.RedirectURL ++ ascii "\x7d")

/-! ## encoding/json: `Unmarshal` at the type `StateData` (`decode.go`) -/

/-- The value of a hexadecimal digit, as in `getu4`. -/
def hexValue (c : Nat) : Option Nat :=
  if 48 ≤ c ∧ c ≤ 57 then some (c - 48)
  else if 97 ≤ c ∧ c ≤ 102 then some (c - 97 + 10)
  else if 65 ≤ c ∧ c ≤ 70 then some (c - 65 + 10)
  else none

/-- Embeds `getu4`: the rune of a `\uXXXX` escape at the start of `s`; `none` is Go's `-1`. -/
def getu4 (s : Bytes) : Option Nat :=
  match s with
  | 92 :: 117 :: a :: b :: c :: d :: _ =>
      match hexValue a, hexValue b, hexValue c, hexValue d with
      | some a, some b, some c, some d => some (((a * 16 + b) * 16 + c) * 16 + d)
      | _, _, _, _ => none
  | _ => none

/-- Embeds `utf16.IsSurrogate`. -/
def isSurrogate (r : Nat) : Bool := 0xd800 ≤ r ∧ r < 0xe000

/-- Embeds `utf16.DecodeRune(r1, r2)` where `r2` may be Go's `-1` (`none`). -/
def utf16DecodeRune (r1 : Nat) (r2 : Option Nat) : Nat :=
  match r2 with
  | some r2 =>
      if 0xd800 ≤ r1 ∧ r1 < 0xdc00 ∧ 0xdc00 ≤ r2 ∧ r2 < 0xe000 then
        (r1 - 0xd800) * 1024 + (r2 - 0xdc00) + 0x10000
      else 0xFFFD
  | none => 0xFFFD

/-- The first loop of `unquoteBytes`: the longest prefix that needs no
unquoting, with the rest of the input. -/
def unquotePrefix : Nat → Bytes → Bytes × Bytes
  | 0, s => ([], s)
  | _ + 1, [] => ([], [])
  | fuel + 1, c :: rest =>
      if c = 92 ∨ c = 34 ∨ c < 32 then ([], c :: rest)
      else if c < 0x80 then
        let (p, q) := unquotePrefix fuel rest
        (c :: p, q)
      else
        let (rr, size) := utf8.DecodeRune (c :: rest)
        if rr = utf8.RuneError ∧ size = 1 then ([], c :: rest)
        else
          let (p, q) := unquotePrefix fuel (rest.drop (size - 1))
          ((c :: rest).take size ++ p, q)

/-- The second loop of `unquoteBytes`: escapes are resolved and invalid UTF-8 is
coerced to U+FFFD; `none` is the result `ok = false`. -/
def unquoteLoop : Nat → Bytes → Option Bytes
  | 0, s => if s = [] then some [] else none
  | _ + 1, [] => some []
  | fuel + 1, c :: rest =>
      if c = 92 then
        match rest with
        | [] => none
        | e :: rest1 =>
            if e = 34 ∨ e = 92 ∨ e = 47 ∨ e = 39 then (unquoteLoop fuel rest1).map (e :: ·)
            else if e = 98 then (unquoteLoop fuel rest1).map (8 :: ·)
            else if e = 102 then (unquoteLoop fuel rest1).map (12 :: ·)
            else if e = 110 then (unquoteLoop fuel rest1).map (10 :: ·)
            else if e = 114 then (unquoteLoop fuel rest1).map (13 :: ·)
            else if e = 116 then (unquoteLoop fuel rest1).map (9 :: ·)
            else if e = 117 then
              match getu4 (c :: rest) with
              | none => none
              | some rr =>
                  let after := rest.drop 5
                  if isSurrogate rr then
                    let dec := utf16DecodeRune rr (getu4 after)
                    if dec ≠ 0xFFFD then
                      (unquoteLoop fuel (after.drop 6)).map (utf8.EncodeRune dec ++ ·)
                    else (unquoteLoop fuel after).map (utf8.EncodeRune 0xFFFD ++ ·)
                  else (unquoteLoop fuel after).map (utf8.EncodeRune rr ++ ·)
            else none
      else if c = 34 ∨ c < 32 then none
      else if c < 0x80 then (unquoteLoop fuel rest).map (c :: ·)
      else
        let (rr, size) := utf8.DecodeRune (c :: rest)
        (unquoteLoop fuel (rest.drop (size - 1))).map (utf8.EncodeRune rr ++ ·)

/-- Embeds `unquoteBytes`: the contents of a quoted JSON string literal. -/
def unquoteBytes (s : Bytes) : Option Bytes :=
  if s.length < 2 ∨ s.head? ≠ some 34 ∨ s.getLast? ≠ some 34 then none
  else
    let body := s.tail.dropLast
    let (p, q) := unquotePrefix body.length body
    if q = [] then some body
    else (unquoteLoop q.length q).map (p ++ ·)

/-- What a value is decoded into: the struct `StateData` (the top-level
target), its string field `RedirectURL`, or the invalid `reflect.Value` used
for the value of a key that matches no field. -/
inductive Target where
  | struct | field | invalid
  deriving DecidableEq, Repr

/-- The type `decodeState`, with the target `StateData` in it.  The position
`d.off` in `d.data` is kept as `cur = data[off-1]` and `rest = data[off:]`. -/
structure decodeState where
  cur : Nat
  rest : Bytes
  opcode : Op
  scan : scanner
  savedError : Option GoError
  RedirectURL : Bytes
  deriving DecidableEq, Repr

/-- Embeds `decodeState.saveError`: only the first error is kept. -/
def decodeState.saveError (d : decodeState) (err : GoError) : decodeState :=
  if d.savedError = none then { d with savedError := some err } else d

/-- The loop of `decodeState.scanWhile`. -/
def scanWhileLoop (op : Op) : scanner → Nat → Bytes → scanner × Op × Nat × Bytes
  | s, cur, [] => ((s.eof).1, (s.eof).2, cur, [])
  | s, _, c :: rest =>
      let (s1, newOp) := s.doStep c
      if newOp ≠ op then (s1, newOp, c, rest) else scanWhileLoop op s1 c rest

/-- Embeds `decodeState.scanWhile`. -/
def decodeState.scanWhile (d : decodeState) (op : Op) : decodeState :=
  let r := scanWhileLoop op d.scan d.cur d.rest
  { d with scan := r.1, opcode := r.2.1, cur := r.2.2.1, rest := r.2.2.2 }

/-- Embeds `decodeState.scanNext`. -/
def decodeState.scanNext (d : decodeState) : decodeState :=
  match d.rest with
  | c :: rest =>
      let (s1, op) := d.scan.doStep c
      { d with scan := s1, opcode := op, cur := c, rest := rest }
  | [] => { d with scan := (d.scan.eof).1, opcode := (d.scan.eof).2 }

/-- The string loop of `rescanLiteral`: the bytes up to and including the
closing quote, and what follows them. -/
def rescanString : Bytes → Bytes × Bytes
  | [] => ([], [])
  | 92 :: c :: rest => let (a, b) := rescanString rest; (92 :: c :: a, b)
  | 34 :: rest => ([34], rest)
  | c :: rest => let (a, b) := rescanString rest; (c :: a, b)

/-- The number loop of `rescanLiteral`. -/
def rescanNumber : Bytes → Bytes × Bytes
  | [] => ([], [])
  | c :: rest =>
      if isDigit c ∨ c = 46 ∨ c = 101 ∨ c = 69 ∨ c = 43 ∨ c = 45 then
        let (a, b) := rescanNumber rest; (c :: a, b)
      else ([], c :: rest)

/-- Embeds `decodeState.rescanLiteral`, returning also the literal
`d.data[start:d.readIndex()]` that the callers take afterwards.  The literal
starts with `d.cur`; the byte after it is given to `stateEndValue`. -/
def decodeState.rescanLiteral (d : decodeState) : Bytes × decodeState :=
  let (body, after) :=
    if d.cur = 34 then rescanString d.rest
    else if isDigit d.cur ∨ d.cur = 45 then rescanNumber d.rest
    else if d.cur = 116 then (d.rest.take 3, d.rest.drop 3)
    else if d.cur = 102 then (d.rest.take 4, d.rest.drop 4)
    else if d.cur = 110 then (d.rest.take 3, d.rest.drop 3)
    else ([], d.rest)
  match after with
  | c :: rest =>
      let (s1, op) := stateEndValue d.scan c
      (d.cur :: body, { d with scan := s1, opcode := op, cur := c, rest := rest })
  | [] => (d.cur :: body, { d with opcode := .scanEnd, rest := [] })

/-- The loop of `decodeState.skip`: steps until the parse-state stack is
shorter than `depth`.  Running off the input is Go's index panic (`none`). -/
def skipLoop (depth : Nat) : scanner → Bytes → Option (scanner × Op × Nat × Bytes)
  | _, [] => none
  | s, c :: rest =>
      let (s1, op) := s.doStep c
      if s1.parseState.length < depth then some (s1, op, c, rest) else skipLoop depth s1 rest

/-- Embeds `decodeState.skip`. -/
def decodeState.skip (d : decodeState) : Option decodeState :=
  (skipLoop d.scan.parseState.length d.scan d.rest).map fun r =>
    { d with scan := r.1, opcode := r.2.1, cur := r.2.2.1, rest := r.2.2.2 }

/-- Embeds `decodeState.literalStore(item, v, false)` for the literal `c :: tail`;
`none` is a panic.  `null` leaves a struct or string as it is, a string is
stored in the field, and every other combination is an
`UnmarshalTypeError`. -/
def decodeState.literalStore (d : decodeState) (c : Nat) (tail : Bytes) (target : Target) :
    Option decodeState :=
  if c = 110 then some d
  else if c = 116 ∨ c = 102 then
    some (d.saveError (.UnmarshalTypeError (ascii "bool") (target = .field)))
  else if c = 34 then
    match unquoteBytes (c :: tail) with
    | none => none
    | some s =>
        if target = .field then some { d with RedirectURL := s }
        else some (d.saveError (.UnmarshalTypeError (ascii "string") false))
  else if c ≠ 45 ∧ ¬ isDigit c then none
  else some (d.saveError (.UnmarshalTypeError (ascii "number") (target = .field)))

/-- Embeds `decodeState.value(v)` for a member of the object: `v` is the string field
(`Target.field`) or the invalid value (`Target.invalid`).  Arrays and objects
are skipped, with an `UnmarshalTypeError` when they were meant for the field. -/
def decodeState.valueMember (d : decodeState) (target : Target) : Option decodeState :=
  match d.opcode with
  | .scanBeginArray =>
      let d1 := if target = .invalid then d
        else d.saveError (.UnmarshalTypeError (ascii "array") true)
      d1.skip.map decodeState.scanNext
  | .scanBeginObject =>
      let d1 := if target = .invalid then d
        else d.saveError (.UnmarshalTypeError (ascii "object") true)
      d1.skip.map decodeState.scanNext
  | .scanBeginLiteral =>
      let (item, d1) := d.rescanLiteral
      if target = .invalid then some d1
      else d1.literalStore d.cur item.tail target
  | _ => none

/-- The folded form of an ASCII letter (its upper case). -/
def foldByte (c : Nat) : Nat := if 97 ≤ c ∧ c ≤ 122 then c - 32 else c

/-- The field lookup of `decodeState.object` for `StateData`: the key names the
field when it equals `redirect_url`, exactly or under case folding (no
non-ASCII character folds to a letter of `redirect_url`). -/
def matchesField (key : Bytes) : Bool :=
  key = ascii "redirect_url" ∨ key.map foldByte = (ascii "redirect_url").map foldByte

/-- The loop `for { ... }` of `decodeState.object` for the struct `StateData`. -/
def objectLoop : Nat → decodeState → Option decodeState
  | 0, _ => none
  | fuel + 1, d =>
      let d1 := d.scanWhile .scanSkipSpace
      if d1.opcode = .scanEndObject then some d1
      else if d1.opcode ≠ .scanBeginLiteral then none
      else
        let (item, d2) := d1.rescanLiteral
        match unquoteBytes item with
        | none => none
        | some key =>
            let target := if matchesField key then Target.field else Target.invalid
            let d3 := if d2.opcode = .scanSkipSpace then d2.scanWhile .scanSkipSpace else d2
            if d3.opcode ≠ .scanObjectKey then none
            else
              match (d3.scanWhile .scanSkipSpace).valueMember target with
              | none => none
              | some d4 =>
                  let d5 := if d4.opcode = .scanSkipSpace then d4.scanWhile .scanSkipSpace else d4
                  if d5.opcode = .scanEndObject then some d5
                  else if d5.opcode ≠ .scanObjectValue then none
                  else objectLoop fuel d5

/-- Embeds `decodeState.value(rv)` at the top level, where `rv` points to the
`StateData`: an object is decoded member by member, an array or a literal
other than `null` is an `UnmarshalTypeError`. -/
def decodeState.value (d : decodeState) : Option decodeState :=
  match d.opcode with
  | .scanBeginArray =>
      (d.saveError (.UnmarshalTypeError (ascii "array") false)).skip.map decodeState.scanNext
  | .scanBeginObject => (objectLoop (d.rest.length + 1) d).map decodeState.scanNext
  | .scanBeginLiteral =>
      let (item, d1) := d.rescanLiteral
      d1.literalStore d.cur item.tail .struct
  | _ => none

/-- Embeds `json.Unmarshal(data, &stateData)` with `stateData` the zero `StateData`:
`checkValid`, then `decodeState.unmarshal`. -/
def Unmarshal (data : Bytes) : Except GoError StateData :=
  match checkValid data with
  | some e => .error e
  | none =>
      let d0 : decodeState :=
        { cur := 0, rest := data, opcode := .scanContinue, scan := scanner.reset,
          savedError := none, RedirectURL := [] }
      match (d0.scanWhile .scanSkipSpace).value with
      | none => .error .phasePanic
      | some d =>
          match d.savedError with
          | some e => .error e
          | none => .ok { RedirectURL := d.RedirectURL }

end json

/-! ## `main.go`: the state codec -/

/-- Embeds `generateState`. -/
def generateState (redirectURL : Bytes) : Except GoError Bytes :=
  let state : StateData := { RedirectURL := redirectURL }
  match json.Marshal state with
  | .error err => .error err
  | .ok jsonData => .ok (base64.EncodeToString jsonData)

/-- Embeds `parseState`. -/
def parseState (state : Bytes) : Except GoError Bytes :=
  match base64.DecodeString state with
  | .error err => .error err
  | .ok jsonData =>
      match json.Unmarshal jsonData with
      | .error err => .error err
      | .ok stateData => .ok stateData.RedirectURL

/-! ## net/url: `QueryEscape` and `Values` -/

namespace url

/-- The digits `"0123456789ABCDEF"` of `net/url`. -/
def upperhex (n : Nat) : Nat := (ascii "0123456789ABCDEF").getD n 0

/-- Embeds `shouldEscape(c, encodeQueryComponent)`: everything is escaped except
letters, digits and `-`, `_`, `.`, `~`. -/
def shouldEscape (c : Nat) : Bool :=
  if (97 ≤ c ∧ c ≤ 122) ∨ (65 ≤ c ∧ c ≤ 90) ∨ (48 ≤ c ∧ c ≤ 57) then false
  else if c = 45 ∨ c = 95 ∨ c = 46 ∨ c = 126 then false
  else true

/-- What `escape(s, encodeQueryComponent)` writes for one byte. -/
def escapeByte (c : Nat) : Bytes :=
  if c = 32 then [43]
  else if shouldEscape c then [37, upperhex (c / 16), upperhex (c % 16)]
  else [c]

/-- Embeds `url.QueryEscape`. -/
def QueryEscape : Bytes → Bytes
  | [] => []
  | c :: rest => escapeByte c ++ QueryEscape rest

/-- The type `url.Values`, a map from keys to lists of values, as an
association list with one entry per key. -/
abbrev Values := List (Bytes × List Bytes)

/-- Embeds `Values.Set(key, value)`: the key's values are replaced by the single `value`. -/
def Values.Set : Values → Bytes → Bytes → Values
  | [], key, value => [(key, [value])]
  | (k, vs) :: rest, key, value =>
      if k = key then (key, [value]) :: rest else (k, vs) :: Values.Set rest key value

/-- The order of Go strings: lexicographic on bytes (`a <= b`). -/
def bytesLE : Bytes → Bytes → Bool
  | [], _ => true
  | _ :: _, [] => false
  | a :: as, b :: bs => if a < b then true else if b < a then false else bytesLE as bs

/-- Insertion of an entry in a list of entries sorted by key. -/
def insertSorted (e : Bytes × List Bytes) : Values → Values
  | [] => [e]
  | x :: rest => if bytesLE e.1 x.1 then e :: x :: rest else x :: insertSorted e rest

/-- The entries in the order of `slices.Sort(keys)`. -/
def sortByKey : Values → Values
  | [] => []
  | e :: rest => insertSorted e (sortByKey rest)

/-- The inner loop of `Values.Encode`, over the values of one key. -/
def encodeValues (keyEscaped : Bytes) : Bytes → List Bytes → Bytes
  | buf, [] => buf
  | buf, v :: vs =>
      let buf1 := if buf.length > 0 then buf ++ [38] else buf
      encodeValues keyEscaped (buf1 ++ keyEscaped ++ [61] ++ QueryEscape v) vs

/-- The outer loop of `Values.Encode`, over the sorted keys. -/
def encodeEntries : Bytes → Values → Bytes
  | buf, [] => buf
  | buf, (k, vs) :: rest => encodeEntries (encodeValues (QueryEscape k) buf vs) rest

/-- Embeds `Values.Encode`: `key=value` pairs joined by `&`, sorted by key. -/
def Values.Encode (v : Values) : Bytes := encodeEntries [] (sortByKey v)

end url

/-! ## golang.org/x/oauth2 -/

namespace oauth2

/-- The type `oauth2.Endpoint`. -/
structure Endpoint where
  AuthURL : Bytes
  TokenURL : Bytes
  deriving DecidableEq, Repr

/-- The type `oauth2.Config`. -/
structure Config where
  ClientID : Bytes
  ClientSecret : Bytes
  Endpoint : Endpoint
  RedirectURL : Bytes
  Scopes : List Bytes
  deriving DecidableEq, Repr

/-- The type `oauth2.Token`, of which the handler reads `AccessToken`. -/
structure Token where
  AccessToken : Bytes
  deriving DecidableEq, Repr

/-- Embeds `strings.Join(elems, " ")`. -/
def joinSpace : List Bytes → Bytes
  | [] => []
  | [a] => a
  | a :: b :: rest => a ++ [32] ++ joinSpace (b :: rest)

/-- The options are applied in order: `opt.setValue(v)` is `v.Set(key, value)`. -/
def applyOpts : url.Values → List (Bytes × Bytes) → url.Values
  | v, [] => v
  | v, (k, val) :: rest => applyOpts (url.Values.Set v k val) rest

/-- Embeds `Config.AuthCodeURL(state, opts...)`, each option being a
`SetAuthURLParam(key, value)`. -/
def Config.AuthCodeURL (c : Config) (state : Bytes) (opts : List (Bytes × Bytes)) : Bytes :=
  let v0 : url.Values :=
    [(ascii "response_type", [ascii "code"]), (ascii "client_id", [c.ClientID])]
  let v1 := if c.RedirectURL ≠ [] then url.Values.Set v0 (ascii "redirect_uri") c.RedirectURL
    else v0
  let v2 := if c.Scopes.length > 0 then url.Values.Set v1 (ascii "scope") (joinSpace c.Scopes)
    else v1
  let v3 := if state ≠ [] then url.Values.Set v2 (ascii "state") state else v2
  let v4 := applyOpts v3 opts
  let sep : Nat := if 63 ∈ c.Endpoint.AuthURL then 38 else 63
  c.Endpoint.AuthURL ++ [sep] ++ url.Values.Encode v4

end oauth2

/-- The variable `google.Endpoint`. -/
def googleEndpoint : oauth2.Endpoint :=
  { AuthURL := ascii "https://accounts.google.com/o/oauth2/auth",
    TokenURL := ascii "https://oauth2.googleapis.com/token" }

/-! ## `main.go`: configuration and the request handler -/

/-- The function `init` of `main.go`.  `getenv` is `os.Getenv` (the empty string
for a variable that is not set); `none` is `log.Fatal`, which ends the
process before `googleOauthConfig` is set. -/
def init (getenv : Bytes → Bytes) : Option oauth2.Config :=
  let clientID := getenv (ascii "GOOGLE_CLIENT_ID")
  let clientSecret := getenv (ascii "GOOGLE_CLIENT_SECRET")
  let redirectURL := getenv (ascii "GOOGLE_REDIRECT_URL")
  if clientID = [] ∨ clientSecret = [] ∨ redirectURL = [] then none
  else
    some { ClientID := clientID, ClientSecret := clientSecret, RedirectURL := redirectURL,
           Scopes := [ascii "openid", ascii "profile", ascii "email"],
           Endpoint := googleEndpoint }

/-- The fields of `events.APIGatewayProxyRequest` that the handler reads. -/
structure APIGatewayProxyRequest where
  Path : Bytes
  QueryStringParameters : List (Bytes × Bytes)
  deriving DecidableEq, Repr

/-- The fields of `events.APIGatewayProxyResponse` that the handler sets; the
others keep their zero value. -/
structure APIGatewayProxyResponse where
  StatusCode : Int
  Headers : List (Bytes × Bytes) := []
  Body : Bytes := []
  deriving DecidableEq, Repr

/-- The index expression `m[key]` of a `map[string]string`: the empty string
when the key is absent. -/
def mapIndex (m : List (Bytes × Bytes)) (key : Bytes) : Bytes :=
  (m.lookup key).getD []

/-- The function `handleRequest` of `main.go`.  `googleOauthConfig` is the
configuration set by `init`; `exchange code` is what
`googleOauthConfig.Exchange(ctx, code)` returns.  The result is the pair of
the response and the error. -/
def handleRequest (googleOauthConfig : oauth2.Config)
    (exchange : Bytes → Except GoError oauth2.Token) (request : APIGatewayProxyRequest) :
    APIGatewayProxyResponse × Option GoError :=
  if request.Path = ascii "/auth" then
    let redirectURL := mapIndex request.QueryStringParameters (ascii "redirect_url")
    if redirectURL = [] then
      ({ StatusCode := 400,
         Body := ascii "\x7b\"error\": \"redirect_url parameter is required\"\x7d" }, none)
    else
      match generateState redirectURL with
      | .error err =>
          ({ StatusCode := 500,
             Body := ascii "\x7b\"error\": \"failed to generate state: " ++ err.Error ++
               ascii "\"\x7d" }, none)
      | .ok state =>
          let url := googleOauthConfig.AuthCodeURL state
            [(ascii "prompt", ascii "select_account"), (ascii "access_type", ascii "online"),
             (ascii "response_type", ascii "code"),
             (ascii "include_granted_scopes", ascii "true")]
          ({ StatusCode := 302, Headers := [(ascii "Location", url)] }, none)
  else if request.Path = ascii "/callback" then
    let state := mapIndex request.QueryStringParameters (ascii "state")
    if state = [] then
      ({ StatusCode := 400,
         Body := ascii "\x7b\"error\": \"state parameter is required\"\x7d" }, none)
    else
      match parseState state with
      | .error err =>
          ({ StatusCode := 400,
             Body := ascii "\x7b\"error\": \"invalid state parameter: " ++ err.Error ++
               ascii "\"\x7d" }, none)
      | .ok redirectURL =>
          let code := mapIndex request.QueryStringParameters (ascii "code")
          if code = [] then
            ({ StatusCode := 400,
               Body := ascii "\x7b\"error\": \"code parameter is required\"\x7d" }, none)
          else
            match exchange code with
            | .error err =>
                ({ StatusCode := 500,
                   Body := ascii "\x7b\"error\": \"failed to exchange token: " ++ err.Error ++
                     ascii "\"\x7d" }, none)
            | .ok token =>
                ({ StatusCode := 302,
                   Headers := [(ascii "Location",
                     redirectURL ++ ascii "#access_token=" ++ token.AccessToken)] }, none)
  else
    ({ StatusCode := 404, Body := ascii "\x7b\"error\": \"not found\"\x7d" }, none)

/-- A call that `handleRequest` makes to one of its collaborators, with the
argument of the call: `generateState(redirectURL)`, `parseState(state)`,
`googleOauthConfig.AuthCodeURL(state, ...)` or
`googleOauthConfig.Exchange(ctx, code)`. -/
inductive Call where
  | generateState (redirectURL : Bytes)
  | AuthCodeURL (state : Bytes)
  | parseState (state : Bytes)
  | Exchange (code : Bytes)
  deriving DecidableEq, Repr

/-- The function `handleRequest` of `main.go` with its effects made explicit: the
second component lists the calls made on the way to the `return`, in order. -/
def handleRequestCalls (googleOauthConfig : oauth2.Config)
    (exchange : Bytes → Except GoError oauth2.Token) (request : APIGatewayProxyRequest) :
    (APIGatewayProxyResponse × Option GoError) × List Call :=
  if request.Path = ascii "/auth" then
    let redirectURL := mapIndex request.QueryStringParameters (ascii "redirect_url")
    if redirectURL = [] then
      (({ StatusCode := 400,
          Body := ascii "\x7b\"error\": \"redirect_url parameter is required\"\x7d" }, none),
        [])
    else
      match generateState redirectURL with
      | .error err =>
          (({ StatusCode := 500,
              Body := ascii "\x7b\"error\": \"failed to generate state: " ++ err.Error ++
                ascii "\"\x7d" }, none),
            [.generateState redirectURL])
      | .ok state =>
          let url := googleOauthConfig.AuthCodeURL state
            [(ascii "prompt", ascii "select_account"), (ascii "access_type", ascii "online"),
             (ascii "response_type", ascii "code"),
             (ascii "include_granted_scopes", ascii "true")]
          (({ StatusCode := 302, Headers := [(ascii "Location", url)] }, none),
            [.generateState redirectURL, .AuthCodeURL state])
  else if request.Path = ascii "/callback" then
    let state := mapIndex request.QueryStringParameters (ascii "state")
    if state = [] then
      (({ StatusCode := 400,
          Body := ascii "\x7b\"error\": \"state parameter is required\"\x7d" }, none), [])
    else
      match parseState state with
      | .error err =>
          (({ StatusCode := 400,
              Body := ascii "\x7b\"error\": \"invalid state parameter: " ++ err.Error ++
                ascii "\"\x7d" }, none),
            [.parseState state])
      | .ok redirectURL =>
          let code := mapIndex request.QueryStringParameters (ascii "code")
          if code = [] then
            (({ StatusCode := 400,
                Body := ascii "\x7b\"error\": \"code parameter is required\"\x7d" }, none),
              [.parseState state])
          else
            match exchange code with
            | .error err =>
                (({ StatusCode := 500,
                    Body := ascii "\x7b\"error\": \"failed to exchange token: " ++ err.Error ++
                      ascii "\"\x7d" }, none),
                  [.parseState state, .Exchange code])
            | .ok token =>
                (({ StatusCode := 302,
                    Headers := [(ascii "Location",
                      redirectURL ++ ascii "#access_token=" ++ token.AccessToken)] }, none),
                  [.parseState state, .Exchange code])
  else
    (({ StatusCode := 404, Body := ascii "\x7b\"error\": \"not found\"\x7d" }, none), [])

/-- The code of a call to `Exchange`. -/
def Call.exchangeCode : Call → Option Bytes
  | .Exchange code => some code
  | _ => none

/-- The argument of a call to the state codec, `generateState` or `parseState`. -/
def Call.codecArgument : Call → Option Bytes
  | .generateState redirectURL => some redirectURL
  | .parseState state => some state
  | _ => none

/-- The codes with which `handleRequest` calls `Exchange`, in order. -/
def exchangeCalls (googleOauthConfig : oauth2.Config)
    (exchange : Bytes → Except GoError oauth2.Token) (request : APIGatewayProxyRequest) :
    List Bytes :=
  (handleRequestCalls googleOauthConfig exchange request).2.filterMap Call.exchangeCode

/-- The arguments with which `handleRequest` calls the state codec, in order. -/
def codecCalls (googleOauthConfig : oauth2.Config)
    (exchange : Bytes → Except GoError oauth2.Token) (request : APIGatewayProxyRequest) :
    List Bytes :=
  (handleRequestCalls googleOauthConfig exchange request).2.filterMap Call.codecArgument

/-! ## Notions used in the statements and proofs -/

/-- The first byte of `data` that is not JSON white space. -/
def json.firstByte (data : Bytes) : Option Nat :=
  (data.dropWhile json.isSpace).head?

/-- A valid multi-byte UTF-8 sequence `seq` that encodes the rune `c`. -/
def utf8.IsRune (seq : Bytes) (c : Nat) : Prop :=
  2 ≤ seq.length ∧ (∀ x ∈ seq, 0x80 ≤ x ∧ x < 256) ∧ utf8.EncodeRune c = seq ∧ 0x80 ≤ c ∧
    ∀ t, utf8.DecodeRune (seq ++ t) = (c, seq.length)

/-- The relation `Escaped src out`: `out` is what the loop of `appendString` writes for the
valid UTF-8 string `src`, described piece by piece. -/
inductive json.Escaped : Bytes → Bytes → Prop where
  | nil : json.Escaped [] []
  | safe (b : Nat) (src out : Bytes) (h : json.htmlSafeSet b = true) :
      json.Escaped src out → json.Escaped (b :: src) (b :: out)
  | esc (b : Nat) (src out : Bytes) (hb : b < 0x80) (h : json.htmlSafeSet b = false) :
      json.Escaped src out → json.Escaped (b :: src) (json.escapeByte b ++ out)
  | rune (seq : Bytes) (c : Nat) (src out : Bytes) (h : utf8.IsRune seq c)
      (hc : ¬ (c = 0x2028 ∨ c = 0x2029)) :
      json.Escaped src out → json.Escaped (seq ++ src) (seq ++ out)
  | sep (seq : Bytes) (c : Nat) (src out : Bytes) (h : utf8.IsRune seq c)
      (hc : c = 0x2028 ∨ c = 0x2029) :
      json.Escaped src out →
        json.Escaped (seq ++ src) ([92, 117, 50, 48, 50, json.hex (c % 16)] ++ out)

/-! ## Members of the top-level object -/

namespace json

/-- The scanner expects the key of a member of the top-level object: it has
read the `{` of the object, or the `,` after one of its members. -/
def scanner.atKey (s : scanner) : Prop :=
  s.parseState = [.parseObjectKey] ∧
    (s.step = .stateBeginString ∨ s.step = .stateBeginStringOrEmpty)

/-- The text `pre` is the beginning of a JSON object up to a place where the key
of one of its members is expected: white space, `{`, and perhaps complete
members, each followed by `,`.  It is told by the scanner of `encoding/json`. -/
def atObjectKey (pre : Bytes) : Bool :=
  match checkValidLoop scanner.reset pre with
  | .ok s =>
      s.parseState = [.parseObjectKey] ∧
        (s.step = .stateBeginString ∨ s.step = .stateBeginStringOrEmpty)
  | .error _ => false

/-- The text `keyText` is a JSON string literal that names the field of
`StateData`: unquoted, it is `redirect_url` in some case. -/
def namesField (keyText : Bytes) : Bool :=
  match unquoteBytes keyText with
  | some key => matchesField key
  | none => false

/-- The scanner can accept no more than white space: it is in `stateError`, or it
has finished the top-level value. -/
def scanner.dead (s : scanner) : Prop :=
  s.step = .stateError ∨ (s.parseState = [] ∧ s.step = .stateEndTop)

/-- The relation `Ahead T s rest`: the text `rest`, scanned from `s` without error, leads to
the text `T` at a place where `scanner.atKey` holds. -/
def Ahead (T : Bytes) (s : scanner) (rest : Bytes) : Prop :=
  ∃ rem sK sf, rest = rem ++ T ∧ checkValidLoop s rem = .ok sK ∧ sK.atKey ∧
    checkValidLoop sK T = .ok sf

/-- The body of a string literal in which every `"` follows a `\` that escapes it. -/
inductive Closed : Bytes → Prop where
  | nil : Closed []
  | plain (c : Nat) (b : Bytes) (h1 : c ≠ 34) (h2 : c ≠ 92) : Closed b → Closed (c :: b)
  | esc (e : Nat) (b : Bytes) : Closed b → Closed (92 :: e :: b)

/-- The end of an iteration of `objectLoop`, after the value of a member; `k` is
the rest of the loop. -/
def memberEnd (k : decodeState → Option decodeState) (d4 : decodeState) : Option decodeState :=
  let d5 := if d4.opcode = .scanSkipSpace then d4.scanWhile .scanSkipSpace else d4
  if d5.opcode = .scanEndObject then some d5
  else if d5.opcode ≠ .scanObjectValue then none
  else k d5

/-- The middle of an iteration of `objectLoop`, after the key: the colon and
the value. -/
def memberValue (k : decodeState → Option decodeState) (key : Bytes) (d2 : decodeState) :
    Option decodeState :=
  let d3 := if d2.opcode = .scanSkipSpace then d2.scanWhile .scanSkipSpace else d2
  if d3.opcode ≠ .scanObjectKey then none
  else
    match (d3.scanWhile .scanSkipSpace).valueMember
        (if matchesField key then Target.field else Target.invalid) with
    | none => none
    | some d4 => memberEnd k d4

/-- An iteration of `objectLoop` after its first `scanWhile`. -/
def member (k : decodeState → Option decodeState) (d1 : decodeState) : Option decodeState :=
  if d1.opcode = .scanEndObject then some d1
  else if d1.opcode ≠ .scanBeginLiteral then none
  else
    match unquoteBytes d1.rescanLiteral.1 with
    | none => none
    | some key => memberValue k key d1.rescanLiteral.2

end json

/-! ## Reading a URL back: `url.ParseQuery` -/

namespace url

/-- Embeds `strings.Cut(s, sep)` for a one-byte separator: the text before the first
`sep` and the text after it (all of `s` and nothing when there is no `sep`). -/
def cut (sep : Nat) : Bytes → Bytes × Bytes
  | [] => ([], [])
  | c :: rest => if c = sep then ([], rest) else ((c :: (cut sep rest).1), (cut sep rest).2)

/-- The pieces of `s` between the occurrences of `sep`. -/
def splitOn (sep : Nat) : Bytes → List Bytes
  | [] => [[]]
  | c :: rest =>
      if c = sep then [] :: splitOn sep rest
      else
        match splitOn sep rest with
        | seg :: segs => (c :: seg) :: segs
        | [] => [[c]]

/-- Embeds `unhex`: the value of a hexadecimal digit. -/
def unhex (c : Nat) : Option Nat :=
  if 48 ≤ c ∧ c ≤ 57 then some (c - 48)
  else if 97 ≤ c ∧ c ≤ 102 then some (c - 97 + 10)
  else if 65 ≤ c ∧ c ≤ 70 then some (c - 65 + 10)
  else none

/-- Embeds `url.QueryUnescape`: `+` is a space and `%XX` is the byte `XX`; `none` is
the `EscapeError`. -/
def QueryUnescape : Bytes → Option Bytes
  | [] => some []
  | 37 :: a :: b :: rest =>
      match unhex a, unhex b, QueryUnescape rest with
      | some x, some y, some r => some ((x * 16 + y) :: r)
      | _, _, _ => none
  | 37 :: _ => none
  | 43 :: rest => (QueryUnescape rest).map (32 :: ·)
  | c :: rest => (QueryUnescape rest).map (c :: ·)

/-- One `key=value` piece of a query, as `parseQuery` reads it; pieces that are
empty, contain `;` or do not unescape are dropped. -/
def parsePair (piece : Bytes) : Option (Bytes × Bytes) :=
  if piece = [] ∨ 59 ∈ piece then none
  else
    match QueryUnescape (cut 61 piece).1, QueryUnescape (cut 61 piece).2 with
    | some k, some v => some (k, v)
    | _, _ => none

/-- Embeds `url.ParseQuery`: the `key=value` pairs of a query string, in order. -/
def ParseQuery (query : Bytes) : List (Bytes × Bytes) :=
  (splitOn 38 query).filterMap parsePair

/-- The query parameters of a URL: its fragment (after `#`) is dropped and
what follows the first `?` is parsed. -/
def queryParams (u : Bytes) : List (Bytes × Bytes) :=
  ParseQuery (cut 63 (cut 35 u).1).2

end url

/-! ## Well-formed base64url text -/

namespace base64

/-- The characters of the alphabet: `A`-`Z`, `a`-`z`, `0`-`9`, `-` and `_`. -/
def isAlphabet (c : Nat) : Bool :=
  (65 ≤ c ∧ c ≤ 90) ∨ (97 ≤ c ∧ c ≤ 122) ∨ (48 ≤ c ∧ c ≤ 57) ∨ c = 45 ∨ c = 95

/-- The text without the characters `\r` and `\n`, which the decoder ignores. -/
def stripNewlines (s : Bytes) : Bytes := s.filter (fun c => c ≠ 10 ∧ c ≠ 13)

/-- Padded base64url text: groups of four characters of the alphabet, the last
of which may end in `=` or `==`.  Any other text has a character outside the
alphabet and the padding, or a malformed length or padding. -/
def wellFormed : Bytes → Bool
  | [] => true
  | [a, b, c, d] =>
      isAlphabet a ∧ isAlphabet b ∧
        ((isAlphabet c ∧ (isAlphabet d ∨ d = 61)) ∨ (c = 61 ∧ d = 61))
  | a :: b :: c :: d :: rest =>
      isAlphabet a ∧ isAlphabet b ∧ isAlphabet c ∧ isAlphabet d ∧ wellFormed rest
  | _ => false

end base64

/-- The bytes that are never written by `QueryEscape`: `&`, `=`, `#`, `;` and `?`
separate the parts of a URL and of its query. -/
def url.Plain (y : Nat) : Prop := y ≠ 38 ∧ y ≠ 61 ∧ y ≠ 35 ∧ y ≠ 59 ∧ y ≠ 63

/-! ## A concrete deployment, for the examples -/

/-- An environment with the three variables set. -/
def exampleGetenv (name : Bytes) : Bytes :=
  if name = ascii "GOOGLE_CLIENT_ID" then ascii "client-1"
  else if name = ascii "GOOGLE_CLIENT_SECRET" then ascii "secret"
  else if name = ascii "GOOGLE_REDIRECT_URL" then ascii "https://auth.example/callback"
  else []

/-- The configuration that `init` builds from `exampleGetenv`. -/
def exampleConfig : oauth2.Config :=
  { ClientID := ascii "client-1", ClientSecret := ascii "secret",
    RedirectURL := ascii "https://auth.example/callback",
    Scopes := [ascii "openid", ascii "profile", ascii "email"], Endpoint := googleEndpoint }

/-- A redirect URL of the application. -/
def exampleRedirect : Bytes := ascii "https://app.example/done"

/-- The base64url text of `{"redirect_url":"https://app.example/done"}`. -/
def exampleState : Bytes :=
  ascii "eyJyZWRpcmVjdF91cmwiOiJodHRwczovL2FwcC5leGFtcGxlL2RvbmUifQ=="

/-- The `state` query parameter of the `Location` header of a response. -/
def stateParam (response : APIGatewayProxyResponse) : Option Bytes :=
  (response.Headers.lookup (ascii "Location")).bind
    (fun loc => (url.queryParams loc).lookup (ascii "state"))

/-- A token exchange that accepts the code `good` and rejects every other code. -/
def exampleExchange (code : Bytes) : Except GoError oauth2.Token :=
  if code = ascii "good" then .ok { AccessToken := ascii "abc123" }
  else .error (.exchangeError (ascii "oauth2: cannot fetch token: 400 Bad Request"))

end CherevanAuth

namespace CherevanAuth

/-! ## The states of the scanner inside a value -/

namespace json

/-- The states of the scanner between the bytes of a string literal, where
`rescanString` is at the start of its loop. -/
def inStringStep (st : Step) : Prop :=
  st = .stateInString ∨ st = .stateInStringEscU ∨ st = .stateInStringEscU1 ∨
    st = .stateInStringEscU12 ∨ st = .stateInStringEscU123

/-- The states of the scanner inside a number. -/
def numberStep (st : Step) : Prop :=
  st = .stateNeg ∨ st = .state0 ∨ st = .state1 ∨ st = .stateDot ∨ st = .stateDot0 ∨
    st = .stateE ∨ st = .stateESign ∨ st = .stateE0

/-- The bytes that `rescanLiteral` takes for the bytes of a number. -/
def isNumberChar (c : Nat) : Prop :=
  isDigit c = true ∨ c = 46 ∨ c = 101 ∨ c = 69 ∨ c = 43 ∨ c = 45

/-- The first byte `c` of a literal and the state in which `stateBeginValue` or
`stateBeginString` leaves the scanner after it. -/
def literalStart (c : Nat) (st : Step) : Prop :=
  (c = 34 ∧ st = .stateInString) ∨ (c = 45 ∧ st = .stateNeg) ∨ (c = 48 ∧ st = .state0) ∨
    (49 ≤ c ∧ c ≤ 57 ∧ st = .state1) ∨ (c = 116 ∧ st = .stateT) ∨ (c = 102 ∧ st = .stateF) ∨
    (c = 110 ∧ st = .stateN)

/-- The scanner is inside an array or an object that is the value of a member
of the top-level object. -/
def scanner.inMemberValue (s : scanner) : Prop :=
  ∃ inner, inner ≠ [] ∧ s.parseState = inner ++ [.parseObjectValue]

/-- The scanner has read the value of a member of the top-level object, or is
before it: the stack holds `parseObjectValue` only. -/
def scanner.atValue (s : scanner) : Prop :=
  s.parseState = [.parseObjectValue]

/-- The scanner has just left the array or object that is the value of a member of
the top-level object. -/
def scanner.leftValue (s : scanner) : Prop :=
  s.parseState = [.parseObjectValue] ∧ s.step = .stateEndValue

/-- The outcomes of a step of the scanner inside the value of a member: an error,
a state that is still inside it, or the state right after it. -/
def insideOrLeft (r : scanner × Op) : Prop :=
  r.2 = .scanError ∨ r.1.inMemberValue ∨ r.1.leftValue

end json
end CherevanAuth

namespace CherevanAuth

/-! ## Base64: decoding inverts encoding -/

namespace base64

theorem decodeMap_encodeChar : ∀ v, v < 64 → decodeMap (encodeChar v) = v := by decide

theorem decodeMap_pad : decodeMap padChar = 0xff := by decide

theorem decodeQuantum_four (srcLen si v0 v1 v2 v3 : Nat) (rest : Bytes)
    (h0 : v0 < 64) (h1 : v1 < 64) (h2 : v2 < 64) (h3 : v3 < 64) :
    decodeQuantum srcLen [] si
        (encodeChar v0 :: encodeChar v1 :: encodeChar v2 :: encodeChar v3 :: rest) =
      { nsi := si + 4, rest := rest, out := quantumBytes [v0, v1, v2, v3] 4, err := none } := by
  have e0 := decodeMap_encodeChar v0 h0
  have e1 := decodeMap_encodeChar v1 h1
  have e2 := decodeMap_encodeChar v2 h2
  have e3 := decodeMap_encodeChar v3 h3
  have n0 : v0 ≠ 255 := by omega
  have n1 : v1 ≠ 255 := by omega
  have n2 : v2 ≠ 255 := by omega
  have n3 : v3 ≠ 255 := by omega
  simp [decodeQuantum, e0, e1, e2, e3, n0, n1, n2, n3]

theorem decodeQuantum_three (srcLen si v0 v1 v2 : Nat)
    (h0 : v0 < 64) (h1 : v1 < 64) (h2 : v2 < 64) :
    decodeQuantum srcLen [] si [encodeChar v0, encodeChar v1, encodeChar v2, padChar] =
      { nsi := si + 4, rest := [], out := quantumBytes [v0, v1, v2] 3, err := none } := by
  have e0 := decodeMap_encodeChar v0 h0
  have e1 := decodeMap_encodeChar v1 h1
  have e2 := decodeMap_encodeChar v2 h2
  have n0 : v0 ≠ 255 := by omega
  have n1 : v1 ≠ 255 := by omega
  have n2 : v2 ≠ 255 := by omega
  have hp : padChar ≠ 10 ∧ padChar ≠ 13 := by decide
  simp [decodeQuantum, e0, e1, e2, n0, n1, n2, decodeMap_pad, hp.1, hp.2, afterPadding,
    skipNewlines]

theorem decodeQuantum_two (srcLen si v0 v1 : Nat) (h0 : v0 < 64) (h1 : v1 < 64) :
    decodeQuantum srcLen [] si [encodeChar v0, encodeChar v1, padChar, padChar] =
      { nsi := si + 4, rest := [], out := quantumBytes [v0, v1] 2, err := none } := by
  have e0 := decodeMap_encodeChar v0 h0
  have e1 := decodeMap_encodeChar v1 h1
  have n0 : v0 ≠ 255 := by omega
  have n1 : v1 ≠ 255 := by omega
  have hp : padChar ≠ 10 ∧ padChar ≠ 13 := by decide
  simp [decodeQuantum, e0, e1, n0, n1, decodeMap_pad, hp.1, hp.2, afterPadding,
    skipNewlines]

theorem decodeLoop_encode (srcLen : Nat) :
    ∀ (bs : Bytes), IsBytes bs → ∀ fuel si, (EncodeToString bs).length ≤ fuel →
      decodeLoop srcLen fuel si (EncodeToString bs) = .ok bs := by
  intro bs
  induction bs using EncodeToString.induct with
  | case1 b0 b1 b2 rest ih =>
    intro hb fuel si hf
    have hb0 : b0 < 256 := hb b0 (by simp)
    have hb1 : b1 < 256 := hb b1 (by simp)
    have hb2 : b2 < 256 := hb b2 (by simp)
    have hrest : IsBytes rest := fun b hm => hb b (by simp [hm])
    simp only [EncodeToString] at hf ⊢
    obtain ⟨f, rfl⟩ : ∃ f, fuel = f + 1 := ⟨fuel - 1, by simp at hf; omega⟩
    rw [decodeLoop]
    rw [decodeQuantum_four _ _ _ _ _ _ _ (by omega) (by omega) (by omega) (by omega)]
    simp only
    rw [ih hrest f (si + 4) (by simp at hf; omega)]
    simp only [quantumBytes, List.getD_cons_zero, List.getD_cons_succ]
    have : ((b0 * 65536 + b1 * 256 + b2) / 262144 % 64 * 262144 +
        (b0 * 65536 + b1 * 256 + b2) / 4096 % 64 * 4096 +
        (b0 * 65536 + b1 * 256 + b2) / 64 % 64 * 64 +
        (b0 * 65536 + b1 * 256 + b2) % 64) = b0 * 65536 + b1 * 256 + b2 := by omega
    rw [this]
    have h1 : (b0 * 65536 + b1 * 256 + b2) / 65536 % 256 = b0 := by omega
    have h2 : (b0 * 65536 + b1 * 256 + b2) / 256 % 256 = b1 := by omega
    have h3 : (b0 * 65536 + b1 * 256 + b2) % 256 = b2 := by omega
    simp [h1, h2, h3]
  | case2 b0 b1 =>
    intro hb fuel si hf
    have hb0 : b0 < 256 := hb b0 (by simp)
    have hb1 : b1 < 256 := hb b1 (by simp)
    simp only [EncodeToString] at hf ⊢
    obtain ⟨f, rfl⟩ : ∃ f, fuel = f + 1 := ⟨fuel - 1, by simp at hf; omega⟩
    obtain ⟨g, rfl⟩ : ∃ g, f = g + 1 := ⟨f - 1, by simp at hf; omega⟩
    rw [decodeLoop]
    rw [decodeQuantum_three _ _ _ _ _ (by omega) (by omega) (by omega)]
    simp only [decodeLoop, quantumBytes, List.getD_cons_zero, List.getD_cons_succ]
    simp
    constructor <;> omega
  | case3 b0 =>
    intro hb fuel si hf
    have hb0 : b0 < 256 := hb b0 (by simp)
    simp only [EncodeToString] at hf ⊢
    obtain ⟨f, rfl⟩ : ∃ f, fuel = f + 1 := ⟨fuel - 1, by simp at hf; omega⟩
    obtain ⟨g, rfl⟩ : ∃ g, f = g + 1 := ⟨f - 1, by simp at hf; omega⟩
    rw [decodeLoop]
    rw [decodeQuantum_two _ _ _ _ (by omega) (by omega)]
    simp only [decodeLoop, quantumBytes, List.getD_cons_zero, List.getD_cons_succ]
    simp
    omega
  | case4 =>
    intro _ fuel si _
    cases fuel <;> simp [EncodeToString, decodeLoop]

/-- Decoding what `EncodeToString` produced gives the bytes back. -/
theorem DecodeString_EncodeToString (bs : Bytes) (hb : IsBytes bs) :
    DecodeString (EncodeToString bs) = .ok bs :=
  decodeLoop_encode _ bs hb _ 0 (le_refl _)

end base64
end CherevanAuth

namespace CherevanAuth
namespace utf8

theorem DecodeRune_take_four (s : Bytes) : DecodeRune (s.take 4) = DecodeRune s := by
  rcases s with _ | ⟨a, _ | ⟨b, _ | ⟨c, _ | ⟨d, t⟩⟩⟩⟩ <;> simp [DecodeRune]

theorem first_some {s0 sz lo hi : Nat} (h : first s0 = some (sz, lo, hi)) :
    (sz = 2 ∧ 0xC2 ≤ s0 ∧ s0 ≤ 0xDF ∧ lo = 0x80 ∧ hi = 0xBF) ∨
    (sz = 3 ∧ 0xE0 ≤ s0 ∧ s0 ≤ 0xEF ∧ 0x80 ≤ lo ∧ hi ≤ 0xBF ∧
      (s0 = 0xE0 → 0xA0 ≤ lo) ∧ (s0 = 0xED → hi ≤ 0x9F)) ∨
    (sz = 4 ∧ 0xF0 ≤ s0 ∧ s0 ≤ 0xF4 ∧ 0x80 ≤ lo ∧ hi ≤ 0xBF ∧
      (s0 = 0xF0 → 0x90 ≤ lo) ∧ (s0 = 0xF4 → hi ≤ 0x8F)) := by
  unfold first at h
  split_ifs at h <;> simp at h <;> obtain ⟨rfl, rfl, rfl⟩ := h <;> omega

/-- Inversion of `DecodeRune` on a leading byte that is not ASCII: either the
result is `(RuneError, 1)`, or the input starts with a valid sequence. -/
theorem DecodeRune_multi {b : Nat} {rest : Bytes} {c size : Nat} (hb : ¬ b < 0x80)
    (h : DecodeRune (b :: rest) = (c, size)) (hv : ¬ (c = RuneError ∧ size = 1)) :
    ∃ seq tail, b :: rest = seq ++ tail ∧ seq.length = size ∧ IsRune seq c := by
  unfold DecodeRune at h
  simp only [hb, if_false] at h
  cases hf : first b with
  | none => simp [hf] at h; exact absurd ⟨h.1.symm, h.2.symm⟩ hv
  | some p =>
    obtain ⟨sz, lo, hi⟩ := p
    simp only [hf] at h
    have hfirst := first_some hf
    rcases rest with _ | ⟨s1, t1⟩
    · simp at h; exact absurd ⟨h.1.symm, h.2.symm⟩ hv
    simp only at h
    by_cases h1 : s1 < lo ∨ hi < s1
    · simp [h1] at h; exact absurd ⟨h.1.symm, h.2.symm⟩ hv
    simp only [h1, if_false] at h
    by_cases hsz2 : sz ≤ 2
    · simp only [hsz2, if_true, Prod.mk.injEq] at h
      obtain ⟨rfl, rfl⟩ := h
      refine ⟨[b, s1], t1, rfl, rfl, by simp, ?_, ?_, ?_, ?_⟩
      · intro x hx; simp at hx; rcases hx with rfl | rfl <;> omega
      · unfold EncodeRune
        have : ¬ (b % 32 * 64 + s1 % 64 ≤ 0x7F) := by omega
        have h2 : b % 32 * 64 + s1 % 64 ≤ 0x7FF := by omega
        simp only [this, h2, if_false, if_true]
        congr 1
        · omega
        · congr 1; omega
      · omega
      · intro t
        simp only [List.cons_append, List.nil_append, DecodeRune, hb, if_false, hf, h1, hsz2,
          if_true, List.length_cons, List.length_nil]
    simp only [hsz2, if_false] at h
    rcases t1 with _ | ⟨s2, t2⟩
    · simp at h; exact absurd ⟨h.1.symm, h.2.symm⟩ hv
    simp only at h
    by_cases h2 : s2 < 0x80 ∨ 0xBF < s2
    · simp [h2] at h; exact absurd ⟨h.1.symm, h.2.symm⟩ hv
    simp only [h2, if_false] at h
    by_cases hsz3 : sz ≤ 3
    · simp only [hsz3, if_true, Prod.mk.injEq] at h
      obtain ⟨rfl, rfl⟩ := h
      refine ⟨[b, s1, s2], t2, rfl, rfl, by simp, ?_, ?_, ?_, ?_⟩
      · intro x hx; simp at hx; rcases hx with rfl | rfl | rfl <;> omega
      · unfold EncodeRune
        have e1 : ¬ (b % 16 * 4096 + s1 % 64 * 64 + s2 % 64 ≤ 0x7F) := by omega
        have e2 : ¬ (b % 16 * 4096 + s1 % 64 * 64 + s2 % 64 ≤ 0x7FF) := by omega
        have e3 : ¬ (b % 16 * 4096 + s1 % 64 * 64 + s2 % 64 > 0x10FFFF ∨
            (0xD800 ≤ b % 16 * 4096 + s1 % 64 * 64 + s2 % 64 ∧
              b % 16 * 4096 + s1 % 64 * 64 + s2 % 64 ≤ 0xDFFF)) := by omega
        have e4 : b % 16 * 4096 + s1 % 64 * 64 + s2 % 64 ≤ 0xFFFF := by omega
        simp only [e1, e2, e3, e4, if_false, if_true]
        congr 1
        · omega
        · congr 1
          · omega
          · congr 1; omega
      · omega
      · intro t
        simp only [List.cons_append, List.nil_append, DecodeRune, hb, if_false, hf, h1, hsz2,
          h2, hsz3, if_true, List.length_cons, List.length_nil]
    simp only [hsz3, if_false] at h
    rcases t2 with _ | ⟨s3, t3⟩
    · simp at h; exact absurd ⟨h.1.symm, h.2.symm⟩ hv
    simp only at h
    by_cases h3 : s3 < 0x80 ∨ 0xBF < s3
    · simp [h3] at h; exact absurd ⟨h.1.symm, h.2.symm⟩ hv
    simp only [h3, if_false, Prod.mk.injEq] at h
    obtain ⟨rfl, rfl⟩ := h
    refine ⟨[b, s1, s2, s3], t3, rfl, rfl, by simp, ?_, ?_, ?_, ?_⟩
    · intro x hx; simp at hx; rcases hx with rfl | rfl | rfl | rfl <;> omega
    · unfold EncodeRune
      have e1 : ¬ (b % 8 * 262144 + s1 % 64 * 4096 + s2 % 64 * 64 + s3 % 64 ≤ 0x7F) := by omega
      have e2 : ¬ (b % 8 * 262144 + s1 % 64 * 4096 + s2 % 64 * 64 + s3 % 64 ≤ 0x7FF) := by
        omega
      have e3 : ¬ (b % 8 * 262144 + s1 % 64 * 4096 + s2 % 64 * 64 + s3 % 64 > 0x10FFFF ∨
          (0xD800 ≤ b % 8 * 262144 + s1 % 64 * 4096 + s2 % 64 * 64 + s3 % 64 ∧
            b % 8 * 262144 + s1 % 64 * 4096 + s2 % 64 * 64 + s3 % 64 ≤ 0xDFFF)) := by omega
      have e4 : ¬ (b % 8 * 262144 + s1 % 64 * 4096 + s2 % 64 * 64 + s3 % 64 ≤ 0xFFFF) := by
        omega
      simp only [e1, e2, e3, e4, if_false]
      congr 1
      · omega
      · congr 1
        · omega
        · congr 1
          · omega
          · congr 1; omega
    · omega
    · intro t
      simp only [List.cons_append, List.nil_append, DecodeRune, hb, if_false, hf, h1, hsz2,
        h2, hsz3, h3, List.length_cons, List.length_nil]

end utf8
end CherevanAuth

namespace CherevanAuth
namespace json
open utf8

theorem htmlSafeSet_true {b : Nat} (h : htmlSafeSet b = true) :
    0x20 ≤ b ∧ b < 0x80 ∧ b ≠ 34 ∧ b ≠ 38 ∧ b ≠ 60 ∧ b ≠ 62 ∧ b ≠ 92 := by
  simpa [htmlSafeSet] using h

theorem DecodeRune_ascii {b : Nat} (rest : Bytes) (hb : b < 0x80) :
    DecodeRune (b :: rest) = (b, 1) := by
  simp [DecodeRune, hb]

theorem IsRune.split {b : Nat} {rest seq tail : Bytes} {size : Nat}
    (h : b :: rest = seq ++ tail) (hl : seq.length = size) (h2 : 2 ≤ seq.length) :
    (b :: rest).take size = seq ∧ rest.drop (size - 1) = tail := by
  subst hl
  constructor
  · rw [h]; simp
  · have : (b :: rest).drop seq.length = tail := by rw [h]; simp
    obtain ⟨k, hk⟩ : ∃ k, seq.length = k + 1 := ⟨seq.length - 1, by omega⟩
    rw [hk] at this ⊢
    simpa using this

/-- The loop of `appendString` on valid UTF-8 writes an `Escaped` output. -/
theorem escaped_appendStringLoop :
    ∀ (n : Nat) (s : Bytes), s.length ≤ n → validLoop n s = true →
      Escaped s (appendStringLoop n s) := by
  intro n
  induction n with
  | zero =>
    intro s hs _
    have : s = [] := List.length_eq_zero.mp (by omega)
    subst this
    simpa [appendStringLoop] using Escaped.nil
  | succ n ih =>
    intro s hs hv
    rcases s with _ | ⟨b, rest⟩
    · simpa [appendStringLoop] using Escaped.nil
    have hlen : rest.length ≤ n := by simpa using hs
    by_cases hb : b < 0x80
    · have hv' : validLoop n rest = true := by
        have := hv
        simp [validLoop, DecodeRune_ascii rest hb] at this
        exact this.2
      have ih' := ih rest hlen hv'
      by_cases hsafe : htmlSafeSet b = true
      · simpa [appendStringLoop, hb, hsafe] using Escaped.safe b _ _ hsafe ih'
      · have hsafe' : htmlSafeSet b = false := by simpa using hsafe
        simpa [appendStringLoop, hb, hsafe'] using Escaped.esc b _ _ hb hsafe' ih'
    · cases hd : DecodeRune (b :: rest) with
      | mk c size =>
        have hnv : ¬ (c = RuneError ∧ size = 1) := by
          intro hc
          simp [validLoop, hd, hc.1, hc.2] at hv
        have hv' : validLoop n (rest.drop (size - 1)) = true := by
          have := hv
          simp only [validLoop, hd] at this
          simpa [hnv] using this
        obtain ⟨seq, tail, hsplit, hlen', hrune⟩ := DecodeRune_multi hb hd hnv
        obtain ⟨htake, hdrop⟩ := IsRune.split hsplit hlen' hrune.1
        have ih' := ih (rest.drop (size - 1)) (by simp; omega) hv'
        rw [hdrop] at ih'
        have hd4 : DecodeRune (List.take 4 (b :: rest)) = (c, size) := by
          rw [DecodeRune_take_four, hd]
        simp only [appendStringLoop, hb, if_false, hd4, hnv, htake, hdrop]
        rw [hsplit]
        by_cases hc : c = 0x2028 ∨ c = 0x2029
        · simpa [hc] using Escaped.sep seq c _ _ hrune hc ih'
        · simpa [hc] using Escaped.rune seq c _ _ hrune hc ih'

end json
end CherevanAuth

namespace CherevanAuth
namespace json
open utf8

theorem hex_lt : ∀ v, v < 16 → isHexDigit (hex v) = true ∧ hexValue (hex v) = some v ∧
    hex v < 128 ∧ hex v ≠ 34 ∧ hex v ≠ 92 ∧ 32 ≤ hex v := by decide

/-- The cases of `escapeByte` on an ASCII byte outside `htmlSafeSet`. -/
theorem escapeByte_cases {b : Nat} (hb : b < 0x80) (_h : htmlSafeSet b = false) :
    (escapeByte b = [92, b] ∧ (b = 92 ∨ b = 34)) ∨
    (escapeByte b = [92, 98] ∧ b = 8) ∨ (escapeByte b = [92, 102] ∧ b = 12) ∨
    (escapeByte b = [92, 110] ∧ b = 10) ∨ (escapeByte b = [92, 114] ∧ b = 13) ∨
    (escapeByte b = [92, 116] ∧ b = 9) ∨
    (escapeByte b = [92, 117, 48, 48, hex (b / 16), hex (b % 16)] ∧ b / 16 < 16 ∧ b % 16 < 16 ∧
      b ≠ 92 ∧ b ≠ 34) := by
  unfold escapeByte
  split_ifs with h1 h2 h3 h4 h5 h6
  · left; exact ⟨rfl, h1⟩
  · right; left; exact ⟨rfl, h2⟩
  · right; right; left; exact ⟨rfl, h3⟩
  · right; right; right; left; exact ⟨rfl, h4⟩
  · right; right; right; right; left; exact ⟨rfl, h5⟩
  · right; right; right; right; right; left; exact ⟨rfl, h6⟩
  · right; right; right; right; right; right; refine ⟨rfl, ?_, ?_, ?_, ?_⟩ <;> omega

/-! ### The scanner accepts the escaped text -/

theorem checkValidLoop_plain (S : scanner) (hS : S.step = .stateInString) (p t : Bytes)
    (hp : ∀ x ∈ p, 0x20 ≤ x ∧ x ≠ 34 ∧ x ≠ 92) :
    checkValidLoop S (p ++ t) = checkValidLoop S t := by
  induction p with
  | nil => rfl
  | cons x p ih =>
    have hx := hp x (by simp)
    have h1 : ¬ x < 32 := by omega
    simp only [List.cons_append, checkValidLoop, scanner.doStep, hS, stateInString, hx.2.1,
      hx.2.2, h1, if_false]
    simpa using ih (fun y hy => hp y (by simp [hy]))

theorem checkValidLoop_escaped {src out : Bytes} (h : Escaped src out) :
    ∀ (S : scanner) (t : Bytes), S.step = .stateInString →
      checkValidLoop S (out ++ t) = checkValidLoop S t := by
  induction h with
  | nil => intro S t _; rfl
  | safe b src out hsafe _ ih =>
    intro S t hS
    have hb := htmlSafeSet_true hsafe
    have := checkValidLoop_plain S hS [b] (out ++ t)
      (by intro x hx; simp at hx; subst hx; omega)
    simp only [List.cons_append, List.nil_append] at this ⊢
    rw [this, ih S t hS]
  | esc b src out hb hsafe _ ih =>
    intro S t hS
    obtain ⟨step, endTop, ps, err⟩ := S
    simp only at hS
    subst hS
    rcases escapeByte_cases hb hsafe with ⟨he, hc⟩ | ⟨he, hc⟩ | ⟨he, hc⟩ | ⟨he, hc⟩ |
      ⟨he, hc⟩ | ⟨he, hc⟩ | ⟨he, h1, h2, -, -⟩
    · rcases hc with rfl | rfl <;>
        simp [he, checkValidLoop, scanner.doStep, stateInString, stateInStringEsc, ih]
    · simp [he, checkValidLoop, scanner.doStep, stateInString, stateInStringEsc, ih]
    · simp [he, checkValidLoop, scanner.doStep, stateInString, stateInStringEsc, ih]
    · simp [he, checkValidLoop, scanner.doStep, stateInString, stateInStringEsc, ih]
    · simp [he, checkValidLoop, scanner.doStep, stateInString, stateInStringEsc, ih]
    · simp [he, checkValidLoop, scanner.doStep, stateInString, stateInStringEsc, ih]
    · have x1 := (hex_lt _ h1).1
      have x2 := (hex_lt _ h2).1
      have z : isHexDigit 48 = true := by decide
      simp [he, checkValidLoop, scanner.doStep, stateInString, stateInStringEsc,
        stateInStringEscHex, x1, x2, z, ih]
  | rune seq c src out hr _ _ ih =>
    intro S t hS
    rw [List.append_assoc, checkValidLoop_plain S hS seq _
      (by intro x hx; have := hr.2.1 x hx; omega)]
    exact ih S t hS
  | sep seq c src out hr hc _ ih =>
    intro S t hS
    obtain ⟨step, endTop, ps, err⟩ := S
    simp only at hS
    subst hS
    have hlt : c % 16 < 16 := by omega
    have x1 := (hex_lt _ hlt).1
    have z : isHexDigit 48 = true ∧ isHexDigit 50 = true := by decide
    simp [checkValidLoop, scanner.doStep, stateInString, stateInStringEsc,
        stateInStringEscHex, x1, z.1, z.2, ih]

/-! ### `rescanLiteral` finds the closing quote of the escaped text -/

theorem rescanString_cons_plain (x : Nat) (t : Bytes) (h1 : x ≠ 34) (h2 : x ≠ 92) :
    rescanString (x :: t) = (x :: (rescanString t).1, (rescanString t).2) := by
  rw [rescanString]
  · intro _ _ h _; exact h2 h
  · intro h; exact h1 h

theorem rescanString_esc (x : Nat) (t : Bytes) :
    rescanString (92 :: x :: t) = (92 :: x :: (rescanString t).1, (rescanString t).2) := by
  rw [rescanString]

theorem rescanString_plain (p t : Bytes) (hp : ∀ x ∈ p, x ≠ 34 ∧ x ≠ 92) :
    rescanString (p ++ t) = (p ++ (rescanString t).1, (rescanString t).2) := by
  induction p with
  | nil => rfl
  | cons x p ih =>
    have hx := hp x (by simp)
    rw [List.cons_append, rescanString_cons_plain _ _ hx.1 hx.2,
      ih (fun y hy => hp y (by simp [hy]))]
    rfl

theorem rescanString_escaped {src out : Bytes} (h : Escaped src out) (t : Bytes) :
    rescanString (out ++ t) = (out ++ (rescanString t).1, (rescanString t).2) := by
  induction h with
  | nil => rfl
  | safe b src out hsafe _ ih =>
    have hb := htmlSafeSet_true hsafe
    rw [List.cons_append, rescanString_cons_plain _ _ hb.2.2.1 hb.2.2.2.2.2.2, ih]
    rfl
  | esc b src out hb hsafe _ ih =>
    rcases escapeByte_cases hb hsafe with ⟨he, _⟩ | ⟨he, _⟩ | ⟨he, _⟩ | ⟨he, _⟩ |
      ⟨he, _⟩ | ⟨he, _⟩ | ⟨he, h1, h2, -, -⟩
    all_goals rw [he]
    all_goals simp only [List.cons_append, List.nil_append, rescanString_esc]
    · rw [ih]
    · rw [ih]
    · rw [ih]
    · rw [ih]
    · rw [ih]
    · rw [ih]
    · have x1 := hex_lt _ h1
      have x2 := hex_lt _ h2
      rw [rescanString_cons_plain 48 _ (by decide) (by decide),
        rescanString_cons_plain 48 _ (by decide) (by decide),
        rescanString_cons_plain _ _ x1.2.2.2.1 x1.2.2.2.2.1,
        rescanString_cons_plain _ _ x2.2.2.2.1 x2.2.2.2.2.1, ih]
  | rune seq c src out hr _ _ ih =>
    rw [List.append_assoc, rescanString_plain seq _
      (by intro x hx; have := hr.2.1 x hx; omega), ih]
    simp
  | sep seq c src out hr hc _ ih =>
    have hlt : c % 16 < 16 := by omega
    have x1 := hex_lt _ hlt
    simp only [List.cons_append, List.nil_append, rescanString_esc]
    rw [rescanString_cons_plain 50 _ (by decide) (by decide),
        rescanString_cons_plain 48 _ (by decide) (by decide),
        rescanString_cons_plain 50 _ (by decide) (by decide),
        rescanString_cons_plain _ _ x1.2.2.2.1 x1.2.2.2.2.1, ih]

theorem rescanString_quote (t : Bytes) : rescanString (34 :: t) = ([34], t) := by
  rw [rescanString]

end json
end CherevanAuth

namespace CherevanAuth
namespace json
open utf8

/-! ### `unquoteBytes` inverts the escaping -/

theorem EncodeRune_ascii {b : Nat} (hb : b < 0x80) : EncodeRune b = [b] := by
  have : b ≤ 0x7F := by omega
  simp [EncodeRune, this]

theorem unquoteLoop_nil (m : Nat) : unquoteLoop m [] = some [] := by
  cases m <;> simp [unquoteLoop]

theorem unquoteLoop_cons_multi (k c : Nat) (rest : Bytes) (hc : ¬ c < 128) :
    unquoteLoop (k + 1) (c :: rest) =
      (unquoteLoop k (rest.drop ((DecodeRune (c :: rest)).2 - 1))).map
        (EncodeRune (DecodeRune (c :: rest)).1 ++ ·) := by
  have e1 : c ≠ 92 := by omega
  have e2 : ¬ (c = 34 ∨ c < 32) := by omega
  simp only [unquoteLoop, e1, e2, hc, if_false]

theorem unquoteLoop_cons_ascii (k c : Nat) (rest : Bytes) (h1 : c ≠ 92)
    (h2 : ¬ (c = 34 ∨ c < 32)) (hc : c < 128) :
    unquoteLoop (k + 1) (c :: rest) = (unquoteLoop k rest).map (c :: ·) := by
  simp only [unquoteLoop, h1, h2, hc, if_false, if_true]

theorem unquoteLoop_escaped {src out : Bytes} (h : Escaped src out) :
    ∀ m, out.length ≤ m → unquoteLoop m out = some src := by
  induction h with
  | nil => intro m _; exact unquoteLoop_nil m
  | safe b src out hsafe _ ih =>
    intro m hm
    obtain ⟨k, rfl⟩ : ∃ k, m = k + 1 := ⟨m - 1, by simp at hm; omega⟩
    have hb := htmlSafeSet_true hsafe
    have h1 : ¬ b < 32 := by omega
    simp [unquoteLoop, hb.2.2.1, hb.2.2.2.2.2.2, h1, hb.2.1, ih k (by simpa using hm)]
  | esc b src out hb hsafe _ ih =>
    intro m hm
    rcases escapeByte_cases hb hsafe with ⟨he, hc⟩ | ⟨he, hc⟩ | ⟨he, hc⟩ | ⟨he, hc⟩ |
      ⟨he, hc⟩ | ⟨he, hc⟩ | ⟨he, h1, h2, h3, h4⟩
    all_goals rw [he] at hm ⊢
    all_goals obtain ⟨k, rfl⟩ : ∃ k, m = k + 1 := ⟨m - 1, by simp at hm; omega⟩
    all_goals have hk : out.length ≤ k := by simp at hm; omega
    · rcases hc with rfl | rfl <;> simp [unquoteLoop, ih k hk]
    · subst hc; simp [unquoteLoop, ih k hk]
    · subst hc; simp [unquoteLoop, ih k hk]
    · subst hc; simp [unquoteLoop, ih k hk]
    · subst hc; simp [unquoteLoop, ih k hk]
    · subst hc; simp [unquoteLoop, ih k hk]
    · have x1 := (hex_lt _ h1).2.1
      have x2 := (hex_lt _ h2).2.1
      have z : hexValue 48 = some 0 := by decide
      have hval : b / 16 * 16 + b % 16 = b := by omega
      have hns : isSurrogate b = false := by
        simp [isSurrogate]; omega
      simp [unquoteLoop, getu4, x1, x2, z, hval, hns, EncodeRune_ascii hb, ih k hk]
  | rune seq c src out hr _ _ ih =>
    intro m hm
    obtain ⟨h2, hbytes, henc, hc80, hdec⟩ := hr
    rcases seq with _ | ⟨b, seq'⟩
    · simp at h2
    obtain ⟨k, rfl⟩ : ∃ k, m = k + 1 := ⟨m - 1, by simp at hm; omega⟩
    have hb := hbytes b (by simp)
    have hd := hdec out
    rw [List.cons_append] at hd ⊢
    rw [List.cons_append, unquoteLoop_cons_multi _ _ _ (by omega), hd]
    simp only [List.length_cons, Nat.add_sub_cancel, List.drop_left, henc]
    rw [ih k (by simp at hm; omega)]
    simp
  | sep seq c src out hr hc _ ih =>
    intro m hm
    obtain ⟨h2, hbytes, henc, hc80, hdec⟩ := hr
    obtain ⟨k, rfl⟩ : ∃ k, m = k + 1 := ⟨m - 1, by simp at hm; omega⟩
    have hk : out.length ≤ k := by simp at hm; omega
    have z : hexValue 48 = some 0 ∧ hexValue 50 = some 2 := by decide
    have hlt : c % 16 < 16 := by omega
    have x1 := (hex_lt _ hlt).2.1
    have hval : ((2 * 16 + 0) * 16 + 2) * 16 + c % 16 = c := by omega
    have hns : isSurrogate c = false := by
      simp [isSurrogate]; omega
    simp [unquoteLoop, getu4, x1, z.1, z.2, hval, hns, henc, ih k hk]

/-- The second loop of `unquoteBytes` does not depend on the fuel, once there is enough. -/
theorem unquoteLoop_fuel : ∀ (m : Nat) (t : Bytes) (m' : Nat), t.length ≤ m → t.length ≤ m' →
    unquoteLoop m t = unquoteLoop m' t := by
  intro m t
  induction m, t using unquoteLoop.induct with
  | case1 => intro m' _ _; rw [unquoteLoop_nil, unquoteLoop_nil]
  | case2 s hs =>
    intro m' h _
    exact absurd (List.length_eq_zero.mp (by omega)) hs
  | case3 n => intro m' _ _; rw [unquoteLoop_nil, unquoteLoop_nil]
  | _ =>
    intro m' h h'
    obtain ⟨k, rfl⟩ : ∃ k, m' = k + 1 := ⟨m' - 1, by simp at h'; omega⟩
    simp only [List.length_cons] at h h'
    first
    | (have ih := ‹∀ (m' : ℕ), _ → _ → unquoteLoop _ _ = unquoteLoop m' _› k
        (by simp +zetaDelta only [List.length_drop, List.length_cons, Nat.succ_eq_add_one] at *
            omega)
        (by simp +zetaDelta only [List.length_drop, List.length_cons, Nat.succ_eq_add_one] at *
            omega)
       simp +zetaDelta only [List.drop_succ_cons, List.drop_drop, List.drop_zero,
         Nat.reduceAdd] at *
       simp [unquoteLoop, *])
    | simp [unquoteLoop, *]

/-- The two loops of `unquoteBytes` together do what the second loop does alone. -/
theorem unquotePrefix_loop : ∀ (n : Nat) (t : Bytes), t.length ≤ n →
    ∀ m m', (unquotePrefix n t).2.length ≤ m → t.length ≤ m' →
      (unquoteLoop m (unquotePrefix n t).2).map ((unquotePrefix n t).1 ++ ·) =
        unquoteLoop m' t := by
  intro n
  induction n with
  | zero =>
    intro t h m m' hm hm'
    simp only [unquotePrefix] at hm ⊢
    simp only [List.nil_append, Option.map_id']
    exact unquoteLoop_fuel _ _ _ hm hm'
  | succ n ih =>
    intro t h m m' hm hm'
    rcases t with _ | ⟨c, rest⟩
    · simp [unquotePrefix, unquoteLoop_nil]
    obtain ⟨k, rfl⟩ : ∃ k, m' = k + 1 := ⟨m' - 1, by simp at hm'; omega⟩
    have hl : rest.length ≤ n := by simpa using h
    have hk : rest.length ≤ k := by simpa using hm'
    by_cases hsp : c = 92 ∨ c = 34 ∨ c < 32
    · simp only [unquotePrefix, hsp, if_true] at hm ⊢
      simp only [List.nil_append, Option.map_id']
      exact unquoteLoop_fuel _ _ _ hm hm'
    have e1 : c ≠ 92 := fun h => hsp (Or.inl h)
    have e2 : ¬ (c = 34 ∨ c < 32) := fun h => hsp (Or.inr h)
    by_cases hb : c < 0x80
    · simp only [unquotePrefix, hsp, hb, if_true, if_false] at hm ⊢
      rw [unquoteLoop_cons_ascii _ _ _ e1 e2 hb, ← ih rest hl m k hm hk]
      cases unquoteLoop m (unquotePrefix n rest).2 <;> simp
    · cases hd : DecodeRune (c :: rest) with
      | mk rr size =>
        by_cases hinv : rr = RuneError ∧ size = 1
        · simp only [unquotePrefix, hsp, hb, hd, hinv, and_self, if_true, if_false] at hm ⊢
          simp only [List.nil_append, Option.map_id']
          exact unquoteLoop_fuel _ _ _ hm hm'
        · obtain ⟨seq, tail, hsplit, hlen', hrune⟩ := DecodeRune_multi hb hd hinv
          obtain ⟨htake, hdrop⟩ := IsRune.split hsplit hlen' hrune.1
          have htl : tail.length ≤ rest.length := by
            rw [← hdrop]; simp
          simp only [unquotePrefix, hsp, hb, hd, hinv, if_false, htake, hdrop] at hm ⊢
          rw [unquoteLoop_cons_multi _ _ _ hb, hd]
          simp only [hdrop, hrune.2.2.1]
          rw [← ih tail (by omega) m k hm (by omega)]
          cases unquoteLoop m (unquotePrefix n tail).2 <;> simp

/-- The first loop of `unquoteBytes` splits its input. -/
theorem unquotePrefix_append : ∀ (n : Nat) (t : Bytes), t.length ≤ n →
    (unquotePrefix n t).1 ++ (unquotePrefix n t).2 = t := by
  intro n
  induction n with
  | zero => intro t _; simp [unquotePrefix]
  | succ n ih =>
    intro t h
    rcases t with _ | ⟨c, rest⟩
    · simp [unquotePrefix]
    have hl : rest.length ≤ n := by simpa using h
    by_cases hsp : c = 92 ∨ c = 34 ∨ c < 32
    · simp [unquotePrefix, hsp]
    by_cases hb : c < 0x80
    · simp only [unquotePrefix, hsp, hb, if_true, if_false]
      simpa using ih rest hl
    · cases hd : DecodeRune (c :: rest) with
      | mk rr size =>
        by_cases hinv : rr = RuneError ∧ size = 1
        · simp [unquotePrefix, hsp, hb, hd, hinv]
        · obtain ⟨seq, tail, hsplit, hlen', hrune⟩ := DecodeRune_multi hb hd hinv
          obtain ⟨htake, hdrop⟩ := IsRune.split hsplit hlen' hrune.1
          have htl : tail.length ≤ rest.length := by
            rw [← hdrop]; simp
          simp only [unquotePrefix, hsp, hb, hd, hinv, if_false, htake, hdrop]
          rw [List.append_assoc, ih tail (by omega), hsplit]

theorem unquoteBytes_escaped {src out : Bytes} (h : Escaped src out) :
    unquoteBytes (34 :: out ++ [34]) = some src := by
  have hloop := unquoteLoop_escaped h out.length (le_refl _)
  have hbody : (34 :: out ++ [34]).tail.dropLast = out := by simp
  have hlast : (34 :: out ++ [34]).getLast? = some 34 := by
    rw [show (34 :: out ++ [34]) = (34 :: out) ++ [34] from rfl, List.getLast?_concat]
  unfold unquoteBytes
  have hc : ¬ ((34 :: out ++ [34]).length < 2 ∨ (34 :: out ++ [34]).head? ≠ some 34 ∨
      (34 :: out ++ [34]).getLast? ≠ some 34) := by
    rw [hlast]; simp
  rw [if_neg hc]
  simp only [hbody]
  have key := unquotePrefix_loop out.length out (le_refl _)
    (unquotePrefix out.length out).2.length out.length (le_refl _) (le_refl _)
  rw [hloop] at key
  split_ifs with hq
  · rw [hq, unquoteLoop_nil] at key
    have hsplit := unquotePrefix_append out.length out (le_refl _)
    rw [hq, List.append_nil] at hsplit
    simp only [Option.map_some', List.append_nil, hsplit] at key
    exact key
  · exact key

end json
end CherevanAuth

namespace CherevanAuth
namespace json
open utf8

theorem checkValidLoop_append (s : scanner) (a b : Bytes) :
    checkValidLoop s (a ++ b) =
      match checkValidLoop s a with
      | .ok s1 => checkValidLoop s1 b
      | .error e => .error e := by
  induction a generalizing s with
  | nil => rfl
  | cons c a ih =>
    simp only [List.cons_append, checkValidLoop]
    split_ifs
    · rfl
    · exact ih _

theorem ascii_key : ascii "\x7b\"redirect_url\":" =
    [123, 34, 114, 101, 100, 105, 114, 101, 99, 116, 95, 117, 114, 108, 34, 58] := by decide

theorem ascii_close : ascii "\x7d" = [125] := by decide

/-- The scanner accepts the object written by `Marshal`. -/
theorem checkValid_object {src out : Bytes} (h : Escaped src out) :
    checkValid ([123, 34, 114, 101, 100, 105, 114, 101, 99, 116, 95, 117, 114, 108, 34, 58] ++
      (34 :: out ++ [34]) ++ [125]) = none := by
  have e1 : checkValidLoop scanner.reset
      ([123, 34, 114, 101, 100, 105, 114, 101, 99, 116, 95, 117, 114, 108, 34, 58] ++ [34]) =
      .ok ⟨.stateInString, false, [.parseObjectValue], none⟩ := by decide
  have e2 : checkValidLoop ⟨.stateInString, false, [.parseObjectValue], none⟩ [34, 125] =
      .ok ⟨.stateEndTop, true, [], none⟩ := by decide
  have e3 := checkValidLoop_escaped h ⟨.stateInString, false, [.parseObjectValue], none⟩
    [34, 125] rfl
  have hsplit : ([123, 34, 114, 101, 100, 105, 114, 101, 99, 116, 95, 117, 114, 108, 34, 58] ++
      (34 :: out ++ [34]) ++ [125]) =
      ([123, 34, 114, 101, 100, 105, 114, 101, 99, 116, 95, 117, 114, 108, 34, 58] ++ [34]) ++
        (out ++ [34, 125]) := by simp
  unfold checkValid
  rw [hsplit, checkValidLoop_append, e1]
  simp only [e3, e2]
  decide

theorem scanWhile_step (cur0 c : Nat) (rest : Bytes) (op0 op1 : Op) (S0 S1 : scanner)
    (se : Option GoError) (ru : Bytes) (hstep : S0.doStep c = (S1, op1))
    (hne : op1 ≠ .scanSkipSpace) :
    (⟨cur0, c :: rest, op0, S0, se, ru⟩ : decodeState).scanWhile .scanSkipSpace =
      ⟨c, rest, op1, S1, se, ru⟩ := by
  simp only [decodeState.scanWhile, scanWhileLoop, hstep]
  rw [if_pos hne]

theorem rescanLiteral_string (rest body : Bytes) (c : Nat) (rest1 : Bytes) (op0 op1 : Op)
    (S0 S1 : scanner) (se : Option GoError) (ru : Bytes)
    (hre : rescanString rest = (body, c :: rest1)) (hend : stateEndValue S0 c = (S1, op1)) :
    (⟨34, rest, op0, S0, se, ru⟩ : decodeState).rescanLiteral =
      (34 :: body, ⟨c, rest1, op1, S1, se, ru⟩) := by
  simp only [decodeState.rescanLiteral, if_true, hre, hend]

/-- The decoder reads back the object written by `Marshal`. -/
theorem Unmarshal_object {src out : Bytes} (h : Escaped src out) :
    Unmarshal ([123, 34, 114, 101, 100, 105, 114, 101, 99, 116, 95, 117, 114, 108, 34, 58] ++
      (34 :: out ++ [34]) ++ [125]) = .ok { RedirectURL := src } := by
  have hvalid := checkValid_object h
  have hre := rescanString_escaped h (34 :: [125])
  rw [rescanString_quote] at hre
  have hun := unquoteBytes_escaped h
  rw [List.cons_append] at hun
  have hkey : unquoteBytes [34, 114, 101, 100, 105, 114, 101, 99, 116, 95, 117, 114, 108, 34] =
      some [114, 101, 100, 105, 114, 101, 99, 116, 95, 117, 114, 108] := by decide
  have hmatch : matchesField [114, 101, 100, 105, 114, 101, 99, 116, 95, 117, 114, 108] = true := by
    decide
  have hrk : ∀ t, rescanString (114 :: 101 :: 100 :: 105 :: 114 :: 101 :: 99 :: 116 :: 95 ::
      117 :: 114 :: 108 :: 34 :: t) =
      ([114, 101, 100, 105, 114, 101, 99, 116, 95, 117, 114, 108, 34], t) := by
    intro t
    have := rescanString_plain [114, 101, 100, 105, 114, 101, 99, 116, 95, 117, 114, 108]
      (34 :: t) (by decide)
    rw [rescanString_quote] at this
    simpa using this
  have s1 : scanner.reset.doStep 123 =
      (⟨.stateBeginStringOrEmpty, false, [.parseObjectKey], none⟩, .scanBeginObject) := by decide
  have s2 : (⟨.stateBeginStringOrEmpty, false, [.parseObjectKey], none⟩ : scanner).doStep 34 =
      (⟨.stateInString, false, [.parseObjectKey], none⟩, .scanBeginLiteral) := by decide
  have s3 : stateEndValue ⟨.stateInString, false, [.parseObjectKey], none⟩ 58 =
      (⟨.stateBeginValue, false, [.parseObjectValue], none⟩, .scanObjectKey) := by decide
  have s4 : (⟨.stateBeginValue, false, [.parseObjectValue], none⟩ : scanner).doStep 34 =
      (⟨.stateInString, false, [.parseObjectValue], none⟩, .scanBeginLiteral) := by decide
  have s5 : stateEndValue ⟨.stateInString, false, [.parseObjectValue], none⟩ 125 =
      (⟨.stateEndTop, true, [], none⟩, .scanEndObject) := by decide
  have s6 : (⟨.stateEndTop, true, [], none⟩ : scanner).eof =
      (⟨.stateEndTop, true, [], none⟩, .scanEnd) := by decide
  unfold Unmarshal
  rw [hvalid]
  simp only [List.cons_append, List.nil_append, List.append_assoc]
  -- the opening brace
  rw [scanWhile_step _ _ _ _ _ _ _ _ _ s1 (by decide)]
  simp only [decodeState.value, List.length_cons]
  rw [objectLoop]
  simp only
  -- the key
  rw [scanWhile_step _ _ _ _ _ _ _ _ _ s2 (by decide)]
  simp only [reduceCtorEq, if_false, ne_eq, not_true_eq_false]
  rw [rescanLiteral_string _ _ _ _ _ _ _ _ _ _ (hrk _) s3]
  simp only [hkey, hmatch, if_true, reduceCtorEq, if_false, ne_eq, not_true_eq_false]
  -- the value
  rw [scanWhile_step _ _ _ _ _ _ _ _ _ s4 (by decide)]
  simp only [decodeState.valueMember]
  rw [rescanLiteral_string _ _ _ _ _ _ _ _ _ _ hre s5]
  simp [decodeState.literalStore, hun, decodeState.scanNext, s6]

end json
end CherevanAuth

namespace CherevanAuth
open json utf8

theorem json.isBytes_escaped {src out : Bytes} (h : Escaped src out) : IsBytes out := by
  induction h with
  | nil => intro b hb; simp at hb
  | safe b src out hsafe _ ih =>
    have hb := htmlSafeSet_true hsafe
    intro x hx
    simp only [List.mem_cons] at hx
    rcases hx with rfl | hx
    · omega
    · exact ih x hx
  | esc b src out hb hsafe _ ih =>
    intro x hx
    rw [List.mem_append] at hx
    rcases hx with hx | hx
    · rcases escapeByte_cases hb hsafe with ⟨he, hc⟩ | ⟨he, hc⟩ | ⟨he, hc⟩ | ⟨he, hc⟩ |
        ⟨he, hc⟩ | ⟨he, hc⟩ | ⟨he, h1, h2, -, -⟩
      all_goals rw [he] at hx
      all_goals simp only [List.mem_cons, List.mem_singleton, List.not_mem_nil, or_false] at hx
      · rcases hx with rfl | rfl <;> omega
      · rcases hx with rfl | rfl <;> omega
      · rcases hx with rfl | rfl <;> omega
      · rcases hx with rfl | rfl <;> omega
      · rcases hx with rfl | rfl <;> omega
      · rcases hx with rfl | rfl <;> omega
      · have x1 := (hex_lt _ h1).2.2.1
        have x2 := (hex_lt _ h2).2.2.1
        rcases hx with rfl | rfl | rfl | rfl | rfl | rfl <;> omega
    · exact ih x hx
  | rune seq c src out hr _ _ ih =>
    intro x hx
    rw [List.mem_append] at hx
    rcases hx with hx | hx
    · exact (hr.2.1 x hx).2
    · exact ih x hx
  | sep seq c src out hr hc _ ih =>
    intro x hx
    rw [List.mem_append] at hx
    rcases hx with hx | hx
    · have hlt : c % 16 < 16 := by omega
      have x1 := (hex_lt _ hlt).2.2.1
      simp only [List.mem_cons, List.mem_singleton, List.not_mem_nil, or_false] at hx
      rcases hx with rfl | rfl | rfl | rfl | rfl | rfl <;> omega
    · exact ih x hx

/-- On valid UTF-8, `Marshal` writes an object that `Unmarshal` reads back, and
the object consists of bytes. -/
theorem json.Marshal_valid (r : Bytes) (hv : ValidString r = true) :
    ∃ data, json.Marshal { RedirectURL := r } = .ok data ∧ IsBytes data ∧
      json.Unmarshal data = .ok { RedirectURL := r } := by
  have hesc := escaped_appendStringLoop r.length r (le_refl _) hv
  refine ⟨_, rfl, ?_, ?_⟩
  · rw [ascii_key, ascii_close]
    have hb := isBytes_escaped hesc
    intro x hx
    simp only [appendString, List.mem_append, List.mem_cons, List.mem_singleton,
      List.not_mem_nil, or_false] at hx
    rcases hx with (hx | (hx | hx) | hx) | hx
    · rcases hx with rfl | rfl | rfl | rfl | rfl | rfl | rfl | rfl | rfl | rfl | rfl | rfl |
        rfl | rfl | rfl | rfl <;> omega
    · omega
    · exact hb x hx
    · omega
    · omega
  · rw [ascii_key, ascii_close]
    exact Unmarshal_object hesc

/-- C1, as amended. For every string `r` that is valid UTF-8 (the empty string and
strings with `&`, `<`, `>` or quotes included), `generateState r` succeeds and
`parseState` applied to its result succeeds and returns exactly `r`. -/
theorem parseState_generateState_valid (r : Bytes) (hv : ValidString r = true) :
    ∃ s, generateState r = .ok s ∧ parseState s = .ok r := by
  obtain ⟨data, hm, hb, hu⟩ := json.Marshal_valid r hv
  refine ⟨base64.EncodeToString data, ?_, ?_⟩
  · simp only [generateState, hm]
  · simp only [parseState, base64.DecodeString_EncodeToString data hb, hu]

end CherevanAuth

namespace CherevanAuth

/-! ## The request handler -/

theorem mapIndex_none {m : List (Bytes × Bytes)} {k : Bytes} (h : m.lookup k = none) :
    mapIndex m k = [] := by
  simp [mapIndex, h]

theorem mapIndex_some {m : List (Bytes × Bytes)} {k v : Bytes} (h : m.lookup k = some v) :
    mapIndex m k = v := by
  simp [mapIndex, h]

theorem callback_ne_auth : ascii "/callback" ≠ ascii "/auth" := by decide

theorem parseState_nil : parseState [] =
    .error (.SyntaxError (ascii "unexpected end of JSON input")) := by decide

/-- C2. A `/callback` request whose `state` is non-empty and decodes to `r`, whose
`code` is non-empty and whose token exchange succeeds with the token `t`, is
answered with status 302 and the `Location` header `r ++ "#access_token=" ++ t`. -/
theorem callback_success (cfg : oauth2.Config) (exchange : Bytes → Except GoError oauth2.Token)
    (request : APIGatewayProxyRequest) (state r code : Bytes) (token : oauth2.Token)
    (hpath : request.Path = ascii "/callback")
    (hstate : request.QueryStringParameters.lookup (ascii "state") = some state)
    (hne : state ≠ []) (hdec : parseState state = .ok r)
    (hcode : request.QueryStringParameters.lookup (ascii "code") = some code)
    (hcne : code ≠ []) (hex : exchange code = .ok token) :
    handleRequest cfg exchange request =
      ({ StatusCode := 302,
         Headers := [(ascii "Location", r ++ ascii "#access_token=" ++ token.AccessToken)] },
        none) := by
  simp only [handleRequest, hpath, callback_ne_auth, if_false, if_true, mapIndex_some hstate,
    hne, hdec, mapIndex_some hcode, hcne, hex]

/-- C3. A `/callback` request without a `state` parameter is answered with status
400 and the body `{"error": "state parameter is required"}`, whatever `code` is. -/
theorem callback_state_missing (cfg : oauth2.Config)
    (exchange : Bytes → Except GoError oauth2.Token) (request : APIGatewayProxyRequest)
    (hpath : request.Path = ascii "/callback")
    (hstate : request.QueryStringParameters.lookup (ascii "state") = none) :
    handleRequest cfg exchange request =
      ({ StatusCode := 400,
         Body := ascii "\x7b\"error\": \"state parameter is required\"\x7d" }, none) := by
  simp only [handleRequest, hpath, callback_ne_auth, if_false, if_true, mapIndex_none hstate]

/-- C4, as amended. A `/callback` request whose `state` is non-empty and fails to
decode with the error `err` is answered with status 400 and the body
`{"error": "invalid state parameter: <err.Error()>"}`, whatever `code` is; the
body is not the one about `code`. -/
theorem callback_state_invalid (cfg : oauth2.Config)
    (exchange : Bytes → Except GoError oauth2.Token) (request : APIGatewayProxyRequest)
    (state : Bytes) (err : GoError)
    (hpath : request.Path = ascii "/callback")
    (hstate : request.QueryStringParameters.lookup (ascii "state") = some state)
    (hne : state ≠ []) (hdec : parseState state = .error err) :
    handleRequest cfg exchange request =
        ({ StatusCode := 400,
           Body := ascii "\x7b\"error\": \"invalid state parameter: " ++ err.Error ++
             ascii "\"\x7d" }, none) ∧
      (handleRequest cfg exchange request).1.Body ≠
        ascii "\x7b\"error\": \"code parameter is required\"\x7d" := by
  have h : handleRequest cfg exchange request =
        ({ StatusCode := 400,
           Body := ascii "\x7b\"error\": \"invalid state parameter: " ++ err.Error ++
             ascii "\"\x7d" }, none) := by
    simp only [handleRequest, hpath, callback_ne_auth, if_false, if_true, mapIndex_some hstate,
      hne, hdec]
  refine ⟨h, ?_⟩
  rw [h]
  have e1 : ascii "\x7b\"error\": \"invalid state parameter: " =
      [123, 34, 101, 114, 114, 111, 114, 34, 58, 32, 34, 105] ++
        ascii "nvalid state parameter: " := by decide
  have e2 : ascii "\x7b\"error\": \"code parameter is required\"\x7d" =
      [123, 34, 101, 114, 114, 111, 114, 34, 58, 32, 34, 99] ++
        ascii "ode parameter is required\"\x7d" := by decide
  simp only [e1, e2]
  intro hbody
  simp at hbody

/-- C5. A `/callback` request whose `state` decodes and which has no `code`
parameter is answered with status 400 and the body
`{"error": "code parameter is required"}`. -/
theorem callback_code_missing (cfg : oauth2.Config)
    (exchange : Bytes → Except GoError oauth2.Token) (request : APIGatewayProxyRequest)
    (state r : Bytes)
    (hpath : request.Path = ascii "/callback")
    (hstate : request.QueryStringParameters.lookup (ascii "state") = some state)
    (hdec : parseState state = .ok r)
    (hcode : request.QueryStringParameters.lookup (ascii "code") = none) :
    handleRequest cfg exchange request =
      ({ StatusCode := 400,
         Body := ascii "\x7b\"error\": \"code parameter is required\"\x7d" }, none) := by
  have hne : state ≠ [] := by
    intro h
    rw [h, parseState_nil] at hdec
    cases hdec
  simp only [handleRequest, hpath, callback_ne_auth, if_false, if_true, mapIndex_some hstate,
    hne, hdec, mapIndex_none hcode]

/-- C6. An `/auth` request without a `redirect_url` parameter is answered with
status 400, the body `{"error": "redirect_url parameter is required"}` and no
header. -/
theorem auth_redirect_url_missing (cfg : oauth2.Config)
    (exchange : Bytes → Except GoError oauth2.Token) (request : APIGatewayProxyRequest)
    (hpath : request.Path = ascii "/auth")
    (hparam : request.QueryStringParameters.lookup (ascii "redirect_url") = none) :
    handleRequest cfg exchange request =
        ({ StatusCode := 400,
           Body := ascii "\x7b\"error\": \"redirect_url parameter is required\"\x7d" }, none) ∧
      (handleRequest cfg exchange request).1.Headers.lookup (ascii "Location") = none := by
  have h : handleRequest cfg exchange request =
        ({ StatusCode := 400,
           Body := ascii "\x7b\"error\": \"redirect_url parameter is required\"\x7d" },
          none) := by
    simp only [handleRequest, hpath, if_true, mapIndex_none hparam]
  refine ⟨h, ?_⟩
  rw [h]
  rfl

/-- C9. A request whose path is neither `/auth` nor `/callback` is answered with
status 404 and the body `{"error": "not found"}`, whatever its parameters. -/
theorem not_found (cfg : oauth2.Config) (exchange : Bytes → Except GoError oauth2.Token)
    (request : APIGatewayProxyRequest)
    (hauth : request.Path ≠ ascii "/auth") (hcallback : request.Path ≠ ascii "/callback") :
    handleRequest cfg exchange request =
      ({ StatusCode := 404, Body := ascii "\x7b\"error\": \"not found\"\x7d" }, none) := by
  simp only [handleRequest, hauth, hcallback, if_false]

end CherevanAuth

namespace CherevanAuth
namespace url

/-! ## Query strings: parsing inverts encoding -/

theorem upperhex_lt : ∀ v, v < 16 → unhex (upperhex v) = some v ∧ Plain (upperhex v) := by
  unfold Plain
  decide

/-- The three shapes of what `escape` writes for a byte. -/
theorem queryEscapeByte_cases (c : Nat) :
    (c = 32 ∧ escapeByte c = [43]) ∨
    (c ≠ 32 ∧ shouldEscape c = true ∧ escapeByte c = [37, upperhex (c / 16), upperhex (c % 16)]) ∨
    (shouldEscape c = false ∧ escapeByte c = [c] ∧ c ≠ 37 ∧ c ≠ 43 ∧ Plain c) := by
  by_cases h32 : c = 32
  · left; exact ⟨h32, by simp [escapeByte, h32]⟩
  by_cases hs : shouldEscape c = true
  · right; left; exact ⟨h32, hs, by simp [escapeByte, h32, hs]⟩
  · right; right
    have hs' : shouldEscape c = false := by simpa using hs
    refine ⟨hs', by simp [escapeByte, h32, hs'], ?_⟩
    unfold shouldEscape at hs'
    unfold Plain
    split_ifs at hs' with h1 h2
    · omega
    · omega

theorem QueryUnescape_cons_plain (c : Nat) (t : Bytes) (h1 : c ≠ 37) (h2 : c ≠ 43) :
    QueryUnescape (c :: t) = (QueryUnescape t).map (c :: ·) := by
  rw [QueryUnescape]
  all_goals (intros; omega)

theorem QueryUnescape_plus (t : Bytes) :
    QueryUnescape (43 :: t) = (QueryUnescape t).map (32 :: ·) := by
  rw [QueryUnescape]

theorem QueryUnescape_percent (a b x y : Nat) (t r : Bytes) (ha : unhex a = some x)
    (hb : unhex b = some y) (ht : QueryUnescape t = some r) :
    QueryUnescape (37 :: a :: b :: t) = some ((x * 16 + y) :: r) := by
  rw [QueryUnescape]
  simp only [ha, hb, ht]

/-- The function `QueryUnescape` inverts `QueryEscape`. -/
theorem QueryUnescape_QueryEscape (s : Bytes) (hs : IsBytes s) :
    QueryUnescape (QueryEscape s) = some s := by
  induction s with
  | nil => rfl
  | cons c rest ih =>
    have hc : c < 256 := hs c (by simp)
    have ih' := ih (fun b hb => hs b (by simp [hb]))
    rcases queryEscapeByte_cases c with ⟨h32, he⟩ | ⟨_, _, he⟩ | ⟨_, he, h37, h43, _⟩
    · subst h32
      simp [QueryEscape, he, QueryUnescape_plus, ih']
    · have x1 := (upperhex_lt (c / 16) (by omega)).1
      have x2 := (upperhex_lt (c % 16) (by omega)).1
      have hv : c / 16 * 16 + c % 16 = c := by omega
      simp only [QueryEscape, he, List.cons_append, List.nil_append]
      rw [QueryUnescape_percent _ _ _ _ _ _ x1 x2 ih', hv]
    · simp [QueryEscape, he, QueryUnescape_cons_plain _ _ h37 h43, ih']

/-- The function `QueryEscape` writes none of the separators. -/
theorem plain_QueryEscape (s : Bytes) (hs : IsBytes s) : ∀ y ∈ QueryEscape s, Plain y := by
  induction s with
  | nil => intro y hy; simp [QueryEscape] at hy
  | cons c rest ih =>
    have hc : c < 256 := hs c (by simp)
    have ih' := ih (fun b hb => hs b (by simp [hb]))
    intro y hy
    simp only [QueryEscape, List.mem_append] at hy
    rcases hy with hy | hy
    · rcases queryEscapeByte_cases c with ⟨_, he⟩ | ⟨_, _, he⟩ | ⟨_, he, _, _, hp⟩
      · rw [he] at hy; simp at hy; subst hy; unfold Plain; omega
      · rw [he] at hy
        simp only [List.mem_cons, List.mem_singleton, List.not_mem_nil, or_false] at hy
        rcases hy with rfl | rfl | rfl
        · unfold Plain; omega
        · exact (upperhex_lt (c / 16) (by omega)).2
        · exact (upperhex_lt (c % 16) (by omega)).2
      · rw [he] at hy; simp at hy; subst hy; exact hp
    · exact ih' y hy

theorem cut_append (sep : Nat) (a b : Bytes) (ha : ∀ y ∈ a, y ≠ sep) :
    cut sep (a ++ sep :: b) = (a, b) := by
  induction a with
  | nil => simp [cut]
  | cons c a ih =>
    have hc : c ≠ sep := ha c (by simp)
    simp [cut, hc, ih (fun y hy => ha y (by simp [hy]))]

theorem cut_none (sep : Nat) (a : Bytes) (ha : ∀ y ∈ a, y ≠ sep) : cut sep a = (a, []) := by
  induction a with
  | nil => simp [cut]
  | cons c a ih =>
    have hc : c ≠ sep := ha c (by simp)
    simp [cut, hc, ih (fun y hy => ha y (by simp [hy]))]

theorem splitOn_none (sep : Nat) (a : Bytes) (ha : ∀ y ∈ a, y ≠ sep) :
    splitOn sep a = [a] := by
  induction a with
  | nil => simp [splitOn]
  | cons c a ih =>
    have hc : c ≠ sep := ha c (by simp)
    simp [splitOn, hc, ih (fun y hy => ha y (by simp [hy]))]

theorem splitOn_append (sep : Nat) (a b : Bytes) (ha : ∀ y ∈ a, y ≠ sep) :
    splitOn sep (a ++ sep :: b) = a :: splitOn sep b := by
  induction a with
  | nil => simp [splitOn]
  | cons c a ih =>
    have hc : c ≠ sep := ha c (by simp)
    simp [splitOn, hc, ih (fun y hy => ha y (by simp [hy]))]

/-- One `key=value` piece written by `Values.Encode` is read back by `parsePair`. -/
theorem parsePair_piece (k v : Bytes) (hk : IsBytes k) (hv : IsBytes v) :
    parsePair (QueryEscape k ++ 61 :: QueryEscape v) = some (k, v) := by
  have pk := plain_QueryEscape k hk
  have pv := plain_QueryEscape v hv
  have hcut := cut_append 61 (QueryEscape k) (QueryEscape v) (fun y hy => (pk y hy).2.1)
  have hne : QueryEscape k ++ 61 :: QueryEscape v ≠ [] := by simp
  have h59 : 59 ∉ QueryEscape k ++ 61 :: QueryEscape v := by
    intro h
    simp only [List.mem_append, List.mem_cons] at h
    rcases h with h | h | h
    · exact (pk 59 h).2.2.2.1 rfl
    · omega
    · exact (pv 59 h).2.2.2.1 rfl
  unfold parsePair
  rw [if_neg (by simp [hne, h59]), hcut]
  simp only [QueryUnescape_QueryEscape k hk, QueryUnescape_QueryEscape v hv]

/-- The text of a list of pairs after the first one: `&key=value` for each. -/
theorem plain_piece (k v : Bytes) (hk : IsBytes k) (hv : IsBytes v) :
    ∀ y ∈ QueryEscape k ++ 61 :: QueryEscape v, y ≠ 38 ∧ y ≠ 35 ∧ y ≠ 63 := by
  intro y hy
  simp only [List.mem_append, List.mem_cons] at hy
  rcases hy with h | h | h
  · have := plain_QueryEscape k hk y h; unfold Plain at this; omega
  · omega
  · have := plain_QueryEscape v hv y h; unfold Plain at this; omega

theorem encodeEntries_cons (buf k v : Bytes) (rest : Values) :
    encodeEntries buf ((k, [v]) :: rest) =
      encodeEntries ((if buf.length > 0 then buf ++ [38] else buf) ++ QueryEscape k ++ [61] ++
        QueryEscape v) rest := by
  simp only [encodeEntries, encodeValues]

/-- What `Values.Encode` writes after a non-empty buffer. -/
theorem encodeEntries_ne_nil (ps : List (Bytes × Bytes)) :
    ∀ buf : Bytes, buf ≠ [] →
      encodeEntries buf (ps.map (fun p => (p.1, [p.2]))) =
        buf ++ (ps.map (fun p => 38 :: (QueryEscape p.1 ++ 61 :: QueryEscape p.2))).flatten := by
  induction ps with
  | nil => intro buf _; simp [encodeEntries]
  | cons p ps ih =>
    intro buf hbuf
    have hlen : buf.length > 0 := List.length_pos.mpr hbuf
    simp only [List.map_cons, encodeEntries_cons, hlen, if_true]
    rw [ih _ (by simp)]
    simp

/-- What `Values.Encode` writes for single-valued entries. -/
theorem encodeEntries_nil (p : Bytes × Bytes) (ps : List (Bytes × Bytes)) :
    encodeEntries [] ((p :: ps).map (fun p => (p.1, [p.2]))) =
      (QueryEscape p.1 ++ 61 :: QueryEscape p.2) ++
        (ps.map (fun p => 38 :: (QueryEscape p.1 ++ 61 :: QueryEscape p.2))).flatten := by
  simp only [List.map_cons, encodeEntries_cons]
  rw [encodeEntries_ne_nil ps _ (by simp)]
  simp

/-- The function `ParseQuery` reads back the pairs. -/
theorem ParseQuery_pieces (ps : List (Bytes × Bytes)) :
    ∀ p : Bytes × Bytes, IsBytes p.1 → IsBytes p.2 →
      (∀ q ∈ ps, IsBytes q.1 ∧ IsBytes q.2) →
      ParseQuery ((QueryEscape p.1 ++ 61 :: QueryEscape p.2) ++
        (ps.map (fun p => 38 :: (QueryEscape p.1 ++ 61 :: QueryEscape p.2))).flatten) =
        p :: ps := by
  induction ps with
  | nil =>
    intro p h1 h2 _
    simp only [List.map_nil, List.flatten_nil, List.append_nil, ParseQuery]
    rw [splitOn_none 38 _ (fun y hy => (plain_piece p.1 p.2 h1 h2 y hy).1)]
    simp [parsePair_piece p.1 p.2 h1 h2]
  | cons q ps ih =>
    intro p h1 h2 hall
    have hq := hall q (by simp)
    have ih' := ih q hq.1 hq.2 (fun x hx => hall x (by simp [hx]))
    simp only [List.map_cons, List.flatten_cons, List.cons_append, ParseQuery] at ih' ⊢
    rw [splitOn_append 38 _ _ (fun y hy => (plain_piece p.1 p.2 h1 h2 y hy).1)]
    simp only [List.filterMap_cons, parsePair_piece p.1 p.2 h1 h2]
    rw [ih']

/-- No `#` and no `?` in what `Values.Encode` writes. -/
theorem plain_pieces (ps : List (Bytes × Bytes)) (p : Bytes × Bytes)
    (h1 : IsBytes p.1) (h2 : IsBytes p.2) (hall : ∀ q ∈ ps, IsBytes q.1 ∧ IsBytes q.2) :
    ∀ y ∈ (QueryEscape p.1 ++ 61 :: QueryEscape p.2) ++
        (ps.map (fun p => 38 :: (QueryEscape p.1 ++ 61 :: QueryEscape p.2))).flatten,
      y ≠ 35 ∧ y ≠ 63 := by
  intro y hy
  rw [List.mem_append] at hy
  rcases hy with hy | hy
  · have := plain_piece p.1 p.2 h1 h2 y hy; omega
  · rw [List.mem_flatten] at hy
    obtain ⟨l, hl, hyl⟩ := hy
    rw [List.mem_map] at hl
    obtain ⟨q, hq, rfl⟩ := hl
    rw [List.mem_cons] at hyl
    rcases hyl with rfl | hyl
    · omega
    · have := plain_piece q.1 q.2 (hall q hq).1 (hall q hq).2 y hyl; omega

end url
end CherevanAuth

namespace CherevanAuth

/-! ## The authorization URL -/

theorem base64.encodeChar_lt : ∀ v, v < 64 → base64.encodeChar v < 128 := by decide

theorem base64.isBytes_EncodeToString (bs : Bytes) : IsBytes (base64.EncodeToString bs) := by
  induction bs using base64.EncodeToString.induct with
  | case1 b0 b1 b2 rest ih =>
    intro x hx
    simp only [base64.EncodeToString, List.mem_cons] at hx
    rcases hx with rfl | rfl | rfl | rfl | hx
    · have := base64.encodeChar_lt ((b0 * 65536 + b1 * 256 + b2) / 262144 % 64) (by omega); omega
    · have := base64.encodeChar_lt ((b0 * 65536 + b1 * 256 + b2) / 4096 % 64) (by omega); omega
    · have := base64.encodeChar_lt ((b0 * 65536 + b1 * 256 + b2) / 64 % 64) (by omega); omega
    · have := base64.encodeChar_lt ((b0 * 65536 + b1 * 256 + b2) % 64) (by omega); omega
    · exact ih x hx
  | case2 b0 b1 =>
    intro x hx
    simp only [base64.EncodeToString, List.mem_cons, List.mem_singleton, List.not_mem_nil,
      or_false] at hx
    rcases hx with rfl | rfl | rfl | rfl
    · have := base64.encodeChar_lt ((b0 * 65536 + b1 * 256) / 262144 % 64) (by omega); omega
    · have := base64.encodeChar_lt ((b0 * 65536 + b1 * 256) / 4096 % 64) (by omega); omega
    · have := base64.encodeChar_lt ((b0 * 65536 + b1 * 256) / 64 % 64) (by omega); omega
    · unfold base64.padChar; omega
  | case3 b0 =>
    intro x hx
    simp only [base64.EncodeToString, List.mem_cons, List.mem_singleton, List.not_mem_nil,
      or_false] at hx
    rcases hx with rfl | rfl | rfl | rfl
    · have := base64.encodeChar_lt ((b0 * 65536) / 262144 % 64) (by omega); omega
    · have := base64.encodeChar_lt ((b0 * 65536) / 4096 % 64) (by omega); omega
    · unfold base64.padChar; omega
    · unfold base64.padChar; omega
  | case4 => intro x hx; simp [base64.EncodeToString] at hx

theorem base64.EncodeToString_ne_nil (b : Nat) (bs : Bytes) :
    base64.EncodeToString (b :: bs) ≠ [] := by
  rcases bs with _ | ⟨b1, _ | ⟨b2, rest⟩⟩ <;> simp [base64.EncodeToString]

/-- The function `generateState` never fails; its result is the base64url text of the JSON object. -/
theorem generateState_eq (r : Bytes) :
    generateState r = .ok (base64.EncodeToString
      (ascii "\x7b\"redirect_url\":" ++ json.appendString r ++ ascii "\x7d")) := rfl

theorem generateState_ok (r : Bytes) :
    ∃ state, generateState r = .ok state ∧ state ≠ [] ∧ IsBytes state := by
  refine ⟨_, generateState_eq r, ?_, base64.isBytes_EncodeToString _⟩
  rw [json.ascii_key]
  exact base64.EncodeToString_ne_nil _ _

/-- A string of bytes from `htmlSafeSet` is written between the quotes unchanged. -/
theorem json.appendStringLoop_safe : ∀ (n : Nat) (r : Bytes), r.length ≤ n →
    (∀ b ∈ r, json.htmlSafeSet b = true) → json.appendStringLoop n r = r := by
  intro n
  induction n with
  | zero =>
    intro r h _
    have : r = [] := List.length_eq_zero.mp (by omega)
    subst this
    rfl
  | succ n ih =>
    intro r h hall
    rcases r with _ | ⟨b, rest⟩
    · rfl
    have hb := hall b (by simp)
    have hlt := (json.htmlSafeSet_true hb).2.1
    simp only [json.appendStringLoop, hlt, if_true, hb, List.singleton_append]
    rw [ih rest (by simpa using h) (fun x hx => hall x (by simp [hx]))]

/-- What `init` builds when it does not stop the process. -/
theorem init_some {getenv : Bytes → Bytes} {cfg : oauth2.Config} (h : init getenv = some cfg) :
    cfg = { ClientID := getenv (ascii "GOOGLE_CLIENT_ID"),
            ClientSecret := getenv (ascii "GOOGLE_CLIENT_SECRET"),
            RedirectURL := getenv (ascii "GOOGLE_REDIRECT_URL"),
            Scopes := [ascii "openid", ascii "profile", ascii "email"],
            Endpoint := googleEndpoint } ∧
      getenv (ascii "GOOGLE_CLIENT_ID") ≠ [] ∧ getenv (ascii "GOOGLE_CLIENT_SECRET") ≠ [] ∧
      getenv (ascii "GOOGLE_REDIRECT_URL") ≠ [] := by
  unfold init at h
  simp only at h
  split_ifs at h with hc
  simp only [Option.some.injEq] at h
  refine ⟨h.symm, ?_, ?_, ?_⟩
  · exact fun hx => hc (Or.inl hx)
  · exact fun hx => hc (Or.inr (Or.inl hx))
  · exact fun hx => hc (Or.inr (Or.inr hx))

/-- The eight query parameters of the authorization URL, in the order of `Values.Encode`. -/
theorem authCodeURL_eq (clientID clientSecret redirectURL state : Bytes)
    (hr : redirectURL ≠ []) (hs : state ≠ []) :
    oauth2.Config.AuthCodeURL
        { ClientID := clientID, ClientSecret := clientSecret, RedirectURL := redirectURL,
          Scopes := [ascii "openid", ascii "profile", ascii "email"],
          Endpoint := googleEndpoint } state
        [(ascii "prompt", ascii "select_account"), (ascii "access_type", ascii "online"),
         (ascii "response_type", ascii "code"), (ascii "include_granted_scopes", ascii "true")] =
      googleEndpoint.AuthURL ++ [63] ++
        url.encodeEntries []
          ([(ascii "access_type", ascii "online"), (ascii "client_id", clientID),
            (ascii "include_granted_scopes", ascii "true"),
            (ascii "prompt", ascii "select_account"), (ascii "redirect_uri", redirectURL),
            (ascii "response_type", ascii "code"),
            (ascii "scope", ascii "openid profile email"),
            (ascii "state", state)].map (fun p => (p.1, [p.2]))) := by
  unfold oauth2.Config.AuthCodeURL
  simp only [hr, hs, ne_eq, not_false_eq_true, if_true]
  rfl

/-- The query parameters of the authorization URL, read back by `url.queryParams`. -/
theorem queryParams_authCodeURL (clientID clientSecret redirectURL state : Bytes)
    (hc : IsBytes clientID) (hr : redirectURL ≠ []) (hrb : IsBytes redirectURL)
    (hs : state ≠ []) (hsb : IsBytes state) :
    url.queryParams (oauth2.Config.AuthCodeURL
        { ClientID := clientID, ClientSecret := clientSecret, RedirectURL := redirectURL,
          Scopes := [ascii "openid", ascii "profile", ascii "email"],
          Endpoint := googleEndpoint } state
        [(ascii "prompt", ascii "select_account"), (ascii "access_type", ascii "online"),
         (ascii "response_type", ascii "code"), (ascii "include_granted_scopes", ascii "true")]) =
      [(ascii "access_type", ascii "online"), (ascii "client_id", clientID),
       (ascii "include_granted_scopes", ascii "true"),
       (ascii "prompt", ascii "select_account"), (ascii "redirect_uri", redirectURL),
       (ascii "response_type", ascii "code"),
       (ascii "scope", ascii "openid profile email"),
       (ascii "state", state)] := by
  rw [authCodeURL_eq _ _ _ _ hr hs, url.encodeEntries_nil]
  have hall : ∀ q ∈ [(ascii "client_id", clientID),
      (ascii "include_granted_scopes", ascii "true"),
      (ascii "prompt", ascii "select_account"), (ascii "redirect_uri", redirectURL),
      (ascii "response_type", ascii "code"),
      (ascii "scope", ascii "openid profile email"),
      (ascii "state", state)], IsBytes q.1 ∧ IsBytes q.2 := by
    have k1 : IsBytes (ascii "client_id") := by unfold IsBytes; decide
    have k2 : IsBytes (ascii "include_granted_scopes") ∧ IsBytes (ascii "true") := by
      unfold IsBytes; decide
    have k3 : IsBytes (ascii "prompt") ∧ IsBytes (ascii "select_account") := by
      unfold IsBytes; decide
    have k4 : IsBytes (ascii "redirect_uri") := by unfold IsBytes; decide
    have k5 : IsBytes (ascii "response_type") ∧ IsBytes (ascii "code") := by
      unfold IsBytes; decide
    have k6 : IsBytes (ascii "scope") ∧ IsBytes (ascii "openid profile email") := by
      unfold IsBytes; decide
    have k7 : IsBytes (ascii "state") := by unfold IsBytes; decide
    intro q hq
    simp only [List.mem_cons, List.mem_singleton, List.not_mem_nil, or_false] at hq
    rcases hq with rfl | rfl | rfl | rfl | rfl | rfl | rfl
    · exact ⟨k1, hc⟩
    · exact k2
    · exact k3
    · exact ⟨k4, hrb⟩
    · exact k5
    · exact k6
    · exact ⟨k7, hsb⟩
  have h1 : IsBytes (ascii "access_type", ascii "online").1 := by unfold IsBytes; decide
  have h2 : IsBytes (ascii "access_type", ascii "online").2 := by unfold IsBytes; decide
  have hplain := url.plain_pieces _ _ h1 h2 hall
  have hauth : ∀ y ∈ googleEndpoint.AuthURL, y ≠ 35 ∧ y ≠ 63 := by decide
  unfold url.queryParams
  rw [url.cut_none 35]
  · simp only [List.append_assoc, List.singleton_append]
    rw [url.cut_append 63 _ _ (fun y hy => (hauth y hy).2)]
    exact url.ParseQuery_pieces _ _ h1 h2 hall
  · intro y hy
    rw [List.mem_append, List.mem_append] at hy
    rcases hy with (hy | hy) | hy
    · exact (hauth y hy).1
    · rw [List.mem_singleton] at hy; omega
    · exact (hplain y hy).1

end CherevanAuth

namespace CherevanAuth

/-! ## The `/auth` route -/

/-- What `/auth` answers for a non-empty `redirect_url`, under a configuration
built by `init`: the response, and the query of its `Location` read back. -/
theorem auth_location {getenv : Bytes → Bytes} {cfg : oauth2.Config}
    (exchange : Bytes → Except GoError oauth2.Token) (request : APIGatewayProxyRequest)
    (r : Bytes) (hinit : init getenv = some cfg) (hbytes : ∀ k, IsBytes (getenv k))
    (hpath : request.Path = ascii "/auth")
    (hparam : mapIndex request.QueryStringParameters (ascii "redirect_url") = r)
    (hne : r ≠ []) :
    ∃ loc, handleRequest cfg exchange request =
        ({ StatusCode := 302, Headers := [(ascii "Location", loc)] }, none) ∧
      googleEndpoint.AuthURL ++ [63] <+: loc ∧
      url.queryParams loc =
        [(ascii "access_type", ascii "online"),
         (ascii "client_id", getenv (ascii "GOOGLE_CLIENT_ID")),
         (ascii "include_granted_scopes", ascii "true"),
         (ascii "prompt", ascii "select_account"),
         (ascii "redirect_uri", getenv (ascii "GOOGLE_REDIRECT_URL")),
         (ascii "response_type", ascii "code"),
         (ascii "scope", ascii "openid profile email"),
         (ascii "state", base64.EncodeToString
           (ascii "\x7b\"redirect_url\":" ++ json.appendString r ++ ascii "\x7d"))] := by
  obtain ⟨hcfg, _, _, h3⟩ := init_some hinit
  subst hcfg
  have hs : base64.EncodeToString
      (ascii "\x7b\"redirect_url\":" ++ json.appendString r ++ ascii "\x7d") ≠ [] := by
    rw [json.ascii_key]
    exact base64.EncodeToString_ne_nil _ _
  refine ⟨oauth2.Config.AuthCodeURL
      { ClientID := getenv (ascii "GOOGLE_CLIENT_ID"),
        ClientSecret := getenv (ascii "GOOGLE_CLIENT_SECRET"),
        RedirectURL := getenv (ascii "GOOGLE_REDIRECT_URL"),
        Scopes := [ascii "openid", ascii "profile", ascii "email"],
        Endpoint := googleEndpoint }
      (base64.EncodeToString
        (ascii "\x7b\"redirect_url\":" ++ json.appendString r ++ ascii "\x7d"))
      [(ascii "prompt", ascii "select_account"), (ascii "access_type", ascii "online"),
       (ascii "response_type", ascii "code"), (ascii "include_granted_scopes", ascii "true")],
    ?_, ?_, ?_⟩
  · simp only [handleRequest, hpath, if_true, hparam, hne, if_false, generateState_eq]
  · rw [authCodeURL_eq _ _ _ _ h3 hs]
    exact List.prefix_append _ _
  · exact queryParams_authCodeURL _ _ _ _ (hbytes _) h3 (hbytes _) hs
      (base64.isBytes_EncodeToString _)

/-- C7, as amended. An `/auth` request with a non-empty `redirect_url` `r`, under a
configuration built by `init`, is answered with status 302, an empty body and
a `Location` header that starts with the provider's authorization URL and `?`
and whose `state` query parameter is the base64url encoding of the JSON text
that `json.Marshal` writes, `{"redirect_url":` followed by the quoted and
escaped `r` and `}`; when every byte of `r` is printable ASCII other than
`"`, `\`, `<`, `>` and `&`, that text is `{"redirect_url":"<r>"}`, and when `r` is
valid UTF-8 the `state` parameter decodes back to `r`. -/
theorem auth_redirects_with_state {getenv : Bytes → Bytes} {cfg : oauth2.Config}
    (exchange : Bytes → Except GoError oauth2.Token) (request : APIGatewayProxyRequest)
    (r : Bytes) (hinit : init getenv = some cfg) (hbytes : ∀ k, IsBytes (getenv k))
    (hpath : request.Path = ascii "/auth")
    (hparam : request.QueryStringParameters.lookup (ascii "redirect_url") = some r)
    (hne : r ≠ []) :
    ∃ loc, handleRequest cfg exchange request =
        ({ StatusCode := 302, Headers := [(ascii "Location", loc)], Body := [] }, none) ∧
      googleEndpoint.AuthURL ++ [63] <+: loc ∧
      (url.queryParams loc).filter (fun p => p.1 = ascii "state") =
        [(ascii "state", base64.EncodeToString
          (ascii "\x7b\"redirect_url\":" ++ json.appendString r ++ ascii "\x7d"))] ∧
      ((∀ b ∈ r, json.htmlSafeSet b = true) →
        ascii "\x7b\"redirect_url\":" ++ json.appendString r ++ ascii "\x7d" =
          ascii "\x7b\"redirect_url\":\"" ++ r ++ ascii "\"\x7d") ∧
      (utf8.ValidString r = true →
        parseState (base64.EncodeToString
          (ascii "\x7b\"redirect_url\":" ++ json.appendString r ++ ascii "\x7d")) = .ok r) := by
  obtain ⟨loc, h1, h2, h3⟩ :=
    auth_location exchange request r hinit hbytes hpath (mapIndex_some hparam) hne
  refine ⟨loc, h1, h2, ?_, ?_, ?_⟩
  rotate_left 2
  · intro hv
    obtain ⟨data, hm, hb, hu⟩ := json.Marshal_valid r hv
    have hdata : data =
        ascii "\x7b\"redirect_url\":" ++ json.appendString r ++ ascii "\x7d" := by
      simp only [json.Marshal, Except.ok.injEq] at hm
      exact hm.symm
    rw [← hdata]
    simp only [parseState, base64.DecodeString_EncodeToString data hb, hu]
  · rw [h3]
    have e1 : ascii "access_type" ≠ ascii "state" := by decide
    have e2 : ascii "client_id" ≠ ascii "state" := by decide
    have e3 : ascii "include_granted_scopes" ≠ ascii "state" := by decide
    have e4 : ascii "prompt" ≠ ascii "state" := by decide
    have e5 : ascii "redirect_uri" ≠ ascii "state" := by decide
    have e6 : ascii "response_type" ≠ ascii "state" := by decide
    have e7 : ascii "scope" ≠ ascii "state" := by decide
    simp [List.filter, e1, e2, e3, e4, e5, e6, e7]
  · intro hsafe
    have e1 : ascii "\x7b\"redirect_url\":\"" = ascii "\x7b\"redirect_url\":" ++ [34] := by
      decide
    have e2 : ascii "\"\x7d" = [34] ++ ascii "\x7d" := by decide
    rw [e1, e2, json.appendString, json.appendStringLoop_safe r.length r (le_refl _) hsafe]
    simp only [List.append_assoc]

/-- C8. An `/auth` request that is answered with status 302, under a configuration
built by `init`, has a `Location` whose query holds exactly eight parameters,
each once: `prompt=select_account`, `access_type=online`,
`response_type=code`, `include_granted_scopes=true`, `client_id` and
`redirect_uri` with the configured client ID and redirect URL, `scope` with
`openid profile email`, and `state`. -/
theorem auth_fixed_params {getenv : Bytes → Bytes} {cfg : oauth2.Config}
    (exchange : Bytes → Except GoError oauth2.Token) (request : APIGatewayProxyRequest)
    (hinit : init getenv = some cfg) (hbytes : ∀ k, IsBytes (getenv k))
    (hpath : request.Path = ascii "/auth")
    (hstatus : (handleRequest cfg exchange request).1.StatusCode = 302) :
    ∃ loc state, (handleRequest cfg exchange request).1.Headers = [(ascii "Location", loc)] ∧
      cfg.ClientID = getenv (ascii "GOOGLE_CLIENT_ID") ∧
      cfg.RedirectURL = getenv (ascii "GOOGLE_REDIRECT_URL") ∧
      cfg.Scopes = [ascii "openid", ascii "profile", ascii "email"] ∧
      url.queryParams loc =
        [(ascii "access_type", ascii "online"),
         (ascii "client_id", cfg.ClientID),
         (ascii "include_granted_scopes", ascii "true"),
         (ascii "prompt", ascii "select_account"),
         (ascii "redirect_uri", cfg.RedirectURL),
         (ascii "response_type", ascii "code"),
         (ascii "scope", ascii "openid profile email"),
         (ascii "state", state)] := by
  have hne : mapIndex request.QueryStringParameters (ascii "redirect_url") ≠ [] := by
    intro h
    simp [handleRequest, hpath, h] at hstatus
  obtain ⟨loc, h1, _, h3⟩ := auth_location exchange request _ hinit hbytes hpath rfl hne
  obtain ⟨hcfg, _, _, _⟩ := init_some hinit
  refine ⟨loc, base64.EncodeToString (ascii "\x7b\"redirect_url\":" ++
    json.appendString (mapIndex request.QueryStringParameters (ascii "redirect_url")) ++
    ascii "\x7d"), ?_, ?_, ?_, ?_, ?_⟩
  · rw [h1]
  · rw [hcfg]
  · rw [hcfg]
  · rw [hcfg]
  · rw [h3, hcfg]

end CherevanAuth

namespace CherevanAuth
namespace base64

/-! ## Base64: text that is not well formed is rejected -/

theorem encodeURL_lt : ∀ x ∈ encodeURL, x < 128 := by decide

set_option maxRecDepth 100000 in
theorem decodeMap_small : ∀ c, c < 128 → (decodeMap c ≠ 0xff ↔ isAlphabet c = true) := by
  decide

/-- The decoding table has an entry exactly at the characters of the alphabet. -/
theorem decodeMap_isAlphabet (c : Nat) : decodeMap c ≠ 0xff ↔ isAlphabet c = true := by
  by_cases h : c < 128
  · exact decodeMap_small c h
  · have hmem : c ∉ encodeURL := fun hc => h (encodeURL_lt c hc)
    have hidx : encodeURL.indexOf c = 64 := by
      rw [List.indexOf_of_not_mem hmem]
      rfl
    have h1 : decodeMap c = 0xff := by simp [decodeMap, hidx]
    have h2 : isAlphabet c = false := by
      unfold isAlphabet
      simp only [decide_eq_false_iff_not]
      omega
    simp [h1, h2]

theorem isAlphabet_ne {c : Nat} (h : isAlphabet c = true) : c ≠ 10 ∧ c ≠ 13 ∧ c ≠ 61 := by
  unfold isAlphabet at h
  simp only [decide_eq_true_eq] at h
  omega

theorem stripNewlines_cons_keep {c : Nat} (rest : Bytes) (h1 : c ≠ 10) (h2 : c ≠ 13) :
    stripNewlines (c :: rest) = c :: stripNewlines rest := by
  simp [stripNewlines, h1, h2]

theorem stripNewlines_cons_skip {c : Nat} (rest : Bytes) (h : c = 10 ∨ c = 13) :
    stripNewlines (c :: rest) = stripNewlines rest := by
  unfold stripNewlines
  rw [List.filter_cons_of_neg]
  simp only [decide_eq_true_eq]
  omega

theorem skipNewlines_strip : ∀ (src : Bytes) (si : Nat),
    stripNewlines (skipNewlines si src).2 = stripNewlines src ∧
      (skipNewlines si src).2.length ≤ src.length ∧
      ∀ c rest, (skipNewlines si src).2 = c :: rest → c ≠ 10 ∧ c ≠ 13 := by
  intro src
  induction src with
  | nil => intro si; simp [skipNewlines]
  | cons c rest ih =>
    intro si
    by_cases h : c = 10 ∨ c = 13
    · obtain ⟨i1, i2, i3⟩ := ih (si + 1)
      simp only [skipNewlines, h, if_true]
      refine ⟨?_, by simp only [List.length_cons]; omega, i3⟩
      rw [i1, stripNewlines_cons_skip rest h]
    · simp only [skipNewlines, h, if_false]
      refine ⟨trivial, le_refl _, ?_⟩
      intro c' rest' heq
      simp only [List.cons.injEq] at heq
      omega

theorem wellFormed_four {a b c d : Nat} {rest : Bytes} (ha : isAlphabet a = true)
    (hb : isAlphabet b = true) (hc : isAlphabet c = true) (hd : isAlphabet d = true)
    (hrest : wellFormed rest = true) : wellFormed (a :: b :: c :: d :: rest) = true := by
  rcases rest with _ | ⟨e, rest⟩
  · simp [wellFormed, ha, hb, hc, hd]
  · simp [wellFormed, ha, hb, hc, hd, hrest]

/-- After the padding only newlines may follow. -/
theorem afterPadding_spec (dbuf : List Nat) (si : Nat) (src : Bytes) :
    (afterPadding dbuf si src).rest.length ≤ src.length ∧
      ((afterPadding dbuf si src).err = none → stripNewlines src = []) ∧
      ∀ e, (afterPadding dbuf si src).err = some e → ∃ n, e = .CorruptInputError n := by
  obtain ⟨k1, k2, _⟩ := skipNewlines_strip src si
  rcases hsk : skipNewlines si src with ⟨si2, rest2⟩
  rw [hsk] at k1 k2
  simp only [afterPadding, hsk]
  refine ⟨k2, ?_, ?_⟩
  · intro h
    split_ifs at h with hr
    have hnil : rest2 = [] := by simpa using hr
    rw [← k1, hnil]
    rfl
  · intro e h
    split_ifs at h with hr
    simp only [Option.some.injEq] at h
    exact ⟨_, h.symm⟩

/-- The ways `decodeQuantum` reads one more character. -/
theorem decodeQuantum_cases (srcLen : Nat) (dbuf : List Nat) (si c : Nat) (rest : Bytes) :
    (isAlphabet c = true ∧ dbuf.length = 3 ∧ decodeQuantum srcLen dbuf si (c :: rest) =
        { nsi := si + 1, rest := rest, out := quantumBytes (dbuf ++ [decodeMap c]) 4,
          err := none }) ∨
    (isAlphabet c = true ∧ dbuf.length ≠ 3 ∧ decodeQuantum srcLen dbuf si (c :: rest) =
        decodeQuantum srcLen (dbuf ++ [decodeMap c]) (si + 1) rest) ∨
    ((c = 10 ∨ c = 13) ∧ decodeQuantum srcLen dbuf si (c :: rest) =
        decodeQuantum srcLen dbuf (si + 1) rest) ∨
    ((∃ n, (decodeQuantum srcLen dbuf si (c :: rest)).err = some (.CorruptInputError n)) ∧
        (decodeQuantum srcLen dbuf si (c :: rest)).rest.length ≤ rest.length) ∨
    (c = 61 ∧ dbuf.length = 2 ∧ ∃ si1 rest1, skipNewlines (si + 1) rest = (si1, 61 :: rest1) ∧
        decodeQuantum srcLen dbuf si (c :: rest) = afterPadding dbuf (si1 + 1) rest1) ∨
    (c = 61 ∧ 3 ≤ dbuf.length ∧
        decodeQuantum srcLen dbuf si (c :: rest) = afterPadding dbuf (si + 1) rest) := by
  by_cases hmap : decodeMap c ≠ 0xff
  · have hc := (decodeMap_isAlphabet c).mp hmap
    by_cases h3 : dbuf.length = 3
    · left
      exact ⟨hc, h3, by simp [decodeQuantum, hmap, h3]⟩
    · right; left
      exact ⟨hc, h3, by simp [decodeQuantum, hmap, h3]⟩
  · have hmap' : decodeMap c = 255 := by simpa using hmap
    right; right
    by_cases hnl : c = 10 ∨ c = 13
    · left
      exact ⟨hnl, by simp [decodeQuantum, hmap', hnl]⟩
    · right
      by_cases hpad : c = 61
      · subst hpad
        by_cases h1 : dbuf.length ≤ 1
        · left
          simp [decodeQuantum, hmap', padChar, h1]
        · by_cases h2 : dbuf.length = 2
          · have k2 := (skipNewlines_strip rest (si + 1)).2.1
            rcases hsk : skipNewlines (si + 1) rest with ⟨si1, _ | ⟨c1, rest1⟩⟩
            · left
              simp [decodeQuantum, hmap', padChar, h2, hsk]
            · rw [hsk] at k2
              by_cases hc1 : c1 = 61
              · subst hc1
                right; left
                refine ⟨rfl, h2, si1, rest1, rfl, ?_⟩
                simp [decodeQuantum, hmap', padChar, h2, hsk]
              · left
                simp only [List.length_cons] at k2
                simp [decodeQuantum, hmap', padChar, h2, hsk, hc1]
                omega
          · right; right
            refine ⟨rfl, by omega, ?_⟩
            simp [decodeQuantum, hmap', padChar, h1, h2]
      · left
        simp [decodeQuantum, hmap', hnl, padChar, hpad]

/-- Every error of `decodeQuantum` is a `CorruptInputError`. -/
theorem decodeQuantum_err (srcLen : Nat) : ∀ (src : Bytes) (dbuf : List Nat) (si : Nat)
    (e : GoError), (decodeQuantum srcLen dbuf si src).err = some e →
    ∃ n, e = .CorruptInputError n := by
  intro src
  induction src with
  | nil =>
    intro dbuf si e h
    simp only [decodeQuantum] at h
    split_ifs at h
    simp only [Option.some.injEq] at h
    exact ⟨_, h.symm⟩
  | cons c rest ih =>
    intro dbuf si e h
    rcases decodeQuantum_cases srcLen dbuf si c rest with ⟨_, _, heq⟩ | ⟨_, _, heq⟩ | ⟨_, heq⟩ |
      ⟨⟨n, hn⟩, _⟩ | ⟨_, _, si1, rest1, _, heq⟩ | ⟨_, _, heq⟩
    · rw [heq] at h
      simp at h
    · rw [heq] at h
      exact ih _ _ _ h
    · rw [heq] at h
      exact ih _ _ _ h
    · rw [hn] at h
      simp only [Option.some.injEq] at h
      exact ⟨n, h.symm⟩
    · rw [heq] at h
      exact (afterPadding_spec _ _ _).2.2 e h
    · rw [heq] at h
      exact (afterPadding_spec _ _ _).2.2 e h

/-- What `decodeQuantum` leaves is shorter than what it was given. -/
theorem decodeQuantum_rest (srcLen : Nat) : ∀ (src : Bytes) (dbuf : List Nat) (si : Nat),
    (decodeQuantum srcLen dbuf si src).rest.length ≤ src.length - 1 := by
  intro src
  induction src with
  | nil =>
    intro dbuf si
    simp only [decodeQuantum]
    split_ifs <;> simp
  | cons c rest ih =>
    intro dbuf si
    have i1 := ih (dbuf ++ [decodeMap c]) (si + 1)
    have i2 := ih dbuf (si + 1)
    simp only [List.length_cons, Nat.add_sub_cancel]
    rcases decodeQuantum_cases srcLen dbuf si c rest with ⟨_, _, heq⟩ | ⟨_, _, heq⟩ | ⟨_, heq⟩ |
      ⟨_, hn⟩ | ⟨_, _, si1, rest1, hsk, heq⟩ | ⟨_, _, heq⟩
    · rw [heq]
    · rw [heq]; omega
    · rw [heq]; omega
    · exact hn
    · rw [heq]
      have k1 := (afterPadding_spec dbuf (si1 + 1) rest1).1
      have k2 := (skipNewlines_strip rest (si + 1)).2.1
      rw [hsk] at k2
      simp only [List.length_cons] at k2
      omega
    · rw [heq]
      exact (afterPadding_spec dbuf (si + 1) rest).1

/-- A quantum read without error, followed by well-formed text, is well-formed
text. `pre` holds the characters of the quantum read so far. -/
theorem decodeQuantum_wellFormed (srcLen : Nat) : ∀ (src : Bytes) (dbuf : List Nat) (si : Nat)
    (pre : Bytes), pre.length = dbuf.length → dbuf.length ≤ 3 →
    (∀ x ∈ pre, isAlphabet x = true) →
    (decodeQuantum srcLen dbuf si src).err = none →
    wellFormed (stripNewlines (decodeQuantum srcLen dbuf si src).rest) = true →
    wellFormed (pre ++ stripNewlines src) = true := by
  intro src
  induction src with
  | nil =>
    intro dbuf si pre hlen _ _ herr _
    simp only [decodeQuantum] at herr
    split_ifs at herr with h0
    have : pre = [] := List.length_eq_zero.mp (by omega)
    subst this
    rfl
  | cons c rest ih =>
    intro dbuf si pre hlen hle hpre herr hwf
    rcases decodeQuantum_cases srcLen dbuf si c rest with ⟨hc, h3, heq⟩ | ⟨hc, h3, heq⟩ |
      ⟨hnl, heq⟩ | ⟨⟨n, hn⟩, _⟩ | ⟨hpad, h2, si1, rest1, hsk, heq⟩ | ⟨hpad, h3, heq⟩
    · -- the fourth character of the quantum
      rw [heq] at hwf
      obtain ⟨n1, n2, _⟩ := isAlphabet_ne hc
      obtain ⟨x, y, z, rfl⟩ := List.length_eq_three.mp (hlen.trans h3)
      rw [stripNewlines_cons_keep rest n1 n2]
      exact wellFormed_four (hpre x (by simp)) (hpre y (by simp)) (hpre z (by simp)) hc hwf
    · -- one more character of the quantum
      rw [heq] at herr hwf
      obtain ⟨n1, n2, _⟩ := isAlphabet_ne hc
      rw [stripNewlines_cons_keep rest n1 n2]
      have := ih (dbuf ++ [decodeMap c]) (si + 1) (pre ++ [c]) (by simp [hlen])
        (by simp only [List.length_append, List.length_singleton]; omega)
        (by
          intro x hx
          rw [List.mem_append, List.mem_singleton] at hx
          rcases hx with hx | rfl
          · exact hpre x hx
          · exact hc)
        herr hwf
      simpa using this
    · -- a newline
      rw [heq] at herr hwf
      rw [stripNewlines_cons_skip rest hnl]
      exact ih dbuf (si + 1) pre hlen hle hpre herr hwf
    · rw [hn] at herr
      cases herr
    · -- padding after two characters
      subst hpad
      rw [heq] at herr
      obtain ⟨x, y, rfl⟩ := List.length_eq_two.mp (hlen.trans h2)
      have k1 := (skipNewlines_strip rest (si + 1)).1
      rw [hsk] at k1
      have k4 := (afterPadding_spec dbuf (si1 + 1) rest1).2.1 herr
      rw [stripNewlines_cons_keep rest (by omega) (by omega), ← k1,
        stripNewlines_cons_keep rest1 (by omega) (by omega), k4]
      simp [wellFormed, hpre x (by simp), hpre y (by simp)]
    · -- padding after three characters
      subst hpad
      rw [heq] at herr
      have hl3 : dbuf.length = 3 := by omega
      obtain ⟨x, y, z, rfl⟩ := List.length_eq_three.mp (hlen.trans hl3)
      have k4 := (afterPadding_spec dbuf (si + 1) rest).2.1 herr
      rw [stripNewlines_cons_keep rest (by omega) (by omega), k4]
      simp [wellFormed, hpre x (by simp), hpre y (by simp), hpre z (by simp)]

/-- The decoding loop rejects text that is not well formed. -/
theorem decodeLoop_not_wellFormed (srcLen : Nat) : ∀ (fuel : Nat) (si : Nat) (src : Bytes),
    src.length ≤ fuel → wellFormed (stripNewlines src) = false →
    ∃ n, decodeLoop srcLen fuel si src = .error (.CorruptInputError n) := by
  intro fuel
  induction fuel with
  | zero =>
    intro si src hlen hwf
    have : src = [] := List.length_eq_zero.mp (by omega)
    subst this
    simp [stripNewlines, wellFormed] at hwf
  | succ fuel ih =>
    intro si src hlen hwf
    rcases src with _ | ⟨c, rest⟩
    · simp [stripNewlines, wellFormed] at hwf
    · simp only [decodeLoop]
      have hrest := decodeQuantum_rest srcLen (c :: rest) [] si
      simp only [List.length_cons, Nat.add_sub_cancel] at hrest hlen
      cases herr : (decodeQuantum srcLen [] si (c :: rest)).err with
      | some e =>
        obtain ⟨n, rfl⟩ := decodeQuantum_err srcLen _ _ _ e herr
        exact ⟨n, rfl⟩
      | none =>
        have hq : wellFormed (stripNewlines (decodeQuantum srcLen [] si (c :: rest)).rest) =
            false := by
          by_contra hcon
          have ht : wellFormed (stripNewlines (decodeQuantum srcLen [] si (c :: rest)).rest) =
              true := by simpa using hcon
          have := decodeQuantum_wellFormed srcLen (c :: rest) [] si [] rfl (by simp)
            (by simp) herr ht
          rw [List.nil_append, hwf] at this
          cases this
        obtain ⟨n, hn⟩ := ih (decodeQuantum srcLen [] si (c :: rest)).nsi _ (by omega) hq
        exact ⟨n, by simp only [hn]⟩

theorem DecodeString_not_wellFormed (s : Bytes) (h : wellFormed (stripNewlines s) = false) :
    ∃ n, DecodeString s = .error (.CorruptInputError n) :=
  decodeLoop_not_wellFormed s.length s.length 0 s (le_refl _) h

end base64

/-- C10, as amended. For every input string that, once the characters `\r` and `\n`
are left out (the decoder ignores them), is not padded base64url text (groups
of four characters of the alphabet `A`-`Z`, `a`-`z`, `0`-`9`, `-`, `_`, the last
group ending in at most two `=`), `parseState` fails with a
`CorruptInputError` and returns no value. -/
theorem parseState_not_base64 (s : Bytes)
    (h : base64.wellFormed (base64.stripNewlines s) = false) :
    ∃ n, parseState s = .error (.CorruptInputError n) := by
  obtain ⟨n, hn⟩ := base64.DecodeString_not_wellFormed s h
  exact ⟨n, by simp only [parseState, hn]⟩

end CherevanAuth

namespace CherevanAuth

/-! ## Examples -/

theorem exampleGetenv_isBytes : ∀ k, IsBytes (exampleGetenv k) := by
  intro k
  unfold exampleGetenv
  split_ifs <;> (unfold IsBytes; decide)

theorem init_exampleGetenv : init exampleGetenv = some exampleConfig := by decide

/-- C1, the claim as written fails at the string of the one byte `0xff`: its state
decodes to the three bytes of U+FFFD. -/
theorem roundtrip_counterexample :
    generateState [255] = .ok (ascii "eyJyZWRpcmVjdF91cmwiOiJcdWZmZmQifQ==") ∧
      parseState (ascii "eyJyZWRpcmVjdF91cmwiOiJcdWZmZmQifQ==") = .ok [239, 191, 189] ∧
      ¬ ∀ r : Bytes, IsBytes r → ∃ s, generateState r = .ok s ∧ parseState s = .ok r := by
  have h1 : generateState [255] = .ok (ascii "eyJyZWRpcmVjdF91cmwiOiJcdWZmZmQifQ==") := by
    decide
  have h2 : parseState (ascii "eyJyZWRpcmVjdF91cmwiOiJcdWZmZmQifQ==") =
      .ok [239, 191, 189] := by decide
  refine ⟨h1, h2, ?_⟩
  intro h
  obtain ⟨s, hs, hp⟩ := h [255] (by unfold IsBytes; decide)
  rw [h1] at hs
  cases hs
  rw [h2] at hp
  cases hp

theorem parseState_generateState_valid_witness :
    utf8.ValidString exampleRedirect = true ∧
      ∃ s, generateState exampleRedirect = .ok s ∧ parseState s = .ok exampleRedirect :=
  ⟨by decide, parseState_generateState_valid exampleRedirect (by decide)⟩

set_option maxRecDepth 100000 in
theorem callback_success_witness :
    (⟨ascii "/callback", [(ascii "state", exampleState), (ascii "code", ascii "good")]⟩ :
        APIGatewayProxyRequest).Path = ascii "/callback" ∧
      (⟨ascii "/callback", [(ascii "state", exampleState), (ascii "code", ascii "good")]⟩ :
        APIGatewayProxyRequest).QueryStringParameters.lookup (ascii "state") =
          some exampleState ∧
      exampleState ≠ [] ∧ parseState exampleState = .ok exampleRedirect ∧
      (⟨ascii "/callback", [(ascii "state", exampleState), (ascii "code", ascii "good")]⟩ :
        APIGatewayProxyRequest).QueryStringParameters.lookup (ascii "code") =
          some (ascii "good") ∧
      ascii "good" ≠ [] ∧ exampleExchange (ascii "good") = .ok ⟨ascii "abc123"⟩ ∧
      handleRequest exampleConfig exampleExchange
          ⟨ascii "/callback", [(ascii "state", exampleState), (ascii "code", ascii "good")]⟩ =
        ({ StatusCode := 302,
           Headers := [(ascii "Location",
             exampleRedirect ++ ascii "#access_token=" ++ ascii "abc123")] }, none) ∧
      exampleRedirect ++ ascii "#access_token=" ++ ascii "abc123" =
        ascii "https://app.example/done#access_token=abc123" :=
  ⟨by decide, by decide, by decide, by decide, by decide, by decide, by decide,
    callback_success exampleConfig exampleExchange
      ⟨ascii "/callback", [(ascii "state", exampleState), (ascii "code", ascii "good")]⟩
      exampleState exampleRedirect (ascii "good") ⟨ascii "abc123"⟩
      (by decide) (by decide) (by decide) (by decide) (by decide) (by decide) (by decide),
    by decide⟩

theorem callback_state_missing_witness :
    (⟨ascii "/callback", [(ascii "code", ascii "good")]⟩ : APIGatewayProxyRequest).Path =
        ascii "/callback" ∧
      (⟨ascii "/callback", [(ascii "code", ascii "good")]⟩ :
        APIGatewayProxyRequest).QueryStringParameters.lookup (ascii "state") = none ∧
      handleRequest exampleConfig exampleExchange
          ⟨ascii "/callback", [(ascii "code", ascii "good")]⟩ =
        ({ StatusCode := 400,
           Body := ascii "\x7b\"error\": \"state parameter is required\"\x7d" }, none) :=
  ⟨by decide, by decide,
    callback_state_missing exampleConfig exampleExchange
      ⟨ascii "/callback", [(ascii "code", ascii "good")]⟩ (by decide) (by decide)⟩

/-- C4, the claim as written fails at a `state` parameter that is present and
empty: it does not decode, and the answer is the one for a missing `state`. -/
theorem callback_state_empty_counterexample :
    (⟨ascii "/callback", [(ascii "state", [])]⟩ :
        APIGatewayProxyRequest).QueryStringParameters.lookup (ascii "state") = some [] ∧
      parseState [] = .error (.SyntaxError (ascii "unexpected end of JSON input")) ∧
      handleRequest exampleConfig exampleExchange ⟨ascii "/callback", [(ascii "state", [])]⟩ =
        ({ StatusCode := 400,
           Body := ascii "\x7b\"error\": \"state parameter is required\"\x7d" }, none) := by
  decide

theorem callback_state_invalid_witness :
    (⟨ascii "/callback", [(ascii "state", ascii "not base64!"), (ascii "code", ascii "good")]⟩ :
        APIGatewayProxyRequest).Path = ascii "/callback" ∧
      (⟨ascii "/callback", [(ascii "state", ascii "not base64!"), (ascii "code", ascii "good")]⟩ :
        APIGatewayProxyRequest).QueryStringParameters.lookup (ascii "state") =
          some (ascii "not base64!") ∧
      ascii "not base64!" ≠ [] ∧
      parseState (ascii "not base64!") = .error (.CorruptInputError 3) ∧
      (handleRequest exampleConfig exampleExchange
          ⟨ascii "/callback",
            [(ascii "state", ascii "not base64!"), (ascii "code", ascii "good")]⟩ =
        ({ StatusCode := 400,
           Body := ascii "\x7b\"error\": \"invalid state parameter: " ++
             (GoError.CorruptInputError 3).Error ++ ascii "\"\x7d" }, none) ∧
       (handleRequest exampleConfig exampleExchange
          ⟨ascii "/callback",
            [(ascii "state", ascii "not base64!"), (ascii "code", ascii "good")]⟩).1.Body ≠
        ascii "\x7b\"error\": \"code parameter is required\"\x7d") :=
  ⟨by decide, by decide, by decide, by decide,
    callback_state_invalid exampleConfig exampleExchange
      ⟨ascii "/callback", [(ascii "state", ascii "not base64!"), (ascii "code", ascii "good")]⟩
      (ascii "not base64!") (.CorruptInputError 3) (by decide) (by decide) (by decide)
      (by decide)⟩

set_option maxRecDepth 100000 in
theorem callback_code_missing_witness :
    (⟨ascii "/callback", [(ascii "state", exampleState)]⟩ : APIGatewayProxyRequest).Path =
        ascii "/callback" ∧
      (⟨ascii "/callback", [(ascii "state", exampleState)]⟩ :
        APIGatewayProxyRequest).QueryStringParameters.lookup (ascii "state") =
          some exampleState ∧
      parseState exampleState = .ok exampleRedirect ∧
      (⟨ascii "/callback", [(ascii "state", exampleState)]⟩ :
        APIGatewayProxyRequest).QueryStringParameters.lookup (ascii "code") = none ∧
      handleRequest exampleConfig exampleExchange
          ⟨ascii "/callback", [(ascii "state", exampleState)]⟩ =
        ({ StatusCode := 400,
           Body := ascii "\x7b\"error\": \"code parameter is required\"\x7d" }, none) :=
  ⟨by decide, by decide, by decide, by decide,
    callback_code_missing exampleConfig exampleExchange
      ⟨ascii "/callback", [(ascii "state", exampleState)]⟩ exampleState exampleRedirect
      (by decide) (by decide) (by decide) (by decide)⟩

theorem auth_redirect_url_missing_witness :
    (⟨ascii "/auth", []⟩ : APIGatewayProxyRequest).Path = ascii "/auth" ∧
      (⟨ascii "/auth", []⟩ : APIGatewayProxyRequest).QueryStringParameters.lookup
        (ascii "redirect_url") = none ∧
      (handleRequest exampleConfig exampleExchange ⟨ascii "/auth", []⟩ =
        ({ StatusCode := 400,
           Body := ascii "\x7b\"error\": \"redirect_url parameter is required\"\x7d" }, none) ∧
       (handleRequest exampleConfig exampleExchange ⟨ascii "/auth", []⟩).1.Headers.lookup
        (ascii "Location") = none) :=
  ⟨by decide, by decide,
    auth_redirect_url_missing exampleConfig exampleExchange ⟨ascii "/auth", []⟩ (by decide)
      (by decide)⟩

set_option maxRecDepth 100000 in
/-- C7, the claim as written fails at the `redirect_url` of the one byte `0xff`: the
`state` parameter is the base64url text of `{"redirect_url":"\ufffd"}`, not
that of `{"redirect_url":"<r>"}`, and it decodes to another string than `r`. -/
theorem auth_state_counterexample :
    stateParam (handleRequest exampleConfig exampleExchange
        ⟨ascii "/auth", [(ascii "redirect_url", [255])]⟩).1 =
        some (ascii "eyJyZWRpcmVjdF91cmwiOiJcdWZmZmQifQ==") ∧
      base64.EncodeToString (ascii "\x7b\"redirect_url\":\"" ++ [255] ++ ascii "\"\x7d") =
        ascii "eyJyZWRpcmVjdF91cmwiOiL_In0=" ∧
      base64.DecodeString (ascii "eyJyZWRpcmVjdF91cmwiOiJcdWZmZmQifQ==") =
        .ok (ascii "\x7b\"redirect_url\":\"\\ufffd\"\x7d") ∧
      parseState (ascii "eyJyZWRpcmVjdF91cmwiOiJcdWZmZmQifQ==") = .ok [239, 191, 189] := by
  decide

theorem auth_redirects_with_state_witness :
    init exampleGetenv = some exampleConfig ∧ (∀ k, IsBytes (exampleGetenv k)) ∧
      (⟨ascii "/auth", [(ascii "redirect_url", exampleRedirect)]⟩ :
        APIGatewayProxyRequest).Path = ascii "/auth" ∧
      (⟨ascii "/auth", [(ascii "redirect_url", exampleRedirect)]⟩ :
        APIGatewayProxyRequest).QueryStringParameters.lookup (ascii "redirect_url") =
          some exampleRedirect ∧
      exampleRedirect ≠ [] ∧
      ∃ loc, handleRequest exampleConfig exampleExchange
          ⟨ascii "/auth", [(ascii "redirect_url", exampleRedirect)]⟩ =
          ({ StatusCode := 302, Headers := [(ascii "Location", loc)], Body := [] }, none) ∧
        googleEndpoint.AuthURL ++ [63] <+: loc ∧
        (url.queryParams loc).filter (fun p => p.1 = ascii "state") =
          [(ascii "state", base64.EncodeToString
            (ascii "\x7b\"redirect_url\":" ++ json.appendString exampleRedirect ++
              ascii "\x7d"))] ∧
        ((∀ b ∈ exampleRedirect, json.htmlSafeSet b = true) →
          ascii "\x7b\"redirect_url\":" ++ json.appendString exampleRedirect ++ ascii "\x7d" =
            ascii "\x7b\"redirect_url\":\"" ++ exampleRedirect ++ ascii "\"\x7d") ∧
        (utf8.ValidString exampleRedirect = true →
          parseState (base64.EncodeToString
            (ascii "\x7b\"redirect_url\":" ++ json.appendString exampleRedirect ++
              ascii "\x7d")) = .ok exampleRedirect) :=
  ⟨by decide, exampleGetenv_isBytes, by decide, by decide, by decide,
    auth_redirects_with_state exampleExchange
      ⟨ascii "/auth", [(ascii "redirect_url", exampleRedirect)]⟩ exampleRedirect
      init_exampleGetenv exampleGetenv_isBytes (by decide) (by decide) (by decide)⟩

theorem auth_fixed_params_witness :
    init exampleGetenv = some exampleConfig ∧ (∀ k, IsBytes (exampleGetenv k)) ∧
      (⟨ascii "/auth", [(ascii "redirect_url", exampleRedirect)]⟩ :
        APIGatewayProxyRequest).Path = ascii "/auth" ∧
      (handleRequest exampleConfig exampleExchange
        ⟨ascii "/auth", [(ascii "redirect_url", exampleRedirect)]⟩).1.StatusCode = 302 ∧
      ∃ loc state, (handleRequest exampleConfig exampleExchange
          ⟨ascii "/auth", [(ascii "redirect_url", exampleRedirect)]⟩).1.Headers =
          [(ascii "Location", loc)] ∧
        exampleConfig.ClientID = exampleGetenv (ascii "GOOGLE_CLIENT_ID") ∧
        exampleConfig.RedirectURL = exampleGetenv (ascii "GOOGLE_REDIRECT_URL") ∧
        exampleConfig.Scopes = [ascii "openid", ascii "profile", ascii "email"] ∧
        url.queryParams loc =
          [(ascii "access_type", ascii "online"),
           (ascii "client_id", exampleConfig.ClientID),
           (ascii "include_granted_scopes", ascii "true"),
           (ascii "prompt", ascii "select_account"),
           (ascii "redirect_uri", exampleConfig.RedirectURL),
           (ascii "response_type", ascii "code"),
           (ascii "scope", ascii "openid profile email"),
           (ascii "state", state)] :=
  ⟨by decide, exampleGetenv_isBytes, by decide, by decide,
    auth_fixed_params exampleExchange
      ⟨ascii "/auth", [(ascii "redirect_url", exampleRedirect)]⟩
      init_exampleGetenv exampleGetenv_isBytes (by decide) (by decide)⟩

theorem not_found_witness :
    (⟨ascii "/health", []⟩ : APIGatewayProxyRequest).Path ≠ ascii "/auth" ∧
      (⟨ascii "/health", []⟩ : APIGatewayProxyRequest).Path ≠ ascii "/callback" ∧
      handleRequest exampleConfig exampleExchange ⟨ascii "/health", []⟩ =
        ({ StatusCode := 404, Body := ascii "\x7b\"error\": \"not found\"\x7d" }, none) :=
  ⟨by decide, by decide,
    not_found exampleConfig exampleExchange ⟨ascii "/health", []⟩ (by decide) (by decide)⟩

set_option maxRecDepth 100000 in
/-- C10, the claim as written fails at a state followed by a newline: the text has a
character outside the alphabet and the padding, and it decodes. -/
theorem parseState_newline_counterexample :
    10 ∈ ascii "eyJyZWRpcmVjdF91cmwiOiJhIn0=\n" ∧ base64.isAlphabet 10 = false ∧
      10 ≠ base64.padChar ∧
      base64.wellFormed (ascii "eyJyZWRpcmVjdF91cmwiOiJhIn0=\n") = false ∧
      parseState (ascii "eyJyZWRpcmVjdF91cmwiOiJhIn0=\n") = .ok (ascii "a") := by
  decide

theorem parseState_not_base64_witness :
    base64.wellFormed (base64.stripNewlines (ascii "not base64!")) = false ∧
      ∃ n, parseState (ascii "not base64!") = .error (.CorruptInputError n) :=
  ⟨by decide, parseState_not_base64 (ascii "not base64!") (by decide)⟩

end CherevanAuth

namespace CherevanAuth

/-! ## The handler: errors, calls and the fragment -/

/-- The eight ways through `handleRequest`, with the response and the calls of each. -/
theorem handleRequest_cases (cfg : oauth2.Config)
    (exchange : Bytes → Except GoError oauth2.Token) (request : APIGatewayProxyRequest) :
    (request.Path = ascii "/auth" ∧
        mapIndex request.QueryStringParameters (ascii "redirect_url") = [] ∧
        handleRequestCalls cfg exchange request =
          (({ StatusCode := 400,
              Body := ascii "\x7b\"error\": \"redirect_url parameter is required\"\x7d" },
            none), [])) ∨
    (request.Path = ascii "/auth" ∧
        mapIndex request.QueryStringParameters (ascii "redirect_url") ≠ [] ∧
        ∃ state, generateState (mapIndex request.QueryStringParameters (ascii "redirect_url")) =
            .ok state ∧
          handleRequestCalls cfg exchange request =
            (({ StatusCode := 302,
                Headers := [(ascii "Location", cfg.AuthCodeURL state
                  [(ascii "prompt", ascii "select_account"),
                   (ascii "access_type", ascii "online"),
                   (ascii "response_type", ascii "code"),
                   (ascii "include_granted_scopes", ascii "true")])] }, none),
              [.generateState (mapIndex request.QueryStringParameters (ascii "redirect_url")),
               .AuthCodeURL state])) ∨
    (request.Path = ascii "/callback" ∧
        mapIndex request.QueryStringParameters (ascii "state") = [] ∧
        handleRequestCalls cfg exchange request =
          (({ StatusCode := 400,
              Body := ascii "\x7b\"error\": \"state parameter is required\"\x7d" }, none),
            [])) ∨
    (request.Path = ascii "/callback" ∧
        mapIndex request.QueryStringParameters (ascii "state") ≠ [] ∧
        ∃ err, parseState (mapIndex request.QueryStringParameters (ascii "state")) =
            .error err ∧
          handleRequestCalls cfg exchange request =
            (({ StatusCode := 400,
                Body := ascii "\x7b\"error\": \"invalid state parameter: " ++ err.Error ++
                  ascii "\"\x7d" }, none),
              [.parseState (mapIndex request.QueryStringParameters (ascii "state"))])) ∨
    (request.Path = ascii "/callback" ∧
        mapIndex request.QueryStringParameters (ascii "state") ≠ [] ∧
        (∃ r, parseState (mapIndex request.QueryStringParameters (ascii "state")) = .ok r) ∧
        mapIndex request.QueryStringParameters (ascii "code") = [] ∧
        handleRequestCalls cfg exchange request =
          (({ StatusCode := 400,
              Body := ascii "\x7b\"error\": \"code parameter is required\"\x7d" }, none),
            [.parseState (mapIndex request.QueryStringParameters (ascii "state"))])) ∨
    (request.Path = ascii "/callback" ∧
        mapIndex request.QueryStringParameters (ascii "state") ≠ [] ∧
        (∃ r, parseState (mapIndex request.QueryStringParameters (ascii "state")) = .ok r) ∧
        mapIndex request.QueryStringParameters (ascii "code") ≠ [] ∧
        ∃ err, exchange (mapIndex request.QueryStringParameters (ascii "code")) = .error err ∧
          handleRequestCalls cfg exchange request =
            (({ StatusCode := 500,
                Body := ascii "\x7b\"error\": \"failed to exchange token: " ++ err.Error ++
                  ascii "\"\x7d" }, none),
              [.parseState (mapIndex request.QueryStringParameters (ascii "state")),
               .Exchange (mapIndex request.QueryStringParameters (ascii "code"))])) ∨
    (request.Path = ascii "/callback" ∧
        mapIndex request.QueryStringParameters (ascii "state") ≠ [] ∧
        mapIndex request.QueryStringParameters (ascii "code") ≠ [] ∧
        ∃ r token, parseState (mapIndex request.QueryStringParameters (ascii "state")) =
            .ok r ∧
          exchange (mapIndex request.QueryStringParameters (ascii "code")) = .ok token ∧
          handleRequestCalls cfg exchange request =
            (({ StatusCode := 302,
                Headers := [(ascii "Location",
                  r ++ ascii "#access_token=" ++ token.AccessToken)] }, none),
              [.parseState (mapIndex request.QueryStringParameters (ascii "state")),
               .Exchange (mapIndex request.QueryStringParameters (ascii "code"))])) ∨
    (request.Path ≠ ascii "/auth" ∧ request.Path ≠ ascii "/callback" ∧
        handleRequestCalls cfg exchange request =
          (({ StatusCode := 404, Body := ascii "\x7b\"error\": \"not found\"\x7d" }, none),
            [])) := by
  by_cases hp : request.Path = ascii "/auth"
  · by_cases hr : mapIndex request.QueryStringParameters (ascii "redirect_url") = []
    · left
      exact ⟨hp, hr, by simp only [handleRequestCalls, hp, hr, if_true]⟩
    · right; left
      exact ⟨hp, hr, _, generateState_eq _,
        by simp only [handleRequestCalls, hp, hr, if_true, if_false, generateState_eq]⟩
  · right; right
    by_cases hc : request.Path = ascii "/callback"
    · by_cases hs : mapIndex request.QueryStringParameters (ascii "state") = []
      · left
        exact ⟨hc, hs, by simp only [handleRequestCalls, hc, callback_ne_auth, hs, if_true, if_false]⟩
      · right
        cases hd : parseState (mapIndex request.QueryStringParameters (ascii "state")) with
        | error err =>
          left
          exact ⟨hc, hs, err, rfl,
            by simp only [handleRequestCalls, hc, callback_ne_auth, hs, hd, if_true, if_false]⟩
        | ok r =>
          right
          by_cases hcode : mapIndex request.QueryStringParameters (ascii "code") = []
          · left
            exact ⟨hc, hs, ⟨r, rfl⟩, hcode,
              by simp only [handleRequestCalls, hc, callback_ne_auth, hs, hd, hcode, if_true, if_false]⟩
          · right
            cases hx : exchange (mapIndex request.QueryStringParameters (ascii "code")) with
            | error err =>
              left
              exact ⟨hc, hs, ⟨r, rfl⟩, hcode, err, rfl,
                by simp only [handleRequestCalls, hc, callback_ne_auth, hs, hd, hcode, hx, if_true, if_false]⟩
            | ok token =>
              right; left
              exact ⟨hc, hs, hcode, r, token, rfl, rfl,
                by simp only [handleRequestCalls, hc, callback_ne_auth, hs, hd, hcode, hx, if_true, if_false]⟩
    · right; right; right; right; right
      exact ⟨hp, hc, by simp only [handleRequestCalls, hp, hc, if_false]⟩

/-- The response of `handleRequestCalls` is the one of `handleRequest`. -/
theorem handleRequestCalls_fst (cfg : oauth2.Config)
    (exchange : Bytes → Except GoError oauth2.Token) (request : APIGatewayProxyRequest) :
    (handleRequestCalls cfg exchange request).1 = handleRequest cfg exchange request := by
  rcases handleRequest_cases cfg exchange request with ⟨hp, hr, h⟩ | ⟨hp, hr, st, hg, h⟩ |
    ⟨hc, hs, h⟩ | ⟨hc, hs, err, hd, h⟩ | ⟨hc, hs, ⟨r, hd⟩, hcode, h⟩ |
    ⟨hc, hs, ⟨r, hd⟩, hcode, err, hx, h⟩ | ⟨hc, hs, hcode, r, token, hd, hx, h⟩ | ⟨hp, hc, h⟩
  · rw [h]
    simp only [handleRequest, hp, hr, if_true]
  · rw [h]
    simp only [handleRequest, hp, hr, hg, if_true, if_false]
  · have hp : request.Path ≠ ascii "/auth" := by rw [hc]; exact callback_ne_auth
    rw [h]
    simp only [handleRequest, hc, callback_ne_auth, hs, if_true, if_false]
  · have hp : request.Path ≠ ascii "/auth" := by rw [hc]; exact callback_ne_auth
    rw [h]
    simp only [handleRequest, hc, callback_ne_auth, hs, hd, if_true, if_false]
  · have hp : request.Path ≠ ascii "/auth" := by rw [hc]; exact callback_ne_auth
    rw [h]
    simp only [handleRequest, hc, callback_ne_auth, hs, hd, hcode, if_true, if_false]
  · have hp : request.Path ≠ ascii "/auth" := by rw [hc]; exact callback_ne_auth
    rw [h]
    simp only [handleRequest, hc, callback_ne_auth, hs, hd, hcode, hx, if_true, if_false]
  · have hp : request.Path ≠ ascii "/auth" := by rw [hc]; exact callback_ne_auth
    rw [h]
    simp only [handleRequest, hc, callback_ne_auth, hs, hd, hcode, hx, if_true, if_false]
  · rw [h]
    simp only [handleRequest, hp, hc, if_false]

theorem ascii_fragment : ascii "#access_token=" = 35 :: ascii "access_token=" := by decide

theorem url.cut_fragment (r t : Bytes) : (url.cut 35 (r ++ 35 :: t)).1 = (url.cut 35 r).1 := by
  induction r with
  | nil => simp [url.cut]
  | cons c r ih =>
    by_cases hc : c = 35
    · simp [url.cut, hc]
    · simp [url.cut, hc, ih]

/-- C12. A `/callback` request whose `state` decodes, whose `code` is non-empty and
whose token exchange fails with the error `err` is answered with status 500 and the
body `{"error": "failed to exchange token: <err.Error()>"}`, without any header: there
is no `Location`. -/
theorem callback_exchange_failed (cfg : oauth2.Config)
    (exchange : Bytes → Except GoError oauth2.Token) (request : APIGatewayProxyRequest)
    (state r code : Bytes) (err : GoError)
    (hpath : request.Path = ascii "/callback")
    (hstate : request.QueryStringParameters.lookup (ascii "state") = some state)
    (hdec : parseState state = .ok r)
    (hcode : request.QueryStringParameters.lookup (ascii "code") = some code)
    (hcne : code ≠ []) (hex : exchange code = .error err) :
    handleRequest cfg exchange request =
        ({ StatusCode := 500,
           Body := ascii "\x7b\"error\": \"failed to exchange token: " ++ err.Error ++
             ascii "\"\x7d" }, none) ∧
      (handleRequest cfg exchange request).1.Headers = [] ∧
      (handleRequest cfg exchange request).1.Headers.lookup (ascii "Location") = none := by
  have hne : state ≠ [] := by
    intro h
    rw [h, parseState_nil] at hdec
    cases hdec
  have h : handleRequest cfg exchange request =
        ({ StatusCode := 500,
           Body := ascii "\x7b\"error\": \"failed to exchange token: " ++ err.Error ++
             ascii "\"\x7d" }, none) := by
    simp only [handleRequest, hpath, callback_ne_auth, if_false, if_true, mapIndex_some hstate,
      hne, hdec, mapIndex_some hcode, hcne, hex]
  refine ⟨h, ?_, ?_⟩
  · rw [h]
  · rw [h]
    rfl

/-- C14. For every request and every token exchange, the error that `handleRequest`
returns is `nil` and the status code of its response is 302, 400, 404 or 500. -/
theorem handleRequest_error_nil (cfg : oauth2.Config)
    (exchange : Bytes → Except GoError oauth2.Token) (request : APIGatewayProxyRequest) :
    (handleRequest cfg exchange request).2 = none ∧
      ((handleRequest cfg exchange request).1.StatusCode = 302 ∨
        (handleRequest cfg exchange request).1.StatusCode = 400 ∨
        (handleRequest cfg exchange request).1.StatusCode = 404 ∨
        (handleRequest cfg exchange request).1.StatusCode = 500) := by
  rw [← handleRequestCalls_fst]
  rcases handleRequest_cases cfg exchange request with ⟨_, _, h⟩ | ⟨_, _, _, _, h⟩ |
    ⟨_, _, h⟩ | ⟨_, _, _, _, h⟩ | ⟨_, _, _, _, h⟩ | ⟨_, _, _, _, _, _, h⟩ |
    ⟨_, _, _, _, _, _, _, h⟩ | ⟨_, _, h⟩ <;> rw [h] <;> simp

/-- C15. On a `/callback` request that succeeds, the part of the `Location` before its
first `#` does not depend on the access token: for the tokens `t1` and `t2` of two
exchanges it is the same, namely the part of the decoded redirect URL `r` before
the first `#` of `r` (all of `r` when `r` has no `#`). -/
theorem callback_token_in_fragment (cfg : oauth2.Config)
    (exchange1 exchange2 : Bytes → Except GoError oauth2.Token)
    (request : APIGatewayProxyRequest) (state r code : Bytes) (t1 t2 : oauth2.Token)
    (hpath : request.Path = ascii "/callback")
    (hstate : request.QueryStringParameters.lookup (ascii "state") = some state)
    (hdec : parseState state = .ok r)
    (hcode : request.QueryStringParameters.lookup (ascii "code") = some code)
    (hcne : code ≠ []) (hex1 : exchange1 code = .ok t1) (hex2 : exchange2 code = .ok t2) :
    ∃ loc1 loc2,
      handleRequest cfg exchange1 request =
          ({ StatusCode := 302, Headers := [(ascii "Location", loc1)] }, none) ∧
        handleRequest cfg exchange2 request =
          ({ StatusCode := 302, Headers := [(ascii "Location", loc2)] }, none) ∧
        (url.cut 35 loc1).1 = (url.cut 35 loc2).1 ∧
        (url.cut 35 loc1).1 = (url.cut 35 r).1 := by
  have hne : state ≠ [] := by
    intro h
    rw [h, parseState_nil] at hdec
    cases hdec
  refine ⟨r ++ ascii "#access_token=" ++ t1.AccessToken,
    r ++ ascii "#access_token=" ++ t2.AccessToken, ?_, ?_, ?_, ?_⟩
  · simp only [handleRequest, hpath, callback_ne_auth, if_false, if_true, mapIndex_some hstate,
      hne, hdec, mapIndex_some hcode, hcne, hex1]
  · simp only [handleRequest, hpath, callback_ne_auth, if_false, if_true, mapIndex_some hstate,
      hne, hdec, mapIndex_some hcode, hcne, hex2]
  · rw [ascii_fragment, List.append_assoc, List.append_assoc, List.cons_append,
      List.cons_append, url.cut_fragment, url.cut_fragment]
  · rw [ascii_fragment, List.append_assoc, List.cons_append, url.cut_fragment]

/-- C16, as amended. The function `init` reads the environment variables
`GOOGLE_CLIENT_ID`, `GOOGLE_CLIENT_SECRET` and `GOOGLE_REDIRECT_URL` and no other;
it aborts (builds no configuration) if and only if at least one of the three is
empty; otherwise the configuration holds exactly those three values, the scopes
`openid`, `profile`, `email` and the endpoint of the provider. -/
theorem init_reads_environment (getenv : Bytes → Bytes) :
    (init getenv = none ↔
      (getenv (ascii "GOOGLE_CLIENT_ID") = [] ∨ getenv (ascii "GOOGLE_CLIENT_SECRET") = [] ∨
        getenv (ascii "GOOGLE_REDIRECT_URL") = [])) ∧
    (∀ cfg, init getenv = some cfg →
      cfg.ClientID = getenv (ascii "GOOGLE_CLIENT_ID") ∧
        cfg.ClientSecret = getenv (ascii "GOOGLE_CLIENT_SECRET") ∧
        cfg.RedirectURL = getenv (ascii "GOOGLE_REDIRECT_URL") ∧
        cfg.Scopes = [ascii "openid", ascii "profile", ascii "email"] ∧
        cfg.Endpoint = googleEndpoint) ∧
    (∀ getenv2 : Bytes → Bytes,
      getenv2 (ascii "GOOGLE_CLIENT_ID") = getenv (ascii "GOOGLE_CLIENT_ID") →
      getenv2 (ascii "GOOGLE_CLIENT_SECRET") = getenv (ascii "GOOGLE_CLIENT_SECRET") →
      getenv2 (ascii "GOOGLE_REDIRECT_URL") = getenv (ascii "GOOGLE_REDIRECT_URL") →
      init getenv2 = init getenv) := by
  refine ⟨?_, ?_, ?_⟩
  · unfold init
    simp only
    split_ifs with h
    · exact ⟨fun _ => h, fun _ => rfl⟩
    · exact ⟨fun hn => (by cases hn), fun hn => absurd hn h⟩
  · intro cfg hcfg
    obtain ⟨h, _, _, _⟩ := init_some hcfg
    rw [h]
    exact ⟨rfl, rfl, rfl, rfl, rfl⟩
  · intro getenv2 a b c
    unfold init
    simp only [a, b, c]

/-- C17. The function `generateState` returns a `nil` error for every string, an
`/auth` request is never answered with status 500, and an `/auth` request with a
non-empty `redirect_url` is answered with status 302. -/
theorem generateState_never_fails (cfg : oauth2.Config)
    (exchange : Bytes → Except GoError oauth2.Token) (request : APIGatewayProxyRequest)
    (r : Bytes) (hpath : request.Path = ascii "/auth")
    (hparam : request.QueryStringParameters.lookup (ascii "redirect_url") = some r)
    (hne : r ≠ []) :
    (∀ r' : Bytes, ∃ s, generateState r' = .ok s) ∧
      (handleRequest cfg exchange request).1.StatusCode = 302 ∧
      (∀ request' : APIGatewayProxyRequest, request'.Path = ascii "/auth" →
        (handleRequest cfg exchange request').1.StatusCode ≠ 500) := by
  refine ⟨fun r' => ⟨_, generateState_eq r'⟩, ?_, ?_⟩
  · simp only [handleRequest, hpath, if_true, mapIndex_some hparam, hne, if_false,
      generateState_eq]
  · intro request' hp
    by_cases hr : mapIndex request'.QueryStringParameters (ascii "redirect_url") = []
    · simp only [handleRequest, hp, hr, if_true]
      decide
    · simp only [handleRequest, hp, hr, if_true, if_false, generateState_eq]
      decide

/-- The response depends on the token exchange only through its results at the codes
it is called with. -/
theorem handleRequest_congr (cfg : oauth2.Config)
    (ex1 ex2 : Bytes → Except GoError oauth2.Token) (request : APIGatewayProxyRequest)
    (h : ∀ c ∈ exchangeCalls cfg ex1 request, ex1 c = ex2 c) :
    handleRequest cfg ex1 request = handleRequest cfg ex2 request := by
  rcases handleRequest_cases cfg ex1 request with ⟨hp, hr, _⟩ | ⟨hp, hr, st, hg, _⟩ |
    ⟨hc, hs, _⟩ | ⟨hc, hs, err, hd, _⟩ | ⟨hc, hs, ⟨r, hd⟩, hcode, _⟩ |
    ⟨hc, hs, ⟨r, hd⟩, hcode, err, hx, hcalls⟩ | ⟨hc, hs, hcode, r, token, hd, hx, hcalls⟩ |
    ⟨hp, hc, _⟩
  · simp only [handleRequest, hp, hr, if_true]
  · simp only [handleRequest, hp, hr, hg, if_true, if_false]
  · simp only [handleRequest, hc, callback_ne_auth, hs, if_true, if_false]
  · simp only [handleRequest, hc, callback_ne_auth, hs, hd, if_true, if_false]
  · simp only [handleRequest, hc, callback_ne_auth, hs, hd, hcode, if_true, if_false]
  · have hx2 := h (mapIndex request.QueryStringParameters (ascii "code"))
      (by simp [exchangeCalls, hcalls, Call.exchangeCode])
    rw [hx] at hx2
    simp only [handleRequest, hc, callback_ne_auth, hs, hd, hcode, hx, ← hx2, if_true, if_false]
  · have hx2 := h (mapIndex request.QueryStringParameters (ascii "code"))
      (by simp [exchangeCalls, hcalls, Call.exchangeCode])
    rw [hx] at hx2
    simp only [handleRequest, hc, callback_ne_auth, hs, hd, hcode, hx, ← hx2, if_true, if_false]
  · simp only [handleRequest, hp, hc, if_false]

/-- C18. The handler calls the token exchange at most once; it calls it, once and
with the `code` of the request, exactly when the path is `/callback`, `state` is
non-empty and decodes, and `code` is non-empty; in every other case it does not
call it and the response is the same for every token exchange. -/
theorem exchange_called_at_most_once (cfg : oauth2.Config)
    (exchange : Bytes → Except GoError oauth2.Token) (request : APIGatewayProxyRequest) :
    (handleRequestCalls cfg exchange request).1 = handleRequest cfg exchange request ∧
      (exchangeCalls cfg exchange request).length ≤ 1 ∧
      ((request.Path = ascii "/callback" ∧
          mapIndex request.QueryStringParameters (ascii "state") ≠ [] ∧
          (∃ r, parseState (mapIndex request.QueryStringParameters (ascii "state")) = .ok r) ∧
          mapIndex request.QueryStringParameters (ascii "code") ≠ []) →
        exchangeCalls cfg exchange request =
          [mapIndex request.QueryStringParameters (ascii "code")]) ∧
      (¬ (request.Path = ascii "/callback" ∧
          mapIndex request.QueryStringParameters (ascii "state") ≠ [] ∧
          (∃ r, parseState (mapIndex request.QueryStringParameters (ascii "state")) = .ok r) ∧
          mapIndex request.QueryStringParameters (ascii "code") ≠ []) →
        exchangeCalls cfg exchange request = [] ∧
          ∀ exchange2 : Bytes → Except GoError oauth2.Token,
            handleRequest cfg exchange2 request = handleRequest cfg exchange request) := by
  have key : (exchangeCalls cfg exchange request = [] ∧
        ¬ (request.Path = ascii "/callback" ∧
          mapIndex request.QueryStringParameters (ascii "state") ≠ [] ∧
          (∃ r, parseState (mapIndex request.QueryStringParameters (ascii "state")) = .ok r) ∧
          mapIndex request.QueryStringParameters (ascii "code") ≠ [])) ∨
      (exchangeCalls cfg exchange request =
          [mapIndex request.QueryStringParameters (ascii "code")] ∧
        (request.Path = ascii "/callback" ∧
          mapIndex request.QueryStringParameters (ascii "state") ≠ [] ∧
          (∃ r, parseState (mapIndex request.QueryStringParameters (ascii "state")) = .ok r) ∧
          mapIndex request.QueryStringParameters (ascii "code") ≠ [])) := by
    rcases handleRequest_cases cfg exchange request with ⟨hp, hr, h⟩ | ⟨hp, hr, st, hg, h⟩ |
      ⟨hc, hs, h⟩ | ⟨hc, hs, err, hd, h⟩ | ⟨hc, hs, ⟨r, hd⟩, hcode, h⟩ |
      ⟨hc, hs, ⟨r, hd⟩, hcode, err, hx, h⟩ | ⟨hc, hs, hcode, r, token, hd, hx, h⟩ | ⟨hp, hc, h⟩
    · left
      refine ⟨by simp [exchangeCalls, h], ?_⟩
      rintro ⟨hc, -⟩
      rw [hp] at hc
      exact callback_ne_auth hc.symm
    · left
      refine ⟨by simp [exchangeCalls, h, Call.exchangeCode], ?_⟩
      rintro ⟨hc, -⟩
      rw [hp] at hc
      exact callback_ne_auth hc.symm
    · left
      exact ⟨by simp [exchangeCalls, h], fun hcon => hcon.2.1 hs⟩
    · left
      refine ⟨by simp [exchangeCalls, h, Call.exchangeCode], ?_⟩
      rintro ⟨-, -, ⟨r, hr⟩, -⟩
      rw [hd] at hr
      cases hr
    · left
      exact ⟨by simp [exchangeCalls, h, Call.exchangeCode], fun hcon => hcon.2.2.2 hcode⟩
    · right
      exact ⟨by simp [exchangeCalls, h, Call.exchangeCode], hc, hs, ⟨r, hd⟩, hcode⟩
    · right
      exact ⟨by simp [exchangeCalls, h, Call.exchangeCode], hc, hs, ⟨r, hd⟩, hcode⟩
    · left
      exact ⟨by simp [exchangeCalls, h], fun hcon => hc hcon.1⟩
  refine ⟨handleRequestCalls_fst cfg exchange request, ?_, ?_, ?_⟩
  · rcases key with ⟨h, _⟩ | ⟨h, _⟩ <;> rw [h] <;> simp
  · intro hcond
    rcases key with ⟨_, hn⟩ | ⟨h, _⟩
    · exact absurd hcond hn
    · exact h
  · intro hcond
    rcases key with ⟨h, _⟩ | ⟨_, hy⟩
    · refine ⟨h, fun exchange2 => ?_⟩
      exact (handleRequest_congr cfg exchange exchange2 request
        (by rw [h]; intro c hc; cases hc)).symm
    · exact absurd hy hcond

/-- C20. A parameter that is present with the empty value is treated like a missing
one: `/auth` with an empty `redirect_url`, `/callback` with an empty `state`, and
`/callback` with a `state` that decodes and an empty `code` are answered with
the 400 responses `redirect_url parameter is required`, `state parameter is
required` and `code parameter is required`, the responses of the requests
`m1`, `m2`, `m3` that lack the parameter; neither the codec nor the exchange is
called with the empty value. -/
theorem empty_parameter_is_missing (cfg : oauth2.Config)
    (exchange : Bytes → Except GoError oauth2.Token)
    (r1 m1 r2 m2 r3 m3 : APIGatewayProxyRequest) (state r : Bytes)
    (h1 : r1.Path = ascii "/auth")
    (e1 : r1.QueryStringParameters.lookup (ascii "redirect_url") = some [])
    (hm1 : m1.Path = ascii "/auth")
    (n1 : m1.QueryStringParameters.lookup (ascii "redirect_url") = none)
    (h2 : r2.Path = ascii "/callback")
    (e2 : r2.QueryStringParameters.lookup (ascii "state") = some [])
    (hm2 : m2.Path = ascii "/callback")
    (n2 : m2.QueryStringParameters.lookup (ascii "state") = none)
    (h3 : r3.Path = ascii "/callback")
    (s3 : r3.QueryStringParameters.lookup (ascii "state") = some state)
    (hdec : parseState state = .ok r)
    (e3 : r3.QueryStringParameters.lookup (ascii "code") = some [])
    (hm3 : m3.Path = ascii "/callback")
    (sm3 : m3.QueryStringParameters.lookup (ascii "state") = some state)
    (n3 : m3.QueryStringParameters.lookup (ascii "code") = none) :
    (handleRequest cfg exchange r1 =
          ({ StatusCode := 400,
             Body := ascii "\x7b\"error\": \"redirect_url parameter is required\"\x7d" },
            none) ∧
        handleRequest cfg exchange r1 = handleRequest cfg exchange m1 ∧
        codecCalls cfg exchange r1 = [] ∧ exchangeCalls cfg exchange r1 = []) ∧
      (handleRequest cfg exchange r2 =
          ({ StatusCode := 400,
             Body := ascii "\x7b\"error\": \"state parameter is required\"\x7d" }, none) ∧
        handleRequest cfg exchange r2 = handleRequest cfg exchange m2 ∧
        codecCalls cfg exchange r2 = [] ∧ exchangeCalls cfg exchange r2 = []) ∧
      (handleRequest cfg exchange r3 =
          ({ StatusCode := 400,
             Body := ascii "\x7b\"error\": \"code parameter is required\"\x7d" }, none) ∧
        handleRequest cfg exchange r3 = handleRequest cfg exchange m3 ∧
        codecCalls cfg exchange r3 = [state] ∧ state ≠ [] ∧
        exchangeCalls cfg exchange r3 = []) := by
  have hne : state ≠ [] := by
    intro h
    rw [h, parseState_nil] at hdec
    cases hdec
  refine ⟨⟨?_, ?_, ?_, ?_⟩, ⟨?_, ?_, ?_, ?_⟩, ⟨?_, ?_, ?_, hne, ?_⟩⟩
  · simp only [handleRequest, h1, if_true, mapIndex_some e1]
  · simp only [handleRequest, h1, hm1, if_true, mapIndex_some e1, mapIndex_none n1]
  · simp only [codecCalls, handleRequestCalls, h1, if_true, mapIndex_some e1,
      List.filterMap_nil]
  · simp only [exchangeCalls, handleRequestCalls, h1, if_true, mapIndex_some e1,
      List.filterMap_nil]
  · simp only [handleRequest, h2, callback_ne_auth, if_false, if_true, mapIndex_some e2]
  · simp only [handleRequest, h2, hm2, callback_ne_auth, if_false, if_true, mapIndex_some e2,
      mapIndex_none n2]
  · simp only [codecCalls, handleRequestCalls, h2, callback_ne_auth, if_false, if_true,
      mapIndex_some e2, List.filterMap_nil]
  · simp only [exchangeCalls, handleRequestCalls, h2, callback_ne_auth, if_false, if_true,
      mapIndex_some e2, List.filterMap_nil]
  · simp only [handleRequest, h3, callback_ne_auth, if_false, if_true, mapIndex_some s3, hne,
      hdec, mapIndex_some e3]
  · simp only [handleRequest, h3, hm3, callback_ne_auth, if_false, if_true, mapIndex_some s3,
      mapIndex_some sm3, hne, hdec, mapIndex_some e3, mapIndex_none n3]
  · simp [codecCalls, handleRequestCalls, h3, callback_ne_auth, mapIndex_some s3, hne,
      hdec, mapIndex_some e3, Call.codecArgument]
  · simp [exchangeCalls, handleRequestCalls, h3, callback_ne_auth, mapIndex_some s3, hne,
      hdec, mapIndex_some e3, Call.exchangeCode]

end CherevanAuth

namespace CherevanAuth

/-! ## The shape of a state -/

theorem base64.isAlphabet_encodeChar :
    ∀ v, v < 64 → base64.isAlphabet (base64.encodeChar v) = true := by
  decide

/-- The text written by `EncodeToString`: characters of the alphabet, then at most
two `=`, in groups of four. -/
theorem base64.EncodeToString_shape (bs : Bytes) :
    ∃ body pad, base64.EncodeToString bs = body ++ pad ∧
      (∀ c ∈ body, base64.isAlphabet c = true) ∧ (pad = [] ∨ pad = [61] ∨ pad = [61, 61]) ∧
      (base64.EncodeToString bs).length % 4 = 0 := by
  induction bs using base64.EncodeToString.induct with
  | case1 b0 b1 b2 rest ih =>
    obtain ⟨body, pad, heq, hbody, hpad, hlen⟩ := ih
    refine ⟨base64.encodeChar ((b0 * 65536 + b1 * 256 + b2) / 262144 % 64) ::
      base64.encodeChar ((b0 * 65536 + b1 * 256 + b2) / 4096 % 64) ::
      base64.encodeChar ((b0 * 65536 + b1 * 256 + b2) / 64 % 64) ::
      base64.encodeChar ((b0 * 65536 + b1 * 256 + b2) % 64) :: body, pad, ?_, ?_, hpad, ?_⟩
    · simp only [base64.EncodeToString, heq, List.cons_append]
    · intro c hc
      simp only [List.mem_cons] at hc
      rcases hc with rfl | rfl | rfl | rfl | hc
      · exact base64.isAlphabet_encodeChar _ (by omega)
      · exact base64.isAlphabet_encodeChar _ (by omega)
      · exact base64.isAlphabet_encodeChar _ (by omega)
      · exact base64.isAlphabet_encodeChar _ (by omega)
      · exact hbody c hc
    · simp only [base64.EncodeToString, List.length_cons]
      omega
  | case2 b0 b1 =>
    refine ⟨[base64.encodeChar ((b0 * 65536 + b1 * 256) / 262144 % 64),
      base64.encodeChar ((b0 * 65536 + b1 * 256) / 4096 % 64),
      base64.encodeChar ((b0 * 65536 + b1 * 256) / 64 % 64)], [61], ?_, ?_, ?_, ?_⟩
    · simp [base64.EncodeToString, base64.padChar]
    · intro c hc
      simp only [List.mem_cons, List.mem_singleton, List.not_mem_nil, or_false] at hc
      rcases hc with rfl | rfl | rfl
      · exact base64.isAlphabet_encodeChar _ (by omega)
      · exact base64.isAlphabet_encodeChar _ (by omega)
      · exact base64.isAlphabet_encodeChar _ (by omega)
    · right; left; rfl
    · simp [base64.EncodeToString]
  | case3 b0 =>
    refine ⟨[base64.encodeChar ((b0 * 65536) / 262144 % 64),
      base64.encodeChar ((b0 * 65536) / 4096 % 64)], [61, 61], ?_, ?_, ?_, ?_⟩
    · simp [base64.EncodeToString, base64.padChar]
    · intro c hc
      simp only [List.mem_cons, List.mem_singleton, List.not_mem_nil, or_false] at hc
      rcases hc with rfl | rfl
      · exact base64.isAlphabet_encodeChar _ (by omega)
      · exact base64.isAlphabet_encodeChar _ (by omega)
    · right; right; rfl
    · simp [base64.EncodeToString]
  | case4 =>
    exact ⟨[], [], by simp [base64.EncodeToString], by simp, Or.inl rfl,
      by simp [base64.EncodeToString]⟩

/-- C19. For every `r`, `generateState r` returns a string that consists of
characters of `A`-`Z`, `a`-`z`, `0`-`9`, `-` and `_` followed by at most two `=`;
it has neither `+` nor `/`, and its length is a multiple of 4. -/
theorem generateState_url_safe (r : Bytes) :
    ∃ s body pad, generateState r = .ok s ∧ s = body ++ pad ∧
      (∀ c ∈ body, base64.isAlphabet c = true) ∧ (pad = [] ∨ pad = [61] ∨ pad = [61, 61]) ∧
      s.length % 4 = 0 ∧ 43 ∉ s ∧ 47 ∉ s := by
  obtain ⟨body, pad, heq, hbody, hpad, hlen⟩ := base64.EncodeToString_shape
    (ascii "\x7b\"redirect_url\":" ++ json.appendString r ++ ascii "\x7d")
  have hno : ∀ x, base64.isAlphabet x = false → x ≠ 61 → x ∉ body ++ pad := by
    intro x hx h61 hmem
    rw [List.mem_append] at hmem
    rcases hmem with hmem | hmem
    · rw [hbody x hmem] at hx
      cases hx
    · rcases hpad with rfl | rfl | rfl
      · cases hmem
      · simp only [List.mem_singleton] at hmem
        exact h61 hmem
      · simp only [List.mem_cons, List.mem_singleton, List.not_mem_nil, or_false, or_self]
          at hmem
        exact h61 hmem
  refine ⟨_, body, pad, generateState_eq r, heq, hbody, hpad, hlen, ?_, ?_⟩
  · rw [heq]
    exact hno 43 (by decide) (by decide)
  · rw [heq]
    exact hno 47 (by decide) (by decide)

end CherevanAuth

namespace CherevanAuth
namespace json

/-! ## Payloads that are not an object -/

theorem saveError_savedError (d : decodeState) (e : GoError) :
    (d.saveError e).savedError ≠ none := by
  unfold decodeState.saveError
  split_ifs with h
  · simp
  · exact h

theorem skip_savedError {d d' : decodeState} (h : d.skip = some d') :
    d'.savedError = d.savedError := by
  unfold decodeState.skip at h
  simp only [Option.map_eq_some'] at h
  obtain ⟨r, _, rfl⟩ := h
  rfl

theorem scanNext_savedError (d : decodeState) : d.scanNext.savedError = d.savedError := by
  unfold decodeState.scanNext
  split <;> rfl

theorem scanWhile_savedError (d : decodeState) (op : Op) :
    (d.scanWhile op).savedError = d.savedError := rfl

theorem rescanLiteral_savedError (d : decodeState) :
    d.rescanLiteral.2.savedError = d.savedError := by
  unfold decodeState.rescanLiteral
  simp only
  split <;> rfl

/-- A literal other than `null` stored in the struct leaves an error. -/
theorem literalStore_struct {d d' : decodeState} {c : Nat} {tail : Bytes} (hc : c ≠ 110)
    (h : d.literalStore c tail .struct = some d') : d'.savedError ≠ none := by
  unfold decodeState.literalStore at h
  rw [if_neg hc] at h
  by_cases h2 : c = 116 ∨ c = 102
  · rw [if_pos h2] at h
    cases h
    exact saveError_savedError _ _
  · rw [if_neg h2] at h
    by_cases h3 : c = 34
    · rw [if_pos h3] at h
      cases hu : unquoteBytes (c :: tail) with
      | none =>
        rw [hu] at h
        cases h
      | some s =>
        rw [hu] at h
        simp only [reduceCtorEq, if_false, Option.some.injEq] at h
        rw [← h]
        exact saveError_savedError _ _
    · rw [if_neg h3] at h
      by_cases h4 : c ≠ 45 ∧ ¬ isDigit c
      · rw [if_pos h4] at h
        cases h
      · rw [if_neg h4] at h
        cases h
        exact saveError_savedError _ _

/-- A top-level value that is neither an object nor `null` leaves an error. -/
theorem value_savedError {d d' : decodeState} (hobj : d.opcode ≠ .scanBeginObject)
    (hnull : d.cur ≠ 110) (h : d.value = some d') : d'.savedError ≠ none := by
  unfold decodeState.value at h
  split at h
  · simp only [Option.map_eq_some'] at h
    obtain ⟨d1, h1, rfl⟩ := h
    rw [scanNext_savedError, skip_savedError h1]
    exact saveError_savedError _ _
  · rename_i hop
    exact absurd hop hobj
  · exact literalStore_struct hnull h
  · cases h

theorem stateBeginValue_object {s : scanner} {c : Nat}
    (h : (stateBeginValue s c).2 = .scanBeginObject) : c = 123 := by
  by_contra hne
  by_cases hsp : isSpace c = true
  · simp [stateBeginValue, hsp] at h
  · simp only [stateBeginValue, scanner.pushParseState, scanner.error, hsp, hne, if_false,
      Bool.false_eq_true] at h
    split_ifs at h

/-- A `scanWhile` before a value: white space is skipped and the first byte after
it is given to `stateBeginValue`. -/
theorem scanWhileLoop_firstByte (s : scanner) (hs : s.step = .stateBeginValue) :
    ∀ (data : Bytes) (cur c : Nat), firstByte data = some c →
    ∃ rest, scanWhileLoop .scanSkipSpace s cur data =
      ((stateBeginValue s c).1, (stateBeginValue s c).2, c, rest) := by
  intro data
  induction data with
  | nil => intro cur c h; simp [firstByte] at h
  | cons b data ih =>
    intro cur c h
    have hstep : s.doStep b = stateBeginValue s b := by
      simp [scanner.doStep, hs]
    by_cases hb : isSpace b = true
    · have h' : firstByte data = some c := by
        simpa [firstByte, List.dropWhile, hb] using h
      obtain ⟨rest, hrest⟩ := ih b c h'
      refine ⟨rest, ?_⟩
      have hsp : stateBeginValue s b = (s, .scanSkipSpace) := by
        simp [stateBeginValue, hb]
      simp only [scanWhileLoop, hstep, hsp, ne_eq, not_true_eq_false, if_false]
      exact hrest
    · have hb' : isSpace b = false := by simpa using hb
      have h' : b = c := by
        simpa [firstByte, List.dropWhile, hb'] using h
      subst h'
      refine ⟨data, ?_⟩
      have hop : (stateBeginValue s b).2 ≠ .scanSkipSpace := by
        unfold stateBeginValue
        simp only [hb', Bool.false_eq_true, if_false]
        unfold scanner.pushParseState scanner.error
        simp only
        split_ifs <;> simp
      simp only [scanWhileLoop, hstep, ne_eq, hop, not_false_eq_true, if_true]

/-- A JSON text that is neither an object nor `null` is not decoded. -/
theorem Unmarshal_not_object (data : Bytes) (c : Nat) (hfirst : firstByte data = some c)
    (hobj : c ≠ 123) (hnull : c ≠ 110) : ∃ e, Unmarshal data = .error e := by
  unfold Unmarshal
  cases hv : checkValid data with
  | some e => exact ⟨e, rfl⟩
  | none =>
    simp only
    obtain ⟨rest, hrest⟩ := scanWhileLoop_firstByte scanner.reset rfl data 0 c hfirst
    cases hval : (decodeState.scanWhile
        { cur := 0, rest := data, opcode := .scanContinue, scan := scanner.reset,
          savedError := none, RedirectURL := [] } .scanSkipSpace).value with
    | none => exact ⟨_, rfl⟩
    | some d =>
      have hs : d.savedError ≠ none := by
        refine value_savedError ?_ ?_ hval
        · simp only [decodeState.scanWhile, hrest]
          exact fun h => hobj (stateBeginValue_object h)
        · simp only [decodeState.scanWhile, hrest]
          exact hnull
      cases hse : d.savedError with
      | none => exact absurd hse hs
      | some e => exact ⟨e, by simp only [hse]⟩

/-! ## Objects whose `redirect_url` is not a string -/

theorem literalStore_persist {d d' : decodeState} {c : Nat} {tail : Bytes} {target : Target}
    (hd : d.savedError ≠ none) (h : d.literalStore c tail target = some d') :
    d'.savedError ≠ none := by
  unfold decodeState.literalStore at h
  by_cases h1 : c = 110
  · rw [if_pos h1] at h
    cases h
    exact hd
  · rw [if_neg h1] at h
    by_cases h2 : c = 116 ∨ c = 102
    · rw [if_pos h2] at h
      cases h
      exact saveError_savedError _ _
    · rw [if_neg h2] at h
      by_cases h3 : c = 34
      · rw [if_pos h3] at h
        cases hu : unquoteBytes (c :: tail) with
        | none =>
          rw [hu] at h
          cases h
        | some s =>
          rw [hu] at h
          simp only at h
          split_ifs at h
          · cases h
            exact hd
          · cases h
            exact saveError_savedError _ _
      · rw [if_neg h3] at h
        by_cases h4 : c ≠ 45 ∧ ¬ isDigit c
        · rw [if_pos h4] at h
          cases h
        · rw [if_neg h4] at h
          cases h
          exact saveError_savedError _ _

/-- A literal other than a string and `null` stored in the field leaves an error. -/
theorem literalStore_field {d d' : decodeState} {c : Nat} {tail : Bytes} (hn : c ≠ 110)
    (hs : c ≠ 34) (h : d.literalStore c tail .field = some d') : d'.savedError ≠ none := by
  unfold decodeState.literalStore at h
  rw [if_neg hn] at h
  by_cases h2 : c = 116 ∨ c = 102
  · rw [if_pos h2] at h
    cases h
    exact saveError_savedError _ _
  · rw [if_neg h2, if_neg hs] at h
    by_cases h4 : c ≠ 45 ∧ ¬ isDigit c
    · rw [if_pos h4] at h
      cases h
    · rw [if_neg h4] at h
      cases h
      exact saveError_savedError _ _

theorem valueMember_persist {d d' : decodeState} {target : Target}
    (hd : d.savedError ≠ none) (h : d.valueMember target = some d') :
    d'.savedError ≠ none := by
  unfold decodeState.valueMember at h
  split at h
  · simp only [Option.map_eq_some'] at h
    obtain ⟨d1, h1, rfl⟩ := h
    rw [scanNext_savedError, skip_savedError h1]
    split_ifs
    · exact hd
    · exact saveError_savedError _ _
  · simp only [Option.map_eq_some'] at h
    obtain ⟨d1, h1, rfl⟩ := h
    rw [scanNext_savedError, skip_savedError h1]
    split_ifs
    · exact hd
    · exact saveError_savedError _ _
  · simp only at h
    have hr := rescanLiteral_savedError d
    split_ifs at h
    · cases h
      rw [hr]
      exact hd
    · exact literalStore_persist (by rw [hr]; exact hd) h
  · cases h

/-- A value other than a string and `null` decoded into the field leaves an error. -/
theorem valueMember_field {d d' : decodeState} (hn : d.cur ≠ 110) (hs : d.cur ≠ 34)
    (h : d.valueMember .field = some d') : d'.savedError ≠ none := by
  unfold decodeState.valueMember at h
  split at h
  · simp only [Option.map_eq_some'] at h
    obtain ⟨d1, h1, rfl⟩ := h
    rw [scanNext_savedError, skip_savedError h1]
    simp only [reduceCtorEq, if_false]
    exact saveError_savedError _ _
  · simp only [Option.map_eq_some'] at h
    obtain ⟨d1, h1, rfl⟩ := h
    rw [scanNext_savedError, skip_savedError h1]
    simp only [reduceCtorEq, if_false]
    exact saveError_savedError _ _
  · simp only [reduceCtorEq, if_false] at h
    exact literalStore_field hn hs h
  · cases h

theorem scanWhile_persist {d : decodeState} (op : Op) (hd : d.savedError ≠ none) :
    (d.scanWhile op).savedError ≠ none := hd

theorem rescanLiteral_persist {d : decodeState} (hd : d.savedError ≠ none) :
    d.rescanLiteral.2.savedError ≠ none := by
  rw [rescanLiteral_savedError]
  exact hd

/-- An error that is saved stays until the end of the object. -/
theorem objectLoop_persist : ∀ (fuel : Nat) (d d' : decodeState), d.savedError ≠ none →
    objectLoop fuel d = some d' → d'.savedError ≠ none := by
  intro fuel
  induction fuel with
  | zero =>
    intro d d' _ h
    simp [objectLoop] at h
  | succ fuel ih =>
    intro d d' hd h
    have k1 := scanWhile_persist .scanSkipSpace
      (rescanLiteral_persist (scanWhile_persist .scanSkipSpace hd))
    have k2 := scanWhile_persist .scanSkipSpace k1
    rw [objectLoop] at h
    simp only at h
    repeat' (split at h)
    all_goals first
      | (cases h; done)
      | (cases h; exact hd)
      | (have h4 := valueMember_persist k1 ‹decodeState.valueMember _ _ = some _›
         first
           | (cases h; exact h4)
           | exact ih _ _ (scanWhile_persist .scanSkipSpace h4) h
           | exact ih _ _ h4 h)
      | (have h4 := valueMember_persist k2 ‹decodeState.valueMember _ _ = some _›
         first
           | (cases h; exact h4)
           | exact ih _ _ (scanWhile_persist .scanSkipSpace h4) h
           | exact ih _ _ h4 h)

end json
end CherevanAuth

namespace CherevanAuth
namespace json

/-! ## The scanner on the way to a member of the object -/

theorem checkValidLoop_cons_ok {s : scanner} {c : Nat} {r : Bytes} {sf : scanner}
    (h : checkValidLoop s (c :: r) = .ok sf) :
    (s.doStep c).2 ≠ .scanError ∧ checkValidLoop (s.doStep c).1 r = .ok sf := by
  simp only [checkValidLoop] at h
  split_ifs at h with hop
  exact ⟨hop, h⟩

theorem atKey_not_dead {s : scanner} (h : s.atKey) : ¬ s.dead := by
  obtain ⟨hp, hs⟩ := h
  rintro (hd | ⟨hd, _⟩)
  · rcases hs with hs | hs <;> rw [hs] at hd <;> cases hd
  · rw [hp] at hd
    cases hd

theorem dead_step {s : scanner} (c : Nat) (h : s.dead) :
    (s.doStep c).2 = .scanError ∨ (s.doStep c).1.dead := by
  rcases h with h | ⟨h1, h2⟩
  · left
    simp [scanner.doStep, h]
  · right
    by_cases hc : isSpace c = true
    · simp [scanner.doStep, h2, stateEndTop, hc, scanner.dead, h1]
    · simp [scanner.doStep, h2, stateEndTop, hc, scanner.dead, scanner.error]

theorem dead_run : ∀ (rem : Bytes) (s sK : scanner), s.dead →
    checkValidLoop s rem = .ok sK → sK.dead := by
  intro rem
  induction rem with
  | nil =>
    intro s sK hd h
    simp only [checkValidLoop, Except.ok.injEq] at h
    rw [← h]
    exact hd
  | cons c rem ih =>
    intro s sK hd h
    obtain ⟨hop, hrun⟩ := checkValidLoop_cons_ok h
    rcases dead_step c hd with h1 | h1
    · exact absurd h1 hop
    · exact ih _ _ h1 hrun

theorem ahead_not_dead {T : Bytes} {s : scanner} {rest : Bytes} (h : Ahead T s rest) :
    ¬ s.dead := by
  obtain ⟨rem, sK, sf, _, hrun, hK, _⟩ := h
  exact fun hd => atKey_not_dead hK (dead_run rem s sK hd hrun)

theorem ahead_ne_nil {T' : Bytes} {s : scanner} {rest : Bytes} (h : Ahead (34 :: T') s rest) :
    rest ≠ [] := by
  obtain ⟨rem, sK, sf, heq, _, _, _⟩ := h
  rw [heq]
  simp

/-- One step of the scanner on the way to `T`. -/
theorem ahead_step {T' : Bytes} {s : scanner} {b : Nat} {rest : Bytes}
    (h : Ahead (34 :: T') s (b :: rest)) (hk : ¬ s.atKey ∨ b ≠ 34) :
    (s.doStep b).2 ≠ .scanError ∧ Ahead (34 :: T') (s.doStep b).1 rest := by
  obtain ⟨rem, sK, sf, heq, hrun, hK, hT⟩ := h
  rcases rem with _ | ⟨b', rem⟩
  · simp only [checkValidLoop, Except.ok.injEq] at hrun
    simp only [List.nil_append, List.cons.injEq] at heq
    rcases hk with hk | hk
    · rw [← hrun] at hK
      exact absurd hK hk
    · exact absurd heq.1 hk
  · simp only [List.cons_append, List.cons.injEq] at heq
    obtain ⟨hb, hrest⟩ := heq
    subst hb
    obtain ⟨hop, hrun'⟩ := checkValidLoop_cons_ok hrun
    exact ⟨hop, rem, sK, sf, hrest, hrun', hK, hT⟩

/-- At a key: either it is the key of `T`, or a key before it. -/
theorem ahead_here {T' : Bytes} {s : scanner} {rest : Bytes}
    (h : Ahead (34 :: T') s (34 :: rest)) :
    (rest = T' ∧ ∃ sf, checkValidLoop s (34 :: T') = .ok sf) ∨
      Ahead (34 :: T') (s.doStep 34).1 rest := by
  obtain ⟨rem, sK, sf, heq, hrun, hK, hT⟩ := h
  rcases rem with _ | ⟨b', rem⟩
  · simp only [checkValidLoop, Except.ok.injEq] at hrun
    simp only [List.nil_append, List.cons.injEq, true_and] at heq
    left
    rw [hrun]
    exact ⟨heq, sf, hT⟩
  · simp only [List.cons_append, List.cons.injEq] at heq
    obtain ⟨hb, hrest⟩ := heq
    subst hb
    obtain ⟨hop, hrun'⟩ := checkValidLoop_cons_ok hrun
    right
    exact ⟨rem, sK, sf, hrest, hrun', hK, hT⟩

theorem atKey_space {s : scanner} {b : Nat} (h : s.atKey) (hb : isSpace b = true) :
    s.doStep b = (s, .scanSkipSpace) := by
  obtain ⟨_, hs | hs⟩ := h
  · simp [scanner.doStep, hs, stateBeginString, hb]
  · simp [scanner.doStep, hs, stateBeginStringOrEmpty, hb]

theorem atKey_quote {s : scanner} (h : s.atKey) :
    s.doStep 34 = ({ s with step := .stateInString }, .scanBeginLiteral) := by
  obtain ⟨_, hs | hs⟩ := h
  · simp [scanner.doStep, hs, stateBeginString, isSpace]
  · simp [scanner.doStep, hs, stateBeginStringOrEmpty, stateBeginString, isSpace]

theorem atKey_other {s : scanner} {b : Nat} (h : s.atKey) (hb : isSpace b = false)
    (hq : b ≠ 34) : (s.doStep b).2 = .scanError ∨ (s.doStep b).1.dead := by
  obtain ⟨hp, hs | hs⟩ := h
  · left
    simp [scanner.doStep, hs, stateBeginString, hb, hq, scanner.error]
  · by_cases h125 : b = 125
    · right
      subst h125
      simp [scanner.doStep, hs, stateBeginStringOrEmpty, stateEndValue, isSpace,
        scanner.popParseState, hp, scanner.dead]
    · left
      simp [scanner.doStep, hs, stateBeginStringOrEmpty, stateBeginString, hb, hq, h125,
        scanner.error]

/-- The first `scanWhile` of an iteration: after white space comes a key, the
one of `T` or one before it. -/
theorem scanWhileLoop_atKey (T' : Bytes) : ∀ (rest : Bytes) (s : scanner) (cur0 : Nat),
    s.atKey → Ahead (34 :: T') s rest →
    (∃ rest1, scanWhileLoop .scanSkipSpace s cur0 rest =
        ({ s with step := .stateInString }, .scanBeginLiteral, 34, rest1) ∧
      rest1.length < rest.length ∧
      ((rest1 = T' ∧ ∃ sf, checkValidLoop s (34 :: T') = .ok sf) ∨
        Ahead (34 :: T') { s with step := .stateInString } rest1)) := by
  intro rest
  induction rest with
  | nil =>
    intro s cur0 _ hA
    exact absurd rfl (ahead_ne_nil hA)
  | cons b rest ih =>
    intro s cur0 hK hA
    by_cases hb : isSpace b = true
    · have hne : b ≠ 34 := by
        intro h
        rw [h] at hb
        revert hb
        decide
      have hstep := atKey_space hK hb
      have hA' := (ahead_step hA (Or.inr hne)).2
      rw [hstep] at hA'
      obtain ⟨rest1, h1, h2, h3⟩ := ih s b hK hA'
      refine ⟨rest1, ?_, by simp only [List.length_cons]; omega, h3⟩
      simp only [scanWhileLoop, hstep, ne_eq, not_true_eq_false, if_false]
      exact h1
    · have hb' : isSpace b = false := by simpa using hb
      by_cases hq : b = 34
      · subst hq
        have hstep := atKey_quote hK
        refine ⟨rest, ?_, by simp, ?_⟩
        · simp only [scanWhileLoop, hstep, ne_eq, reduceCtorEq, not_false_eq_true, if_true]
        · have := ahead_here hA
          rw [hstep] at this
          exact this
      · obtain ⟨hop, hA'⟩ := ahead_step hA (Or.inr hq)
        rcases atKey_other hK hb' hq with h | h
        · exact absurd h hop
        · exact absurd h (ahead_not_dead hA')

/-- A `scanWhile` over white space that leaves the scanner as it is. -/
theorem scanWhileLoop_stable (T' : Bytes) (s : scanner) (hk : ¬ s.atKey)
    (hsp : ∀ w, isSpace w = true → s.doStep w = (s, .scanSkipSpace))
    (hns : ∀ b, isSpace b = false → (s.doStep b).2 ≠ .scanSkipSpace) :
    ∀ (rest : Bytes) (cur0 : Nat), Ahead (34 :: T') s rest →
    ∃ b rest1, isSpace b = false ∧
      scanWhileLoop .scanSkipSpace s cur0 rest = ((s.doStep b).1, (s.doStep b).2, b, rest1) ∧
      rest1.length < rest.length ∧ (s.doStep b).2 ≠ .scanError ∧
      Ahead (34 :: T') (s.doStep b).1 rest1 := by
  intro rest
  induction rest with
  | nil =>
    intro cur0 hA
    exact absurd rfl (ahead_ne_nil hA)
  | cons c rest ih =>
    intro cur0 hA
    obtain ⟨hop, hA'⟩ := ahead_step hA (Or.inl hk)
    by_cases hc : isSpace c = true
    · have hstep := hsp c hc
      rw [hstep] at hA'
      obtain ⟨b, rest1, h1, h2, h3, h4, h5⟩ := ih c hA'
      refine ⟨b, rest1, h1, ?_, by simp only [List.length_cons]; omega, h4, h5⟩
      simp only [scanWhileLoop, hstep, ne_eq, not_true_eq_false, if_false]
      exact h2
    · have hc' : isSpace c = false := by simpa using hc
      refine ⟨c, rest, hc', ?_, by simp, hop, hA'⟩
      simp only [scanWhileLoop, ne_eq, hns c hc', not_false_eq_true, if_true]

end json
end CherevanAuth

namespace CherevanAuth
namespace json

/-! ## Literals: `rescanLiteral` stops where the scanner does -/

theorem stateEndValue_step (s : scanner) (x : Step) (c : Nat) :
    stateEndValue { s with step := x } c = stateEndValue s c := by
  unfold stateEndValue
  rcases hps : s.parseState with _ | ⟨ps, below⟩
  · simp [hps, stateEndTop, scanner.error]
  · cases ps <;> simp [hps, scanner.error, scanner.popParseState]

theorem not_atKey_of_step {s : scanner} (h1 : s.step ≠ .stateBeginString)
    (h2 : s.step ≠ .stateBeginStringOrEmpty) : ¬ s.atKey := by
  rintro ⟨_, h | h⟩
  · exact h1 h
  · exact h2 h

theorem not_atKey_step (s : scanner) (x : Step) (h1 : x ≠ .stateBeginString)
    (h2 : x ≠ .stateBeginStringOrEmpty) : ¬ ({ s with step := x } : scanner).atKey :=
  not_atKey_of_step h1 h2

/-- One step of the scanner inside a string literal, seen from `rescanString`. -/
theorem inString_step (T' : Bytes) (s0 : scanner) (c : Nat) (rest : Bytes)
    (hA : Ahead (34 :: T') { s0 with step := .stateInString } (c :: rest)) :
    (c = 34 ∧ Ahead (34 :: T') { s0 with step := .stateEndValue } rest) ∨
    (c = 92 ∧ Ahead (34 :: T') { s0 with step := .stateInStringEsc } rest) ∨
    (c ≠ 34 ∧ c ≠ 92 ∧ Ahead (34 :: T') { s0 with step := .stateInString } rest) := by
  obtain ⟨hop, hA'⟩ := ahead_step hA (Or.inl (not_atKey_step s0 _ (by decide) (by decide)))
  by_cases h34 : c = 34
  · left
    subst h34
    refine ⟨rfl, ?_⟩
    simpa [scanner.doStep, stateInString] using hA'
  · by_cases h92 : c = 92
    · right; left
      subst h92
      refine ⟨rfl, ?_⟩
      simpa [scanner.doStep, stateInString] using hA'
    · right; right
      refine ⟨h34, h92, ?_⟩
      by_cases hlt : c < 32
      · simp [scanner.doStep, stateInString, h34, h92, hlt, scanner.error] at hop
      · simpa [scanner.doStep, stateInString, h34, h92, hlt] using hA'

theorem inStringEsc_step (T' : Bytes) (s0 : scanner) (c : Nat) (rest : Bytes)
    (hA : Ahead (34 :: T') { s0 with step := .stateInStringEsc } (c :: rest)) :
    ∃ st, inStringStep st ∧ Ahead (34 :: T') { s0 with step := st } rest := by
  obtain ⟨hop, hA'⟩ := ahead_step hA (Or.inl (not_atKey_step s0 _ (by decide) (by decide)))
  by_cases h1 : c = 98 ∨ c = 102 ∨ c = 110 ∨ c = 114 ∨ c = 116 ∨ c = 92 ∨ c = 47 ∨ c = 34
  · refine ⟨.stateInString, Or.inl rfl, ?_⟩
    simpa [scanner.doStep, stateInStringEsc, h1] using hA'
  · by_cases h2 : c = 117
    · refine ⟨.stateInStringEscU, Or.inr (Or.inl rfl), ?_⟩
      simpa [scanner.doStep, stateInStringEsc, h1, h2] using hA'
    · simp [scanner.doStep, stateInStringEsc, h1, h2, scanner.error] at hop

theorem inStringHex_step (T' : Bytes) (s0 : scanner) (st : Step) (c : Nat) (rest : Bytes)
    (hst : st = .stateInStringEscU ∨ st = .stateInStringEscU1 ∨ st = .stateInStringEscU12 ∨
      st = .stateInStringEscU123)
    (hA : Ahead (34 :: T') { s0 with step := st } (c :: rest)) :
    c ≠ 34 ∧ c ≠ 92 ∧ ∃ st', inStringStep st' ∧ Ahead (34 :: T') { s0 with step := st' } rest := by
  have hk : ¬ ({ s0 with step := st } : scanner).atKey := by
    rcases hst with h | h | h | h <;> subst h <;>
      exact not_atKey_step s0 _ (by decide) (by decide)
  obtain ⟨hop, hA'⟩ := ahead_step hA (Or.inl hk)
  by_cases hx : isHexDigit c = true
  · have hne : c ≠ 34 ∧ c ≠ 92 := by
      unfold isHexDigit at hx
      simp only [decide_eq_true_eq] at hx
      omega
    refine ⟨hne.1, hne.2, ?_⟩
    rcases hst with h | h | h | h <;> subst h
    · exact ⟨.stateInStringEscU1, Or.inr (Or.inr (Or.inl rfl)),
        by simpa [scanner.doStep, stateInStringEscHex, hx] using hA'⟩
    · exact ⟨.stateInStringEscU12, Or.inr (Or.inr (Or.inr (Or.inl rfl))),
        by simpa [scanner.doStep, stateInStringEscHex, hx] using hA'⟩
    · exact ⟨.stateInStringEscU123, Or.inr (Or.inr (Or.inr (Or.inr rfl))),
        by simpa [scanner.doStep, stateInStringEscHex, hx] using hA'⟩
    · exact ⟨.stateInString, Or.inl rfl,
        by simpa [scanner.doStep, stateInStringEscHex, hx] using hA'⟩
  · rcases hst with h | h | h | h <;> subst h <;>
      simp [scanner.doStep, stateInStringEscHex, hx, scanner.error] at hop

/-- A string literal: `rescanString` stops after the quote that ends it for the
scanner. -/
theorem rescanString_ahead (T' : Bytes) (s0 : scanner) : ∀ (n : Nat) (rs : Bytes) (st : Step),
    rs.length ≤ n → inStringStep st → Ahead (34 :: T') { s0 with step := st } rs →
    Ahead (34 :: T') { s0 with step := .stateEndValue } (rescanString rs).2 ∧
      (rescanString rs).2.length < rs.length := by
  intro n
  induction n with
  | zero =>
    intro rs st hlen _ hA
    have : rs = [] := List.length_eq_zero.mp (by omega)
    exact absurd this (ahead_ne_nil hA)
  | succ n ih =>
    intro rs st hlen hst hA
    rcases rs with _ | ⟨c, rest⟩
    · exact absurd rfl (ahead_ne_nil hA)
    simp only [List.length_cons] at hlen
    rcases hst with h | h
    · subst h
      rcases inString_step T' s0 c rest hA with ⟨h34, hA'⟩ | ⟨h92, hA'⟩ | ⟨h34, h92, hA'⟩
      · subst h34
        rw [rescanString_quote]
        exact ⟨hA', by simp⟩
      · subst h92
        rcases rest with _ | ⟨e, rest2⟩
        · exact absurd rfl (ahead_ne_nil hA')
        obtain ⟨st', hst', hA2⟩ := inStringEsc_step T' s0 e rest2 hA'
        simp only [List.length_cons] at hlen
        obtain ⟨i1, i2⟩ := ih rest2 st' (by omega) hst' hA2
        rw [rescanString_esc]
        exact ⟨i1, by simp only [List.length_cons]; omega⟩
      · obtain ⟨i1, i2⟩ := ih rest .stateInString (by omega) (Or.inl rfl) hA'
        rw [rescanString_cons_plain _ _ h34 h92]
        exact ⟨i1, by simp only [List.length_cons]; omega⟩
    · obtain ⟨h34, h92, st', hst', hA'⟩ := inStringHex_step T' s0 st c rest h hA
      obtain ⟨i1, i2⟩ := ih rest st' (by omega) hst' hA'
      rw [rescanString_cons_plain _ _ h34 h92]
      exact ⟨i1, by simp only [List.length_cons]; omega⟩

end json
end CherevanAuth

namespace CherevanAuth
namespace json

/-! ## Numbers and the literals `true`, `false`, `null` -/

theorem numberChar_ne {c : Nat} (h : isNumberChar c) :
    isSpace c = false ∧ c ≠ 58 ∧ c ≠ 44 ∧ c ≠ 125 ∧ c ≠ 93 := by
  unfold isNumberChar isDigit at h
  simp only [decide_eq_true_eq] at h
  unfold isSpace
  simp only [decide_eq_false_iff_not]
  omega

/-- Inside an array or an object, `stateEndValue` accepts white space, `:`, `,`,
`}` and `]` only. -/
theorem stateEndValue_error {s : scanner} {c : Nat} (hps : s.parseState ≠ [])
    (h1 : isSpace c = false) (h2 : c ≠ 58) (h3 : c ≠ 44) (h4 : c ≠ 125) (h5 : c ≠ 93) :
    (stateEndValue s c).2 = .scanError := by
  unfold stateEndValue
  rcases hp : s.parseState with _ | ⟨ps, below⟩
  · exact absurd hp hps
  · cases ps <;> simp [h1, h2, h3, h4, h5, scanner.error]

theorem numberStep_not_atKey (s0 : scanner) {st : Step} (h : numberStep st) :
    ¬ ({ s0 with step := st } : scanner).atKey := by
  rcases h with h | h | h | h | h | h | h | h <;> subst h <;>
    exact not_atKey_step s0 _ (by decide) (by decide)

/-- One step of the scanner on a byte that `rescanNumber` takes. -/
theorem number_step (T' : Bytes) (s0 : scanner) (hps : s0.parseState ≠ []) (st : Step)
    (hst : numberStep st) (c : Nat) (rest : Bytes) (hc : isNumberChar c)
    (hA : Ahead (34 :: T') { s0 with step := st } (c :: rest)) :
    ∃ st', numberStep st' ∧ Ahead (34 :: T') { s0 with step := st' } rest := by
  obtain ⟨hop, hA'⟩ := ahead_step hA (Or.inl (numberStep_not_atKey s0 hst))
  obtain ⟨n1, n2, n3, n4, n5⟩ := numberChar_ne hc
  have hev : ∀ x : Step, (stateEndValue { s0 with step := x } c).2 = .scanError := by
    intro x
    rw [stateEndValue_step]
    exact stateEndValue_error hps n1 n2 n3 n4 n5
  rcases hst with h | h | h | h | h | h | h | h <;> subst h
  all_goals
    simp only [scanner.doStep, stateNeg, state0, state1, stateDot, stateDot0, stateE,
      stateESign, stateE0] at hop hA'
    split_ifs at hop hA'
  all_goals first
    | exact absurd (hev _) hop
    | (simp [scanner.error] at hop; done)
    | exact ⟨_, by simp [numberStep], hA'⟩

/-- The step of the scanner on the byte after a number. -/
theorem number_end (T' : Bytes) (s0 : scanner) (st : Step) (hst : numberStep st) (c : Nat)
    (rest : Bytes) (hc : ¬ isNumberChar c)
    (hA : Ahead (34 :: T') { s0 with step := st } (c :: rest)) :
    (stateEndValue s0 c).2 ≠ .scanError ∧ Ahead (34 :: T') (stateEndValue s0 c).1 rest := by
  obtain ⟨hop, hA'⟩ := ahead_step hA (Or.inl (numberStep_not_atKey s0 hst))
  unfold isNumberChar at hc
  simp only [not_or] at hc
  obtain ⟨c1, c2, c3, c4, c5, c6⟩ := hc
  have c1' : isDigit c = false := by simpa using c1
  have c7 : ¬ (49 ≤ c ∧ c ≤ 57) := by
    unfold isDigit at c1'
    simp only [decide_eq_false_iff_not] at c1'
    omega
  have c8 : c ≠ 48 := by
    unfold isDigit at c1'
    simp only [decide_eq_false_iff_not] at c1'
    omega
  rcases hst with h | h | h | h | h | h | h | h <;> subst h
  all_goals
    simp only [scanner.doStep, stateNeg, state0, state1, stateDot, stateDot0, stateE,
      stateESign, stateE0, c1', c2, c3, c4, c5, c6, c7, c8, or_self, if_false,
      Bool.false_eq_true, stateEndValue_step] at hop hA'
  all_goals first
    | exact ⟨hop, hA'⟩
    | (simp [scanner.error] at hop; done)

/-- A number: `rescanNumber` stops where the scanner ends the number. -/
theorem rescanNumber_ahead (T' : Bytes) (s0 : scanner) (hps : s0.parseState ≠ []) :
    ∀ (rs : Bytes) (st : Step), numberStep st →
    Ahead (34 :: T') { s0 with step := st } rs →
    ∃ a0 rest2, (rescanNumber rs).2 = a0 :: rest2 ∧ (stateEndValue s0 a0).2 ≠ .scanError ∧
      Ahead (34 :: T') (stateEndValue s0 a0).1 rest2 ∧ rest2.length < rs.length := by
  intro rs
  induction rs with
  | nil =>
    intro st _ hA
    exact absurd rfl (ahead_ne_nil hA)
  | cons c rest ih =>
    intro st hst hA
    by_cases hc : isNumberChar c
    · obtain ⟨st', hst', hA'⟩ := number_step T' s0 hps st hst c rest hc hA
      obtain ⟨a0, rest2, h1, h2, h3, h4⟩ := ih st' hst' hA'
      refine ⟨a0, rest2, ?_, h2, h3, by simp only [List.length_cons]; omega⟩
      unfold isNumberChar at hc
      simp only [rescanNumber, hc, if_true]
      exact h1
    · obtain ⟨h2, h3⟩ := number_end T' s0 st hst c rest hc hA
      refine ⟨c, rest, ?_, h2, h3, by simp⟩
      unfold isNumberChar at hc
      simp only [rescanNumber, hc, if_false]

/-- One step of the scanner inside `true`, `false` or `null`. -/
theorem letter_step (T' : Bytes) (s0 : scanner) (st next : Step) (want : Nat) (ctx : String)
    (hdo : ∀ c, ({ s0 with step := st } : scanner).doStep c =
      stateLetter want next ctx { s0 with step := st } c)
    (h1 : st ≠ .stateBeginString) (h2 : st ≠ .stateBeginStringOrEmpty) (c : Nat) (rest : Bytes)
    (hA : Ahead (34 :: T') { s0 with step := st } (c :: rest)) :
    c = want ∧ Ahead (34 :: T') { s0 with step := next } rest := by
  obtain ⟨hop, hA'⟩ := ahead_step hA (Or.inl (not_atKey_step s0 _ h1 h2))
  rw [hdo] at hop hA'
  by_cases hc : c = want
  · exact ⟨hc, by simpa [stateLetter, hc] using hA'⟩
  · simp [stateLetter, hc, scanner.error] at hop

theorem true_ahead (T' : Bytes) (s0 : scanner) (rest : Bytes)
    (hA : Ahead (34 :: T') { s0 with step := .stateT } rest) :
    ∃ after, rest = 114 :: 117 :: 101 :: after ∧
      Ahead (34 :: T') { s0 with step := .stateEndValue } after := by
  rcases rest with _ | ⟨c1, rest⟩
  · exact absurd rfl (ahead_ne_nil hA)
  obtain ⟨e1, hA1⟩ := letter_step T' s0 .stateT .stateTr 114 _ (fun _ => rfl) (by decide)
    (by decide) c1 rest hA
  rcases rest with _ | ⟨c2, rest⟩
  · exact absurd rfl (ahead_ne_nil hA1)
  obtain ⟨e2, hA2⟩ := letter_step T' s0 .stateTr .stateTru 117 _ (fun _ => rfl) (by decide)
    (by decide) c2 rest hA1
  rcases rest with _ | ⟨c3, rest⟩
  · exact absurd rfl (ahead_ne_nil hA2)
  obtain ⟨e3, hA3⟩ := letter_step T' s0 .stateTru .stateEndValue 101 _ (fun _ => rfl)
    (by decide) (by decide) c3 rest hA2
  subst e1 e2 e3
  exact ⟨rest, rfl, hA3⟩

theorem false_ahead (T' : Bytes) (s0 : scanner) (rest : Bytes)
    (hA : Ahead (34 :: T') { s0 with step := .stateF } rest) :
    ∃ after, rest = 97 :: 108 :: 115 :: 101 :: after ∧
      Ahead (34 :: T') { s0 with step := .stateEndValue } after := by
  rcases rest with _ | ⟨c1, rest⟩
  · exact absurd rfl (ahead_ne_nil hA)
  obtain ⟨e1, hA1⟩ := letter_step T' s0 .stateF .stateFa 97 _ (fun _ => rfl) (by decide)
    (by decide) c1 rest hA
  rcases rest with _ | ⟨c2, rest⟩
  · exact absurd rfl (ahead_ne_nil hA1)
  obtain ⟨e2, hA2⟩ := letter_step T' s0 .stateFa .stateFal 108 _ (fun _ => rfl) (by decide)
    (by decide) c2 rest hA1
  rcases rest with _ | ⟨c3, rest⟩
  · exact absurd rfl (ahead_ne_nil hA2)
  obtain ⟨e3, hA3⟩ := letter_step T' s0 .stateFal .stateFals 115 _ (fun _ => rfl) (by decide)
    (by decide) c3 rest hA2
  rcases rest with _ | ⟨c4, rest⟩
  · exact absurd rfl (ahead_ne_nil hA3)
  obtain ⟨e4, hA4⟩ := letter_step T' s0 .stateFals .stateEndValue 101 _ (fun _ => rfl)
    (by decide) (by decide) c4 rest hA3
  subst e1 e2 e3 e4
  exact ⟨rest, rfl, hA4⟩

theorem null_ahead (T' : Bytes) (s0 : scanner) (rest : Bytes)
    (hA : Ahead (34 :: T') { s0 with step := .stateN } rest) :
    ∃ after, rest = 117 :: 108 :: 108 :: after ∧
      Ahead (34 :: T') { s0 with step := .stateEndValue } after := by
  rcases rest with _ | ⟨c1, rest⟩
  · exact absurd rfl (ahead_ne_nil hA)
  obtain ⟨e1, hA1⟩ := letter_step T' s0 .stateN .stateNu 117 _ (fun _ => rfl) (by decide)
    (by decide) c1 rest hA
  rcases rest with _ | ⟨c2, rest⟩
  · exact absurd rfl (ahead_ne_nil hA1)
  obtain ⟨e2, hA2⟩ := letter_step T' s0 .stateNu .stateNul 108 _ (fun _ => rfl) (by decide)
    (by decide) c2 rest hA1
  rcases rest with _ | ⟨c3, rest⟩
  · exact absurd rfl (ahead_ne_nil hA2)
  obtain ⟨e3, hA3⟩ := letter_step T' s0 .stateNul .stateEndValue 108 _ (fun _ => rfl)
    (by decide) (by decide) c3 rest hA2
  subst e1 e2 e3
  exact ⟨rest, rfl, hA3⟩

/-- After a literal that ends for the scanner before `after`, the decoder gives the
first byte of `after` to `stateEndValue`. -/
theorem endValue_ahead (T' : Bytes) (s0 : scanner) (after : Bytes)
    (hA : Ahead (34 :: T') { s0 with step := .stateEndValue } after) :
    ∃ a0 rest2, after = a0 :: rest2 ∧ (stateEndValue s0 a0).2 ≠ .scanError ∧
      Ahead (34 :: T') (stateEndValue s0 a0).1 rest2 := by
  rcases after with _ | ⟨a0, rest2⟩
  · exact absurd rfl (ahead_ne_nil hA)
  obtain ⟨hop, hA'⟩ := ahead_step hA (Or.inl (not_atKey_step s0 _ (by decide) (by decide)))
  have hdo : ({ s0 with step := .stateEndValue } : scanner).doStep a0 = stateEndValue s0 a0 := by
    simp only [scanner.doStep, stateEndValue_step]
  rw [hdo] at hop hA'
  exact ⟨a0, rest2, rfl, hop, hA'⟩

end json
end CherevanAuth

namespace CherevanAuth
namespace json

/-! ## A literal, read by the decoder -/

theorem rescanLiteral_of_string (d : decodeState) (hc : d.cur = 34) (a0 : Nat) (rest2 : Bytes)
    (h : (rescanString d.rest).2 = a0 :: rest2) :
    d.rescanLiteral = (d.cur :: (rescanString d.rest).1,
      { d with scan := (stateEndValue d.scan a0).1, opcode := (stateEndValue d.scan a0).2,
               cur := a0, rest := rest2 }) := by
  rcases hr : rescanString d.rest with ⟨body, after⟩
  rw [hr] at h
  simp only at h
  subst h
  simp only [decodeState.rescanLiteral, hc, hr, if_true]

theorem rescanLiteral_of_number (d : decodeState) (hc : isDigit d.cur = true ∨ d.cur = 45)
    (a0 : Nat) (rest2 : Bytes) (h : (rescanNumber d.rest).2 = a0 :: rest2) :
    d.rescanLiteral = (d.cur :: (rescanNumber d.rest).1,
      { d with scan := (stateEndValue d.scan a0).1, opcode := (stateEndValue d.scan a0).2,
               cur := a0, rest := rest2 }) := by
  have h34 : d.cur ≠ 34 := by
    rcases hc with hc | hc
    · unfold isDigit at hc
      simp only [decide_eq_true_eq] at hc
      omega
    · omega
  rcases hr : rescanNumber d.rest with ⟨body, after⟩
  rw [hr] at h
  simp only at h
  subst h
  simp only [decodeState.rescanLiteral, h34, hc, hr, if_true, if_false]

theorem rescanLiteral_of_letters (d : decodeState) (n : Nat)
    (hc : (d.cur = 116 ∧ n = 3) ∨ (d.cur = 102 ∧ n = 4) ∨ (d.cur = 110 ∧ n = 3))
    (a0 : Nat) (rest2 : Bytes) (h : d.rest.drop n = a0 :: rest2) :
    d.rescanLiteral = (d.cur :: d.rest.take n,
      { d with scan := (stateEndValue d.scan a0).1, opcode := (stateEndValue d.scan a0).2,
               cur := a0, rest := rest2 }) := by
  rcases hc with ⟨hc, rfl⟩ | ⟨hc, rfl⟩ | ⟨hc, rfl⟩ <;>
    simp [decodeState.rescanLiteral, hc, h, isDigit]

/-- The decoder after a literal: `rescanLiteral` leaves it where the scanner is
after the literal and the byte that follows it. -/
theorem rescanLiteral_ahead (T' : Bytes) (d : decodeState) (hps : d.scan.parseState ≠ [])
    (hl : literalStart d.cur d.scan.step) (hA : Ahead (34 :: T') d.scan d.rest) :
    ∃ item a0 rest2, d.rescanLiteral =
        (item, { d with scan := (stateEndValue d.scan a0).1,
                        opcode := (stateEndValue d.scan a0).2, cur := a0, rest := rest2 }) ∧
      (stateEndValue d.scan a0).2 ≠ .scanError ∧
      Ahead (34 :: T') (stateEndValue d.scan a0).1 rest2 := by
  have hA0 : ∀ st, d.scan.step = st →
      Ahead (34 :: T') ({ d.scan with step := st } : scanner) d.rest := by
    intro st hst
    subst hst
    exact hA
  rcases hl with ⟨hc, hst⟩ | ⟨hc, hst⟩ | ⟨hc, hst⟩ | ⟨hc1, hc2, hst⟩ | ⟨hc, hst⟩ | ⟨hc, hst⟩ |
    ⟨hc, hst⟩
  · obtain ⟨i1, _⟩ := rescanString_ahead T' d.scan d.rest.length d.rest .stateInString
      (le_refl _) (Or.inl rfl) (hA0 _ hst)
    obtain ⟨a0, rest2, h1, h2, h3⟩ := endValue_ahead T' d.scan _ i1
    exact ⟨_, a0, rest2, rescanLiteral_of_string d hc a0 rest2 h1, h2, h3⟩
  · obtain ⟨a0, rest2, h1, h2, h3, _⟩ := rescanNumber_ahead T' d.scan hps d.rest .stateNeg
      (Or.inl rfl) (hA0 _ hst)
    exact ⟨_, a0, rest2, rescanLiteral_of_number d (Or.inr hc) a0 rest2 h1, h2, h3⟩
  · obtain ⟨a0, rest2, h1, h2, h3, _⟩ := rescanNumber_ahead T' d.scan hps d.rest .state0
      (Or.inr (Or.inl rfl)) (hA0 _ hst)
    exact ⟨_, a0, rest2, rescanLiteral_of_number d (Or.inl (by rw [hc]; decide)) a0 rest2 h1,
      h2, h3⟩
  · obtain ⟨a0, rest2, h1, h2, h3, _⟩ := rescanNumber_ahead T' d.scan hps d.rest .state1
      (Or.inr (Or.inr (Or.inl rfl))) (hA0 _ hst)
    refine ⟨_, a0, rest2, rescanLiteral_of_number d (Or.inl ?_) a0 rest2 h1, h2, h3⟩
    unfold isDigit
    simp only [decide_eq_true_eq]
    omega
  · obtain ⟨after, e1, i1⟩ := true_ahead T' d.scan d.rest (hA0 _ hst)
    obtain ⟨a0, rest2, h1, h2, h3⟩ := endValue_ahead T' d.scan _ i1
    refine ⟨_, a0, rest2, rescanLiteral_of_letters d 3 (Or.inl ⟨hc, rfl⟩) a0 rest2 ?_, h2, h3⟩
    rw [e1, ← h1]
    rfl
  · obtain ⟨after, e1, i1⟩ := false_ahead T' d.scan d.rest (hA0 _ hst)
    obtain ⟨a0, rest2, h1, h2, h3⟩ := endValue_ahead T' d.scan _ i1
    refine ⟨_, a0, rest2,
      rescanLiteral_of_letters d 4 (Or.inr (Or.inl ⟨hc, rfl⟩)) a0 rest2 ?_, h2, h3⟩
    rw [e1, ← h1]
    rfl
  · obtain ⟨after, e1, i1⟩ := null_ahead T' d.scan d.rest (hA0 _ hst)
    obtain ⟨a0, rest2, h1, h2, h3⟩ := endValue_ahead T' d.scan _ i1
    refine ⟨_, a0, rest2,
      rescanLiteral_of_letters d 3 (Or.inr (Or.inr ⟨hc, rfl⟩)) a0 rest2 ?_, h2, h3⟩
    rw [e1, ← h1]
    rfl

end json
end CherevanAuth

namespace CherevanAuth
namespace json

/-! ## Arrays and objects that are the value of a member -/

theorem inMemberValue_not_atKey {s : scanner} (h : s.inMemberValue) : ¬ s.atKey := by
  obtain ⟨inner, hne, hps⟩ := h
  rintro ⟨hk, _⟩
  rw [hps] at hk
  rcases inner with _ | ⟨i0, _ | ⟨i1, inner⟩⟩
  · exact hne rfl
  · simp at hk
  · simp at hk

theorem insideOrLeft_error (s : scanner) (c : Nat) (ctx : String) :
    insideOrLeft (s.error c ctx) := Or.inl rfl

theorem insideOrLeft_step (s : scanner) (x : Step) (op : Op) (h : s.inMemberValue) :
    insideOrLeft ({ s with step := x }, op) := Or.inr (Or.inl h)

theorem insideOrLeft_same (s : scanner) (op : Op) (h : s.inMemberValue) :
    insideOrLeft (s, op) := Or.inr (Or.inl h)

theorem insideOrLeft_endValue (s : scanner) (c : Nat) (h : s.inMemberValue) :
    insideOrLeft (stateEndValue s c) := by
  obtain ⟨inner, hne, hps⟩ := h
  rcases inner with _ | ⟨i0, inner⟩
  · exact absurd rfl hne
  obtain ⟨st, et, ps, er⟩ := s
  simp only at hps
  subst hps
  have hcase : (∃ inner', inner' ≠ [] ∧ inner ++ [ParseState.parseObjectValue] =
        inner' ++ [ParseState.parseObjectValue]) ∨
      inner ++ [ParseState.parseObjectValue] = [ParseState.parseObjectValue] := by
    rcases inner with _ | ⟨i1, inner⟩
    · right; rfl
    · left; exact ⟨i1 :: inner, by simp, rfl⟩
  have hpop : insideOrLeft (scanner.popParseState
      ⟨st, et, i0 :: (inner ++ [ParseState.parseObjectValue]), er⟩, Op.scanEndObject) ∧
      insideOrLeft (scanner.popParseState
      ⟨st, et, i0 :: (inner ++ [ParseState.parseObjectValue]), er⟩, Op.scanEndArray) := by
    have hlen : (inner ++ [ParseState.parseObjectValue]).length ≠ 0 := by simp
    simp only [scanner.popParseState, List.tail_cons, hlen, if_false]
    rcases hcase with hcase | hcase
    · exact ⟨Or.inr (Or.inl hcase), Or.inr (Or.inl hcase)⟩
    · exact ⟨Or.inr (Or.inr ⟨hcase, rfl⟩), Or.inr (Or.inr ⟨hcase, rfl⟩)⟩
  simp only [stateEndValue, List.cons_append]
  by_cases hsp : isSpace c = true
  · rw [if_pos hsp]
    exact Or.inr (Or.inl ⟨i0 :: inner, by simp, rfl⟩)
  · rw [if_neg hsp]
    cases i0
    · simp only
      split_ifs
      · exact Or.inr (Or.inl ⟨.parseObjectValue :: inner, by simp, rfl⟩)
      · exact Or.inl rfl
    · simp only
      split_ifs
      · exact Or.inr (Or.inl ⟨.parseObjectKey :: inner, by simp, rfl⟩)
      · exact hpop.1
      · exact Or.inl rfl
    · simp only
      split_ifs
      · exact Or.inr (Or.inl ⟨.parseArrayValue :: inner, by simp, rfl⟩)
      · exact hpop.2
      · exact Or.inl rfl

theorem insideOrLeft_push (s : scanner) (c : Nat) (x : ParseState) (op : Op)
    (h : s.inMemberValue) : insideOrLeft (s.pushParseState c x op) := by
  obtain ⟨inner, hne, hps⟩ := h
  unfold scanner.pushParseState
  simp only
  split_ifs
  · exact Or.inr (Or.inl ⟨x :: inner, by simp, by simp [hps]⟩)
  · exact Or.inl rfl

theorem insideOrLeft_beginValue (s : scanner) (c : Nat) (h : s.inMemberValue) :
    insideOrLeft (stateBeginValue s c) := by
  unfold stateBeginValue
  by_cases h0 : isSpace c = true
  · rw [if_pos h0]
    exact insideOrLeft_same s _ h
  rw [if_neg h0]
  by_cases h1 : c = 123
  · rw [if_pos h1]
    exact insideOrLeft_push _ c _ _ h
  rw [if_neg h1]
  by_cases h2 : c = 91
  · rw [if_pos h2]
    exact insideOrLeft_push _ c _ _ h
  rw [if_neg h2]
  by_cases h3 : c = 34
  · rw [if_pos h3]
    exact insideOrLeft_step s _ _ h
  rw [if_neg h3]
  by_cases h4 : c = 45
  · rw [if_pos h4]
    exact insideOrLeft_step s _ _ h
  rw [if_neg h4]
  by_cases h5 : c = 48
  · rw [if_pos h5]
    exact insideOrLeft_step s _ _ h
  rw [if_neg h5]
  by_cases h6 : c = 116
  · rw [if_pos h6]
    exact insideOrLeft_step s _ _ h
  rw [if_neg h6]
  by_cases h7 : c = 102
  · rw [if_pos h7]
    exact insideOrLeft_step s _ _ h
  rw [if_neg h7]
  by_cases h8 : c = 110
  · rw [if_pos h8]
    exact insideOrLeft_step s _ _ h
  rw [if_neg h8]
  by_cases h9 : 49 ≤ c ∧ c ≤ 57
  · rw [if_pos h9]
    exact insideOrLeft_step s _ _ h
  rw [if_neg h9]
  exact insideOrLeft_error s c _

theorem insideOrLeft_beginString (s : scanner) (c : Nat) (h : s.inMemberValue) :
    insideOrLeft (stateBeginString s c) := by
  unfold stateBeginString
  split_ifs
  · exact insideOrLeft_same s _ h
  · exact insideOrLeft_step s _ _ h
  · exact insideOrLeft_error s c _

theorem insideOrLeft_beginStringOrEmpty (s : scanner) (c : Nat) (h : s.inMemberValue) :
    insideOrLeft (stateBeginStringOrEmpty s c) := by
  unfold stateBeginStringOrEmpty
  split_ifs
  · exact insideOrLeft_same s _ h
  · refine insideOrLeft_endValue _ c ?_
    obtain ⟨inner, hne, hps⟩ := h
    rcases inner with _ | ⟨i0, inner⟩
    · exact absurd rfl hne
    · exact ⟨.parseObjectValue :: inner, by simp, by simp [hps]⟩
  · exact insideOrLeft_beginString s c h

/-- One step of the scanner inside an array or an object that is the value of a
member: it stays inside, or it has just left it. -/
theorem step_inMemberValue (s : scanner) (c : Nat) (h : s.inMemberValue) :
    insideOrLeft (s.doStep c) := by
  have hev := insideOrLeft_endValue s c h
  unfold scanner.doStep
  split
  · unfold stateBeginValueOrEmpty
    split_ifs
    · exact insideOrLeft_same s _ h
    · exact hev
    · exact insideOrLeft_beginValue s c h
  · exact insideOrLeft_beginValue s c h
  · exact insideOrLeft_beginStringOrEmpty s c h
  · exact insideOrLeft_beginString s c h
  · exact hev
  · unfold stateEndTop
    split_ifs
    · exact Or.inr (Or.inl h)
    · exact insideOrLeft_same s _ h
  all_goals
    try simp only [stateInString, stateInStringEsc, stateInStringEscHex, stateNeg, state0,
      state1, stateDot, stateDot0, stateE, stateESign, stateE0, stateLetter]
    try split_ifs
  all_goals first
    | exact Or.inl rfl
    | exact hev
    | exact Or.inr (Or.inl h)

/-- The loop of `skip` over an array or an object that is the value of a member
stops after its end. -/
theorem skipLoop_ahead (T' : Bytes) : ∀ (rest : Bytes) (s : scanner)
    (r : scanner × Op × Nat × Bytes), s.inMemberValue → Ahead (34 :: T') s rest →
    skipLoop 2 s rest = some r →
    r.1.leftValue ∧ Ahead (34 :: T') r.1 r.2.2.2 := by
  intro rest
  induction rest with
  | nil =>
    intro s r _ _ h
    simp [skipLoop] at h
  | cons c rest ih =>
    intro s r hin hA h
    obtain ⟨hop, hA'⟩ := ahead_step hA (Or.inl (inMemberValue_not_atKey hin))
    simp only [skipLoop] at h
    rcases step_inMemberValue s c hin with h1 | h1 | h1
    · exact absurd h1 hop
    · have hlen : ¬ (s.doStep c).1.parseState.length < 2 := by
        obtain ⟨inner, hne, hps⟩ := h1
        rw [hps]
        rcases inner with _ | ⟨i0, inner⟩
        · exact absurd rfl hne
        · simp
      rw [if_neg hlen] at h
      exact ih _ _ h1 hA' h
    · have hlen : (s.doStep c).1.parseState.length < 2 := by
        rw [h1.1]
        simp
      rw [if_pos hlen] at h
      simp only [Option.some.injEq] at h
      subst h
      exact ⟨h1, hA'⟩

end json
end CherevanAuth

namespace CherevanAuth
namespace json

/-! ## The decoder between the parts of a member -/

theorem endValue_space (s : scanner) (c : Nat) (hps : s.parseState ≠ [])
    (hsp : isSpace c = true) :
    stateEndValue s c = ({ s with step := .stateEndValue }, .scanSkipSpace) := by
  obtain ⟨st, et, ps, er⟩ := s
  rcases ps with _ | ⟨p, below⟩
  · exact absurd rfl hps
  · simp [stateEndValue, hsp]

theorem endValue_nonspace (s : scanner) (c : Nat) (hps : s.parseState ≠ [])
    (hsp : isSpace c = false) : (stateEndValue s c).2 ≠ .scanSkipSpace := by
  obtain ⟨st, et, ps, er⟩ := s
  rcases ps with _ | ⟨p, below⟩
  · exact absurd rfl hps
  · cases p <;> simp only [stateEndValue, hsp, Bool.false_eq_true, if_false, scanner.error] <;>
      split_ifs <;> simp

/-- After a key, a byte that is not white space is the colon. -/
theorem endValue_key (s : scanner) (c : Nat) (hps : s.parseState = [.parseObjectKey])
    (hsp : isSpace c = false) (hop : (stateEndValue s c).2 ≠ .scanError) :
    (stateEndValue s c).2 = .scanObjectKey ∧
      (stateEndValue s c).1.parseState = [.parseObjectValue] ∧
      (stateEndValue s c).1.step = .stateBeginValue := by
  obtain ⟨st, et, ps, er⟩ := s
  simp only at hps
  subst hps
  by_cases h58 : c = 58
  · subst h58
    simp [stateEndValue, isSpace]
  · simp [stateEndValue, hsp, h58, scanner.error] at hop

/-- After the value of a member, a byte that is not white space and does not end
the object is the comma. -/
theorem endValue_value (s : scanner) (c : Nat) (hps : s.parseState = [.parseObjectValue])
    (hsp : isSpace c = false) (hop : (stateEndValue s c).2 ≠ .scanError)
    (hnd : ¬ (stateEndValue s c).1.dead) :
    (stateEndValue s c).2 = .scanObjectValue ∧ (stateEndValue s c).1.atKey := by
  obtain ⟨st, et, ps, er⟩ := s
  simp only at hps
  subst hps
  by_cases h44 : c = 44
  · subst h44
    simp [stateEndValue, isSpace, scanner.atKey]
  · by_cases h125 : c = 125
    · exfalso
      apply hnd
      subst h125
      simp [stateEndValue, isSpace, scanner.popParseState, scanner.dead]
    · simp [stateEndValue, hsp, h44, h125, scanner.error] at hop

/-- The optional `scanWhile` after a literal or a skipped value. -/
theorem skipSpace_endValue (T' : Bytes) (s1 : scanner) (hps : s1.parseState ≠ [])
    (d : decodeState) (a : Nat) (hscan : d.scan = (stateEndValue s1 a).1)
    (hop : d.opcode = (stateEndValue s1 a).2) (hne : d.opcode ≠ .scanError)
    (hA : Ahead (34 :: T') d.scan d.rest) :
    ∃ b d', d' = (if d.opcode = .scanSkipSpace then d.scanWhile .scanSkipSpace else d) ∧
      isSpace b = false ∧ d'.scan = (stateEndValue s1 b).1 ∧
      d'.opcode = (stateEndValue s1 b).2 ∧ d'.opcode ≠ .scanError ∧
      Ahead (34 :: T') d'.scan d'.rest ∧ d'.savedError = d.savedError := by
  by_cases hsp : isSpace a = true
  · have he := endValue_space s1 a hps hsp
    rw [he] at hscan hop
    simp only at hscan hop
    rw [if_pos hop]
    have hk : ¬ ({ s1 with step := .stateEndValue } : scanner).atKey :=
      not_atKey_step s1 _ (by decide) (by decide)
    have hdo : ∀ w, ({ s1 with step := .stateEndValue } : scanner).doStep w =
        stateEndValue s1 w := by
      intro w
      simp only [scanner.doStep, stateEndValue_step]
    have h1 : ∀ w, isSpace w = true → ({ s1 with step := .stateEndValue } : scanner).doStep w =
        ({ s1 with step := .stateEndValue }, .scanSkipSpace) := by
      intro w hw
      rw [hdo, endValue_space s1 w hps hw]
    have h2 : ∀ b, isSpace b = false →
        (({ s1 with step := .stateEndValue } : scanner).doStep b).2 ≠ .scanSkipSpace := by
      intro b hb
      rw [hdo]
      exact endValue_nonspace s1 b hps hb
    rw [hscan] at hA
    obtain ⟨b, rest1, k1, k2, _, k4, k5⟩ :=
      scanWhileLoop_stable T' _ hk h1 h2 d.rest d.cur hA
    rw [hdo] at k2 k4 k5
    refine ⟨b, _, rfl, k1, ?_, ?_, ?_, ?_, rfl⟩
    · simp only [decodeState.scanWhile, hscan, k2]
    · simp only [decodeState.scanWhile, hscan, k2]
    · simp only [decodeState.scanWhile, hscan, k2]
      exact k4
    · simp only [decodeState.scanWhile, hscan, k2]
      exact k5
  · have hsp' : isSpace a = false := by simpa using hsp
    have hns : d.opcode ≠ .scanSkipSpace := by
      rw [hop]
      exact endValue_nonspace s1 a hps hsp'
    rw [if_neg hns]
    exact ⟨a, d, rfl, hsp', hscan, hop, hne, hA, rfl⟩

/-- The byte that begins a value. -/
theorem beginValue_cases (s : scanner) (b : Nat) (hsp : isSpace b = false)
    (hop : (stateBeginValue s b).2 ≠ .scanError) :
    (((stateBeginValue s b).2 = .scanBeginObject ∨ (stateBeginValue s b).2 = .scanBeginArray) ∧
        ∃ x, (stateBeginValue s b).1.parseState = x :: s.parseState) ∨
      ((stateBeginValue s b).2 = .scanBeginLiteral ∧
        (stateBeginValue s b).1.parseState = s.parseState ∧
        literalStart b (stateBeginValue s b).1.step) := by
  have hpush : ∀ (s0 : scanner) (x : ParseState) (op : Op),
      (s0.pushParseState b x op).2 ≠ .scanError →
      (s0.pushParseState b x op).2 = op ∧
        (s0.pushParseState b x op).1.parseState = x :: s0.parseState := by
    intro s0 x op h
    unfold scanner.pushParseState at h ⊢
    simp only at h ⊢
    by_cases hl : (x :: s0.parseState).length ≤ maxNestingDepth
    · rw [if_pos hl]
      exact ⟨rfl, rfl⟩
    · rw [if_neg hl] at h
      exact absurd rfl h
  unfold stateBeginValue at hop ⊢
  rw [if_neg (by simp [hsp])] at hop ⊢
  by_cases h1 : b = 123
  · rw [if_pos h1] at hop ⊢
    obtain ⟨e1, e2⟩ := hpush _ _ _ hop
    exact Or.inl ⟨Or.inl e1, _, e2⟩
  rw [if_neg h1] at hop ⊢
  by_cases h2 : b = 91
  · rw [if_pos h2] at hop ⊢
    obtain ⟨e1, e2⟩ := hpush _ _ _ hop
    exact Or.inl ⟨Or.inr e1, _, e2⟩
  rw [if_neg h2] at hop ⊢
  right
  by_cases h3 : b = 34
  · rw [if_pos h3]
    exact ⟨rfl, rfl, Or.inl ⟨h3, rfl⟩⟩
  rw [if_neg h3] at hop ⊢
  by_cases h4 : b = 45
  · rw [if_pos h4]
    exact ⟨rfl, rfl, Or.inr (Or.inl ⟨h4, rfl⟩)⟩
  rw [if_neg h4] at hop ⊢
  by_cases h5 : b = 48
  · rw [if_pos h5]
    exact ⟨rfl, rfl, Or.inr (Or.inr (Or.inl ⟨h5, rfl⟩))⟩
  rw [if_neg h5] at hop ⊢
  by_cases h6 : b = 116
  · rw [if_pos h6]
    exact ⟨rfl, rfl, Or.inr (Or.inr (Or.inr (Or.inr (Or.inl ⟨h6, rfl⟩))))⟩
  rw [if_neg h6] at hop ⊢
  by_cases h7 : b = 102
  · rw [if_pos h7]
    exact ⟨rfl, rfl, Or.inr (Or.inr (Or.inr (Or.inr (Or.inr (Or.inl ⟨h7, rfl⟩)))))⟩
  rw [if_neg h7] at hop ⊢
  by_cases h8 : b = 110
  · rw [if_pos h8]
    exact ⟨rfl, rfl, Or.inr (Or.inr (Or.inr (Or.inr (Or.inr (Or.inr ⟨h8, rfl⟩)))))⟩
  rw [if_neg h8] at hop ⊢
  by_cases h9 : 49 ≤ b ∧ b ≤ 57
  · rw [if_pos h9]
    exact ⟨rfl, rfl, Or.inr (Or.inr (Or.inr (Or.inl ⟨h9.1, h9.2, rfl⟩)))⟩
  rw [if_neg h9] at hop
  exact absurd rfl hop

end json
end CherevanAuth

namespace CherevanAuth
namespace json

/-! ## A member before the one that names `redirect_url` -/

theorem saveError_scan (d : decodeState) (e : GoError) :
    (d.saveError e).scan = d.scan ∧ (d.saveError e).rest = d.rest ∧
      (d.saveError e).opcode = d.opcode ∧ (d.saveError e).cur = d.cur := by
  unfold decodeState.saveError
  split_ifs <;> exact ⟨rfl, rfl, rfl, rfl⟩

theorem literalStore_scan {d d' : decodeState} {c : Nat} {tail : Bytes} {target : Target}
    (h : d.literalStore c tail target = some d') :
    d'.scan = d.scan ∧ d'.rest = d.rest ∧ d'.opcode = d.opcode := by
  have hs := fun e => saveError_scan d e
  unfold decodeState.literalStore at h
  by_cases h1 : c = 110
  · rw [if_pos h1] at h
    cases h
    exact ⟨rfl, rfl, rfl⟩
  · rw [if_neg h1] at h
    by_cases h2 : c = 116 ∨ c = 102
    · rw [if_pos h2] at h
      cases h
      exact ⟨(hs _).1, (hs _).2.1, (hs _).2.2.1⟩
    · rw [if_neg h2] at h
      by_cases h3 : c = 34
      · rw [if_pos h3] at h
        cases hu : unquoteBytes (c :: tail) with
        | none =>
          rw [hu] at h
          cases h
        | some s =>
          rw [hu] at h
          simp only at h
          split_ifs at h
          · cases h
            exact ⟨rfl, rfl, rfl⟩
          · cases h
            exact ⟨(hs _).1, (hs _).2.1, (hs _).2.2.1⟩
      · rw [if_neg h3] at h
        by_cases h4 : c ≠ 45 ∧ ¬ isDigit c
        · rw [if_pos h4] at h
          cases h
        · rw [if_neg h4] at h
          cases h
          exact ⟨(hs _).1, (hs _).2.1, (hs _).2.2.1⟩

theorem beginValue_nonspace (s : scanner) (b : Nat) (hsp : isSpace b = false) :
    (stateBeginValue s b).2 ≠ .scanSkipSpace := by
  unfold stateBeginValue
  simp only [hsp, Bool.false_eq_true, if_false]
  unfold scanner.pushParseState scanner.error
  simp only
  split_ifs <;> simp

/-- An array or an object that is the value of a member is skipped up to the byte
after it. -/
theorem skip_ahead (T' : Bytes) (d1 d4 : decodeState) (x : ParseState)
    (hps : d1.scan.parseState = [x, .parseObjectValue])
    (hA : Ahead (34 :: T') d1.scan d1.rest)
    (h : d1.skip.map decodeState.scanNext = some d4) :
    ∃ sX a, sX.parseState = [.parseObjectValue] ∧ d4.scan = (stateEndValue sX a).1 ∧
      d4.opcode = (stateEndValue sX a).2 ∧ d4.opcode ≠ .scanError ∧
      Ahead (34 :: T') d4.scan d4.rest := by
  simp only [Option.map_eq_some'] at h
  obtain ⟨d2, h2, rfl⟩ := h
  have hlen : d1.scan.parseState.length = 2 := by
    rw [hps]
    rfl
  unfold decodeState.skip at h2
  rw [hlen] at h2
  simp only [Option.map_eq_some'] at h2
  obtain ⟨⟨s2, op2, c2, rest2⟩, hr, rfl⟩ := h2
  have hin : d1.scan.inMemberValue := ⟨[x], by simp, by rw [hps]; rfl⟩
  obtain ⟨⟨hl1, hl2⟩, hA2⟩ := skipLoop_ahead T' d1.rest d1.scan _ hin hA hr
  simp only at hl1 hl2 hA2
  rcases rest2 with _ | ⟨c, rest3⟩
  · exact absurd rfl (ahead_ne_nil hA2)
  obtain ⟨hop, hA3⟩ := ahead_step hA2 (Or.inl (not_atKey_of_step (by rw [hl2]; decide)
    (by rw [hl2]; decide)))
  have hdo : s2.doStep c = stateEndValue s2 c := by
    simp only [scanner.doStep, hl2]
  rw [hdo] at hop hA3
  refine ⟨s2, c, hl1, ?_, ?_, ?_, ?_⟩
  · simp only [decodeState.scanNext, hdo]
  · simp only [decodeState.scanNext, hdo]
  · simp only [decodeState.scanNext, hdo]
    exact hop
  · simp only [decodeState.scanNext, hdo]
    exact hA3

/-- The value of a member before the one that names `redirect_url`: the decoder
comes out of it where the scanner does. -/
theorem valueMember_ahead (T' : Bytes) (d : decodeState) (target : Target) (b : Nat)
    (s : scanner) (hs : s.parseState = [.parseObjectValue])
    (hscan : d.scan = (stateBeginValue s b).1) (hop : d.opcode = (stateBeginValue s b).2)
    (hcur : d.cur = b) (hsp : isSpace b = false) (hne : d.opcode ≠ .scanError)
    (hA : Ahead (34 :: T') d.scan d.rest) (d4 : decodeState)
    (h : d.valueMember target = some d4) :
    ∃ sX a, sX.parseState = [.parseObjectValue] ∧ d4.scan = (stateEndValue sX a).1 ∧
      d4.opcode = (stateEndValue sX a).2 ∧ d4.opcode ≠ .scanError ∧
      Ahead (34 :: T') d4.scan d4.rest := by
  have hne' : (stateBeginValue s b).2 ≠ .scanError := by
    rw [← hop]
    exact hne
  unfold decodeState.valueMember at h
  rcases beginValue_cases s b hsp hne' with ⟨hoa, x, hx⟩ | ⟨hlit, hps', hstart⟩
  · have hps2 : d.scan.parseState = [x, .parseObjectValue] := by
      rw [hscan, hx, hs]
    have hmap : ∃ d1 : decodeState, d1.scan = d.scan ∧ d1.rest = d.rest ∧
        d1.skip.map decodeState.scanNext = some d4 := by
      rcases hoa with ho | ho
      · rw [← hop] at ho
        simp only [ho] at h
        split_ifs at h
        · exact ⟨_, rfl, rfl, h⟩
        · exact ⟨_, (saveError_scan _ _).1, (saveError_scan _ _).2.1, h⟩
      · rw [← hop] at ho
        simp only [ho] at h
        split_ifs at h
        · exact ⟨_, rfl, rfl, h⟩
        · exact ⟨_, (saveError_scan _ _).1, (saveError_scan _ _).2.1, h⟩
    obtain ⟨d1, e1, e2, hd1⟩ := hmap
    exact skip_ahead T' d1 d4 x (by rw [e1]; exact hps2) (by rw [e1, e2]; exact hA) hd1
  · rw [← hop] at hlit
    simp only [hlit] at h
    have hps2 : d.scan.parseState = [.parseObjectValue] := by
      rw [hscan, hps', hs]
    have hl : literalStart d.cur d.scan.step := by
      rw [hcur, hscan]
      exact hstart
    obtain ⟨item, a0, rest2, heq, h2, h3⟩ :=
      rescanLiteral_ahead T' d (by rw [hps2]; simp) hl hA
    rw [heq] at h
    simp only at h
    by_cases ht : target = .invalid
    · rw [if_pos ht] at h
      cases h
      exact ⟨d.scan, a0, hps2, rfl, rfl, h2, h3⟩
    · rw [if_neg ht] at h
      obtain ⟨k1, k2, k3⟩ := literalStore_scan h
      refine ⟨d.scan, a0, hps2, k1, k3, ?_, ?_⟩
      · rw [k3]
        exact h2
      · rw [k1, k2]
        exact h3

/-- The part of an iteration after a key that is before the one that names
`redirect_url`: the decoder reaches the next key. -/
theorem memberValue_ahead (T' : Bytes) (k : decodeState → Option decodeState) (key : Bytes)
    (s1 : scanner) (hs1 : s1.parseState = [.parseObjectKey]) (d2 : decodeState) (a : Nat)
    (hscan : d2.scan = (stateEndValue s1 a).1) (hop : d2.opcode = (stateEndValue s1 a).2)
    (hne : d2.opcode ≠ .scanError) (hA : Ahead (34 :: T') d2.scan d2.rest)
    (hk : ∀ d5 : decodeState, d5.scan.atKey → Ahead (34 :: T') d5.scan d5.rest →
      ∀ d', k d5 = some d' → d'.savedError ≠ none)
    (d' : decodeState) (h : memberValue k key d2 = some d') : d'.savedError ≠ none := by
  obtain ⟨b, d3, hd3, hb, e1, e2, e3, e4, _⟩ :=
    skipSpace_endValue T' s1 (by rw [hs1]; simp) d2 a hscan hop hne hA
  obtain ⟨k1, k2, k3⟩ := endValue_key s1 b hs1 hb (by rw [← e2]; exact e3)
  have hps3 : d3.scan.parseState = [.parseObjectValue] := by rw [e1]; exact k2
  have hst3 : d3.scan.step = .stateBeginValue := by rw [e1]; exact k3
  have hop3 : d3.opcode = .scanObjectKey := by rw [e2]; exact k1
  unfold memberValue at h
  simp only at h
  rw [← hd3, if_neg (not_not.mpr hop3)] at h
  have hdo : ∀ w, d3.scan.doStep w = stateBeginValue d3.scan w := by
    intro w
    simp only [scanner.doStep, hst3]
  have hsp' : ∀ w, isSpace w = true → d3.scan.doStep w = (d3.scan, .scanSkipSpace) := by
    intro w hw
    rw [hdo]
    simp [stateBeginValue, hw]
  have hns' : ∀ w, isSpace w = false → (d3.scan.doStep w).2 ≠ .scanSkipSpace := by
    intro w hw
    rw [hdo]
    exact beginValue_nonspace _ w hw
  obtain ⟨b', rest1, m1, m2, _, m4, m5⟩ := scanWhileLoop_stable T' d3.scan
    (not_atKey_of_step (by rw [hst3]; decide) (by rw [hst3]; decide)) hsp' hns' d3.rest d3.cur e4
  rw [hdo] at m2 m4 m5
  cases hv : (d3.scanWhile .scanSkipSpace).valueMember
      (if matchesField key then Target.field else Target.invalid) with
  | none =>
    rw [hv] at h
    cases h
  | some d4 =>
    rw [hv] at h
    simp only at h
    obtain ⟨sX, a', n1, n2, n3, n4, n5⟩ := valueMember_ahead T' (d3.scanWhile .scanSkipSpace) _ b'
      d3.scan hps3 (by simp only [decodeState.scanWhile, m2])
      (by simp only [decodeState.scanWhile, m2]) (by simp only [decodeState.scanWhile, m2]) m1
      (by simp only [decodeState.scanWhile, m2]; exact m4)
      (by simp only [decodeState.scanWhile, m2]; exact m5) d4 hv
    obtain ⟨b2, d5, hd5, hb2, f1, f2, f3, f4, _⟩ :=
      skipSpace_endValue T' sX (by rw [n1]; simp) d4 a' n2 n3 n4 n5
    have hnd : ¬ (stateEndValue sX b2).1.dead := by
      rw [← f1]
      exact ahead_not_dead f4
    obtain ⟨g1, g2⟩ := endValue_value sX b2 n1 hb2 (by rw [← f2]; exact f3) hnd
    have hop5 : d5.opcode = .scanObjectValue := by rw [f2]; exact g1
    unfold memberEnd at h
    simp only at h
    rw [← hd5, if_neg (by rw [hop5]; decide), if_neg (not_not.mpr hop5)] at h
    exact hk d5 (by rw [f1]; exact g2) f4 d' h

/-- An iteration of the loop at a key that is before the one that names
`redirect_url`. -/
theorem member_ahead (T' : Bytes) (k : decodeState → Option decodeState) (d1 : decodeState)
    (hop : d1.opcode = .scanBeginLiteral) (hcur : d1.cur = 34)
    (hps : d1.scan.parseState = [.parseObjectKey]) (hst : d1.scan.step = .stateInString)
    (hA : Ahead (34 :: T') d1.scan d1.rest)
    (hk : ∀ d5 : decodeState, d5.scan.atKey → Ahead (34 :: T') d5.scan d5.rest →
      ∀ d', k d5 = some d' → d'.savedError ≠ none)
    (d' : decodeState) (h : member k d1 = some d') : d'.savedError ≠ none := by
  unfold member at h
  rw [if_neg (by rw [hop]; decide), if_neg (not_not.mpr hop)] at h
  obtain ⟨item, a0, rest2, heq, h2, h3⟩ := rescanLiteral_ahead T' d1 (by rw [hps]; simp)
    (Or.inl ⟨hcur, hst⟩) hA
  rw [heq] at h
  simp only at h
  cases hu : unquoteBytes item with
  | none =>
    rw [hu] at h
    cases h
  | some key =>
    rw [hu] at h
    simp only at h
    exact memberValue_ahead T' k key d1.scan hps _ a0 rfl rfl h2 h3 hk d' h

end json
end CherevanAuth

namespace CherevanAuth
namespace json
open utf8

/-! ## The key that names `redirect_url` is one string literal -/

theorem rescanString_closed {body : Bytes} (h : Closed body) (t : Bytes) :
    rescanString (body ++ 34 :: t) = (body ++ [34], t) := by
  induction h with
  | nil => exact rescanString_quote t
  | plain c b h1 h2 _ ih =>
    rw [List.cons_append, rescanString_cons_plain _ _ h1 h2, ih]
    rfl
  | esc e b _ ih =>
    rw [List.cons_append, List.cons_append, rescanString_esc, ih]
    rfl

theorem closed_append {p : Bytes} (hp : ∀ x ∈ p, x ≠ 34 ∧ x ≠ 92) {t : Bytes}
    (h : Closed t) : Closed (p ++ t) := by
  induction p with
  | nil => exact h
  | cons x p ih =>
    have hx := hp x (by simp)
    exact Closed.plain x (p ++ t) hx.1 hx.2 (ih (fun y hy => hp y (by simp [hy])))

theorem hexValue_some {a x : Nat} (h : hexValue a = some x) : a ≠ 34 ∧ a ≠ 92 := by
  unfold hexValue at h
  split_ifs at h <;> omega

theorem getu4_some {s : Bytes} {r : Nat} (h : getu4 s = some r) :
    ∃ a b c d t, s = 92 :: 117 :: a :: b :: c :: d :: t ∧ (a ≠ 34 ∧ a ≠ 92) ∧
      (b ≠ 34 ∧ b ≠ 92) ∧ (c ≠ 34 ∧ c ≠ 92) ∧ (d ≠ 34 ∧ d ≠ 92) := by
  unfold getu4 at h
  split at h
  · rename_i a b c d t
    split at h
    · rename_i va vb vc vd ha hb hc hd
      exact ⟨a, b, c, d, t, rfl, hexValue_some ha, hexValue_some hb, hexValue_some hc,
        hexValue_some hd⟩
    · cases h
  · cases h

theorem closed_u4 {a b c d : Nat} {t : Bytes} (ha : a ≠ 34 ∧ a ≠ 92) (hb : b ≠ 34 ∧ b ≠ 92)
    (hc : c ≠ 34 ∧ c ≠ 92) (hd : d ≠ 34 ∧ d ≠ 92) (h : Closed t) :
    Closed (92 :: 117 :: a :: b :: c :: d :: t) :=
  Closed.esc 117 _ (Closed.plain a _ ha.1 ha.2 (Closed.plain b _ hb.1 hb.2
    (Closed.plain c _ hc.1 hc.2 (Closed.plain d _ hd.1 hd.2 h))))

theorem map_some {α β : Type} {f : α → β} {o : Option α} {r : β} (h : o.map f = some r) :
    ∃ x, o = some x := by
  cases o with
  | none => cases h
  | some x => exact ⟨x, rfl⟩

/-- A text that the second loop of `unquoteBytes` accepts has no `"` that is not
escaped and does not end inside an escape. -/
theorem unquoteLoop_closed : ∀ (fuel : Nat) (q r : Bytes), unquoteLoop fuel q = some r →
    Closed q := by
  intro fuel
  induction fuel with
  | zero =>
    intro q r h
    simp only [unquoteLoop] at h
    split_ifs at h with hq
    rw [hq]
    exact Closed.nil
  | succ fuel ih =>
    intro q r h
    rcases q with _ | ⟨c, rest⟩
    · exact Closed.nil
    simp only [unquoteLoop] at h
    by_cases h92 : c = 92
    · subst h92
      rw [if_pos rfl] at h
      rcases rest with _ | ⟨e, rest1⟩
      · cases h
      simp only at h
      have hsimple : ∀ {f : Bytes → Bytes}, (unquoteLoop fuel rest1).map f = some r →
          Closed (92 :: e :: rest1) := by
        intro f hf
        obtain ⟨x, hx⟩ := map_some hf
        exact Closed.esc e rest1 (ih _ _ hx)
      by_cases e1 : e = 34 ∨ e = 92 ∨ e = 47 ∨ e = 39
      · rw [if_pos e1] at h
        exact hsimple h
      rw [if_neg e1] at h
      by_cases e2 : e = 98
      · rw [if_pos e2] at h
        exact hsimple h
      rw [if_neg e2] at h
      by_cases e3 : e = 102
      · rw [if_pos e3] at h
        exact hsimple h
      rw [if_neg e3] at h
      by_cases e4 : e = 110
      · rw [if_pos e4] at h
        exact hsimple h
      rw [if_neg e4] at h
      by_cases e5 : e = 114
      · rw [if_pos e5] at h
        exact hsimple h
      rw [if_neg e5] at h
      by_cases e6 : e = 116
      · rw [if_pos e6] at h
        exact hsimple h
      rw [if_neg e6] at h
      by_cases e7 : e = 117
      · rw [if_pos e7] at h
        subst e7
        cases hg : getu4 (92 :: 117 :: rest1) with
        | none =>
          rw [hg] at h
          cases h
        | some rr =>
          rw [hg] at h
          simp only at h
          obtain ⟨a, b, c, d, t, hs, ha, hb, hc, hd⟩ := getu4_some hg
          simp only [List.cons.injEq, true_and] at hs
          subst hs
          simp only [List.drop_succ_cons, List.drop_zero] at h
          by_cases hsur : isSurrogate rr = true
          · rw [if_pos hsur] at h
            by_cases hdec : utf16DecodeRune rr (getu4 t) ≠ 0xFFFD
            · rw [if_pos hdec] at h
              obtain ⟨x, hx⟩ := map_some h
              cases hg2 : getu4 t with
              | none =>
                rw [hg2] at hdec
                exact absurd rfl hdec
              | some r2 =>
                obtain ⟨a', b', c', d', t', hs', ha', hb', hc', hd'⟩ := getu4_some hg2
                subst hs'
                simp only [List.drop_succ_cons, List.drop_zero] at hx
                exact closed_u4 ha hb hc hd (closed_u4 ha' hb' hc' hd' (ih _ _ hx))
            · rw [if_neg hdec] at h
              obtain ⟨x, hx⟩ := map_some h
              exact closed_u4 ha hb hc hd (ih _ _ hx)
          · rw [if_neg hsur] at h
            obtain ⟨x, hx⟩ := map_some h
            exact closed_u4 ha hb hc hd (ih _ _ hx)
      · rw [if_neg e7] at h
        cases h
    · rw [if_neg h92] at h
      by_cases hq : c = 34 ∨ c < 32
      · rw [if_pos hq] at h
        cases h
      rw [if_neg hq] at h
      have h34 : c ≠ 34 := fun hc => hq (Or.inl hc)
      by_cases hb : c < 0x80
      · rw [if_pos hb] at h
        obtain ⟨x, hx⟩ := map_some h
        exact Closed.plain c rest h34 h92 (ih _ _ hx)
      · rw [if_neg hb] at h
        cases hd : DecodeRune (c :: rest) with
        | mk rr size =>
          rw [hd] at h
          simp only at h
          obtain ⟨x, hx⟩ := map_some h
          have hcl := ih _ _ hx
          by_cases hinv : rr = RuneError ∧ size = 1
          · rw [hinv.2] at hcl
            simp only [Nat.sub_self, List.drop_zero] at hcl
            exact Closed.plain c rest h34 h92 hcl
          · obtain ⟨seq, tail, hsplit, hlen', hrune⟩ := DecodeRune_multi hb hd hinv
            obtain ⟨_, hdrop⟩ := IsRune.split hsplit hlen' hrune.1
            rw [hdrop] at hcl
            rw [hsplit]
            refine closed_append ?_ hcl
            intro y hy
            have := (hrune.2.1 y hy).1
            omega

/-- A key that names the field is a quoted text in which every `"` is escaped. -/
theorem namesField_closed {keyText : Bytes} (h : namesField keyText = true) :
    ∃ body key, keyText = 34 :: (body ++ [34]) ∧ Closed body ∧
      unquoteBytes keyText = some key ∧ matchesField key = true := by
  unfold namesField at h
  cases hu : unquoteBytes keyText with
  | none =>
    rw [hu] at h
    cases h
  | some key =>
    rw [hu] at h
    simp only at h
    have hu0 := hu
    unfold unquoteBytes at hu
    by_cases hc : keyText.length < 2 ∨ keyText.head? ≠ some 34 ∨ keyText.getLast? ≠ some 34
    · rw [if_pos hc] at hu
      cases hu
    rw [if_neg hc] at hu
    simp only [not_or, not_lt, ne_eq, not_not] at hc
    obtain ⟨hl, hh, hlast⟩ := hc
    rcases keyText with _ | ⟨q, tail⟩
    · simp at hl
    simp only [List.head?_cons, Option.some.injEq] at hh
    subst hh
    have htne : tail ≠ [] := by
      intro ht
      subst ht
      simp at hl
    have hlast' : tail.getLast? = some 34 := by
      rcases tail with _ | ⟨t0, tail'⟩
      · exact absurd rfl htne
      · rw [List.getLast?_cons_cons] at hlast
        exact hlast
    have hsplit : tail.dropLast ++ [34] = tail :=
      List.dropLast_append_getLast? 34 (by rw [hlast']; rfl)
    refine ⟨tail.dropLast, key, by rw [hsplit], ?_, rfl, h⟩
    simp only [List.tail_cons] at hu
    have key1 := unquotePrefix_loop tail.dropLast.length tail.dropLast (le_refl _)
      (unquotePrefix tail.dropLast.length tail.dropLast).2.length tail.dropLast.length
      (le_refl _) (le_refl _)
    by_cases hq : (unquotePrefix tail.dropLast.length tail.dropLast).2 = []
    · rw [hq, unquoteLoop_nil] at key1
      simp only [Option.map_some'] at key1
      exact unquoteLoop_closed _ _ _ key1.symm
    · rw [if_neg hq] at hu
      rw [hu] at key1
      exact unquoteLoop_closed _ _ _ key1.symm

end json
end CherevanAuth

namespace CherevanAuth
namespace json

/-! ## The member that names `redirect_url`, and the whole object -/

theorem objectLoop_succ (fuel : Nat) (d : decodeState) :
    objectLoop (fuel + 1) d = member (objectLoop fuel) (d.scanWhile .scanSkipSpace) := rfl

theorem endValue_colon (s : scanner) (hps : s.parseState = [.parseObjectKey]) :
    stateEndValue s 58 =
      ({ s with parseState := [.parseObjectValue], step := .stateBeginValue }, .scanObjectKey) := by
  obtain ⟨st, et, ps, er⟩ := s
  simp only at hps
  subst hps
  simp [stateEndValue, isSpace]

/-- A `scanWhile` over white space that ends at the byte `b`. -/
theorem scanWhileLoop_spaces (s : scanner) (b : Nat) (r : Bytes)
    (hsp : ∀ w, isSpace w = true → s.doStep w = (s, .scanSkipSpace))
    (hb : (s.doStep b).2 ≠ .scanSkipSpace) :
    ∀ (ws : Bytes) (cur : Nat), (∀ w ∈ ws, isSpace w = true) →
    scanWhileLoop .scanSkipSpace s cur (ws ++ b :: r) = ((s.doStep b).1, (s.doStep b).2, b, r) := by
  intro ws
  induction ws with
  | nil =>
    intro cur _
    simp only [List.nil_append, scanWhileLoop, ne_eq, hb, not_false_eq_true, if_true]
  | cons w ws ih =>
    intro cur hws
    have hw := hsp w (hws w (by simp))
    simp only [List.cons_append, scanWhileLoop, hw, ne_eq, not_true_eq_false, if_false]
    exact ih w (fun x hx => hws x (by simp [hx]))

/-- After the key that names `redirect_url`: white space and the colon. -/
theorem colon_here (s1 : scanner) (hps : s1.parseState = [.parseObjectKey]) (ws v : Bytes)
    (hws : ∀ w ∈ ws, isSpace w = true) (d2 : decodeState) (a0 : Nat) (rest2 : Bytes)
    (hx : ws ++ 58 :: v = a0 :: rest2) (hscan : d2.scan = (stateEndValue s1 a0).1)
    (hop : d2.opcode = (stateEndValue s1 a0).2) (hrest : d2.rest = rest2) :
    ∃ d3, d3 = (if d2.opcode = .scanSkipSpace then d2.scanWhile .scanSkipSpace else d2) ∧
      d3.opcode = .scanObjectKey ∧ d3.scan.step = .stateBeginValue ∧ d3.rest = v := by
  have hne : s1.parseState ≠ [] := by rw [hps]; simp
  rcases ws with _ | ⟨w, ws⟩
  · simp only [List.nil_append, List.cons.injEq] at hx
    obtain ⟨rfl, rfl⟩ := hx
    rw [endValue_colon s1 hps] at hscan hop
    simp only at hscan hop
    refine ⟨d2, ?_, hop, by rw [hscan], hrest⟩
    rw [if_neg (by rw [hop]; decide)]
  · simp only [List.cons_append, List.cons.injEq] at hx
    obtain ⟨rfl, rfl⟩ := hx
    have hw := hws w (by simp)
    rw [endValue_space s1 w hne hw] at hscan hop
    simp only at hscan hop
    have hdo : ∀ x, ({ s1 with step := .stateEndValue } : scanner).doStep x =
        stateEndValue s1 x := by
      intro x
      simp only [scanner.doStep, stateEndValue_step]
    have hsp : ∀ x, isSpace x = true → ({ s1 with step := .stateEndValue } : scanner).doStep x =
        ({ s1 with step := .stateEndValue }, .scanSkipSpace) := by
      intro x hxs
      rw [hdo, endValue_space s1 x hne hxs]
    have hb : (({ s1 with step := .stateEndValue } : scanner).doStep 58).2 ≠ .scanSkipSpace := by
      rw [hdo, endValue_colon s1 hps]
      simp
    have hloop := scanWhileLoop_spaces _ 58 v hsp hb ws d2.cur
      (fun x hx => hws x (by simp [hx]))
    rw [hdo, endValue_colon s1 hps] at hloop
    refine ⟨_, rfl, ?_, ?_, ?_⟩
    · rw [if_pos hop]
      simp only [decodeState.scanWhile, hscan, hrest, hloop]
    · rw [if_pos hop]
      simp only [decodeState.scanWhile, hscan, hrest, hloop]
    · rw [if_pos hop]
      simp only [decodeState.scanWhile, hscan, hrest, hloop]

/-- The end of an iteration keeps an error that is saved. -/
theorem memberEnd_persist (k : decodeState → Option decodeState)
    (hk : ∀ d5 d', d5.savedError ≠ none → k d5 = some d' → d'.savedError ≠ none)
    (d4 d' : decodeState) (h4 : d4.savedError ≠ none) (h : memberEnd k d4 = some d') :
    d'.savedError ≠ none := by
  unfold memberEnd at h
  simp only at h
  have h5 : (if d4.opcode = .scanSkipSpace then d4.scanWhile .scanSkipSpace
      else d4).savedError ≠ none := by
    split_ifs
    · exact h4
    · exact h4
  by_cases e1 : (if d4.opcode = .scanSkipSpace then d4.scanWhile .scanSkipSpace
      else d4).opcode = .scanEndObject
  · rw [if_pos e1] at h
    cases h
    exact h5
  · rw [if_neg e1] at h
    by_cases e2 : (if d4.opcode = .scanSkipSpace then d4.scanWhile .scanSkipSpace
        else d4).opcode ≠ .scanObjectValue
    · rw [if_pos e2] at h
      cases h
    · rw [if_neg e2] at h
      exact hk _ _ h5 h

/-- An iteration of the loop at the member that names `redirect_url`, with a
value that is neither a string nor `null`: an error is saved. -/
theorem member_here (k : decodeState → Option decodeState) (d1 : decodeState)
    (body ws v key : Bytes) (c : Nat) (hop : d1.opcode = .scanBeginLiteral)
    (hcur : d1.cur = 34) (hps : d1.scan.parseState = [.parseObjectKey])
    (hrest : d1.rest = body ++ 34 :: (ws ++ 58 :: v)) (hbody : Closed body)
    (hkey : unquoteBytes (34 :: (body ++ [34])) = some key) (hm : matchesField key = true)
    (hws : ∀ w ∈ ws, isSpace w = true) (hfirst : firstByte v = some c) (h34 : c ≠ 34)
    (h110 : c ≠ 110)
    (hk : ∀ d5 d', d5.savedError ≠ none → k d5 = some d' → d'.savedError ≠ none)
    (d' : decodeState) (h : member k d1 = some d') : d'.savedError ≠ none := by
  unfold member at h
  rw [if_neg (by rw [hop]; decide), if_neg (not_not.mpr hop)] at h
  have hre : rescanString d1.rest = (body ++ [34], ws ++ 58 :: v) := by
    rw [hrest]
    exact rescanString_closed hbody _
  obtain ⟨a0, rest2, hx⟩ : ∃ a0 rest2, ws ++ 58 :: v = a0 :: rest2 := by
    rcases ws with _ | ⟨w, ws⟩
    · exact ⟨58, v, rfl⟩
    · exact ⟨w, ws ++ 58 :: v, rfl⟩
  have hlit := rescanLiteral_of_string d1 hcur a0 rest2 (by rw [hre]; exact hx)
  rw [hre, hcur] at hlit
  rw [hlit] at h
  simp only [hkey] at h
  obtain ⟨d3, hd3, k1, k2, k3⟩ := colon_here d1.scan hps ws v hws
    { d1 with scan := (stateEndValue d1.scan a0).1, opcode := (stateEndValue d1.scan a0).2,
              cur := a0, rest := rest2 } a0 rest2 hx rfl rfl rfl
  unfold memberValue at h
  simp only at h
  rw [← hd3, if_neg (not_not.mpr k1)] at h
  simp only [hm, if_true] at h
  obtain ⟨rest3, hloop⟩ := scanWhileLoop_firstByte d3.scan k2 v d3.cur c hfirst
  cases hv : (d3.scanWhile .scanSkipSpace).valueMember Target.field with
  | none =>
    rw [hv] at h
    cases h
  | some d4 =>
    rw [hv] at h
    simp only at h
    have hc : (d3.scanWhile .scanSkipSpace).cur = c := by
      simp only [decodeState.scanWhile, k3, hloop]
    have h4 : d4.savedError ≠ none :=
      valueMember_field (by rw [hc]; exact h110) (by rw [hc]; exact h34) hv
    exact memberEnd_persist k hk d4 d' h4 h

/-- The loop over the members of an object that has, further on, a member that
names `redirect_url` with a value that is neither a string nor `null`: an
error is saved. -/
theorem objectLoop_ahead (body ws v key : Bytes) (c : Nat) (hbody : Closed body)
    (hkey : unquoteBytes (34 :: (body ++ [34])) = some key) (hm : matchesField key = true)
    (hws : ∀ w ∈ ws, isSpace w = true) (hfirst : firstByte v = some c) (h34 : c ≠ 34)
    (h110 : c ≠ 110) : ∀ (fuel : Nat) (d : decodeState), d.scan.atKey →
    Ahead (34 :: (body ++ 34 :: (ws ++ 58 :: v))) d.scan d.rest →
    ∀ d', objectLoop fuel d = some d' → d'.savedError ≠ none := by
  intro fuel
  induction fuel with
  | zero =>
    intro d _ _ d' h
    simp [objectLoop] at h
  | succ fuel ih =>
    intro d hK hA d' h
    rw [objectLoop_succ] at h
    obtain ⟨rest1, heq, _, hcase⟩ :=
      scanWhileLoop_atKey (body ++ 34 :: (ws ++ 58 :: v)) d.rest d.scan d.cur hK hA
    have e1 : (d.scanWhile .scanSkipSpace).opcode = .scanBeginLiteral := by
      simp only [decodeState.scanWhile, heq]
    have e2 : (d.scanWhile .scanSkipSpace).cur = 34 := by
      simp only [decodeState.scanWhile, heq]
    have e3 : (d.scanWhile .scanSkipSpace).scan = { d.scan with step := .stateInString } := by
      simp only [decodeState.scanWhile, heq]
    have e4 : (d.scanWhile .scanSkipSpace).rest = rest1 := by
      simp only [decodeState.scanWhile, heq]
    have e5 : (d.scanWhile .scanSkipSpace).scan.parseState = [.parseObjectKey] := by
      rw [e3]
      exact hK.1
    rcases hcase with ⟨hT, _⟩ | hB
    · exact member_here (objectLoop fuel) _ body ws v key c e1 e2 e5 (by rw [e4, hT]) hbody
        hkey hm hws hfirst h34 h110 (objectLoop_persist fuel) d' h
    · exact member_ahead _ (objectLoop fuel) _ e1 e2 e5 (by rw [e3]) (by rw [e3, e4]; exact hB)
        (fun d5 h5 hA5 d'' hd'' => ih d5 h5 hA5 d'' hd'') d' h

theorem endValue_top_dead (s : scanner) (c : Nat) (hps : s.parseState = []) :
    (stateEndValue s c).1.dead := by
  obtain ⟨st, et, ps, er⟩ := s
  simp only at hps
  subst hps
  by_cases hsp : isSpace c = true
  · simp [stateEndValue, stateEndTop, hsp, scanner.dead]
  · simp [stateEndValue, stateEndTop, hsp, scanner.dead, scanner.error]

theorem atObjectKey_spec {pre : Bytes} (h : atObjectKey pre = true) :
    ∃ sK, checkValidLoop scanner.reset pre = .ok sK ∧ sK.atKey := by
  unfold atObjectKey at h
  cases hr : checkValidLoop scanner.reset pre with
  | error e =>
    rw [hr] at h
    cases h
  | ok sK =>
    rw [hr] at h
    simp only [decide_eq_true_eq] at h
    exact ⟨sK, rfl, h⟩

/-- A JSON object that has a member that names `redirect_url`, in the words of
`namesField`, with a value that is neither a string nor `null`, is not decoded:
`pre` is the text before the key of the member, `ws` the white space between
the key and the colon, `v` the text after the colon. -/
theorem Unmarshal_bad_member (pre keyText ws v : Bytes) (c : Nat)
    (hpre : atObjectKey pre = true) (hname : namesField keyText = true)
    (hws : ∀ w ∈ ws, isSpace w = true) (hfirst : firstByte v = some c) (h34 : c ≠ 34)
    (h110 : c ≠ 110) : ∃ e, Unmarshal (pre ++ keyText ++ ws ++ 58 :: v) = .error e := by
  obtain ⟨body, key, rfl, hbody, hkey, hm⟩ := namesField_closed hname
  obtain ⟨sK, hrun, hK⟩ := atObjectKey_spec hpre
  have hdata : pre ++ 34 :: (body ++ [34]) ++ ws ++ 58 :: v =
      pre ++ 34 :: (body ++ 34 :: (ws ++ 58 :: v)) := by simp
  rw [hdata]
  unfold Unmarshal
  cases hvalid : checkValid (pre ++ 34 :: (body ++ 34 :: (ws ++ 58 :: v))) with
  | some e => exact ⟨e, rfl⟩
  | none =>
    simp only
    have hA : Ahead (34 :: (body ++ 34 :: (ws ++ 58 :: v))) scanner.reset
        (pre ++ 34 :: (body ++ 34 :: (ws ++ 58 :: v))) := by
      unfold checkValid at hvalid
      cases hall : checkValidLoop scanner.reset
          (pre ++ 34 :: (body ++ 34 :: (ws ++ 58 :: v))) with
      | error e =>
        rw [hall] at hvalid
        cases hvalid
      | ok sf =>
        rw [checkValidLoop_append, hrun] at hall
        exact ⟨pre, sK, sf, rfl, hrun, hK, hall⟩
    have hdo : ∀ w, scanner.reset.doStep w = stateBeginValue scanner.reset w := fun _ => rfl
    have hsp : ∀ w, isSpace w = true →
        scanner.reset.doStep w = (scanner.reset, .scanSkipSpace) := by
      intro w hw
      rw [hdo]
      simp [stateBeginValue, hw]
    have hns : ∀ w, isSpace w = false → (scanner.reset.doStep w).2 ≠ .scanSkipSpace := by
      intro w hw
      rw [hdo]
      exact beginValue_nonspace _ w hw
    obtain ⟨b, rest1, m1, m2, _, m4, m5⟩ := scanWhileLoop_stable _ scanner.reset
      (not_atKey_of_step (by decide) (by decide)) hsp hns _ 0 hA
    rw [hdo] at m2 m4 m5
    cases hval : (decodeState.scanWhile
        { cur := 0, rest := pre ++ 34 :: (body ++ 34 :: (ws ++ 58 :: v)),
          opcode := .scanContinue, scan := scanner.reset, savedError := none,
          RedirectURL := [] } .scanSkipSpace).value with
    | none => exact ⟨_, rfl⟩
    | some d =>
      have hs : d.savedError ≠ none := by
        by_cases hb : b = 123
        · subst hb
          have hst : stateBeginValue scanner.reset 123 =
              (⟨.stateBeginStringOrEmpty, false, [.parseObjectKey], none⟩,
                .scanBeginObject) := by decide
          rw [hst] at m2 m5
          simp only [decodeState.scanWhile, m2, decodeState.value, Option.map_eq_some'] at hval
          obtain ⟨d1, hd1, rfl⟩ := hval
          rw [scanNext_savedError]
          exact objectLoop_ahead body ws v key c hbody hkey hm hws hfirst h34 h110 _ _
            ⟨rfl, Or.inr rfl⟩ m5 d1 hd1
        · refine value_savedError ?_ ?_ hval
          · simp only [decodeState.scanWhile, m2]
            exact fun h => hb (stateBeginValue_object h)
          · simp only [decodeState.scanWhile, m2]
            intro hn
            subst hn
            have hst : stateBeginValue scanner.reset 110 =
                ({ scanner.reset with step := .stateN }, .scanBeginLiteral) := by decide
            rw [hst] at m5
            obtain ⟨after, _, i1⟩ := null_ahead _ scanner.reset rest1 m5
            obtain ⟨a0, rest2, _, _, i2⟩ := endValue_ahead _ scanner.reset after i1
            exact ahead_not_dead i2 (endValue_top_dead _ a0 rfl)
      cases hse : d.savedError with
      | none => exact absurd hse hs
      | some e => exact ⟨e, by simp only [hse]⟩

end json
end CherevanAuth

namespace CherevanAuth

/-! ## Payloads of another shape, and more examples -/

/-- C11, as amended. For every input that is valid base64url and whose decoded bytes
are not a JSON text, or are a JSON text other than an object and other than
`null` (an array, a string, a number, `true`, `false`), or are a JSON object with
a member that names `redirect_url`, in any case of the letters, and has a value
that is neither a string nor `null`, `parseState` fails with an error and
returns no value.  The member is told by its place in the payload: `pre` is the
text before its key, up to a place where the scanner expects a key of the
top-level object, `keyText` is the key, a string literal that names the field,
`ws` is white space, and `v`, the text after the colon, begins after white
space with a byte `c` that begins neither a string nor `null`. -/
theorem parseState_wrong_shape (s data : Bytes) (hdec : base64.DecodeString s = .ok data)
    (hshape : json.checkValid data ≠ none ∨
      (∃ c, json.firstByte data = some c ∧ c ≠ 123 ∧ c ≠ 110) ∨
      (∃ pre keyText ws v c, data = pre ++ keyText ++ ws ++ 58 :: v ∧
        json.atObjectKey pre = true ∧ json.namesField keyText = true ∧
        (∀ w ∈ ws, json.isSpace w = true) ∧ json.firstByte v = some c ∧ c ≠ 34 ∧ c ≠ 110)) :
    ∃ e, parseState s = .error e := by
  have hU : ∃ e, json.Unmarshal data = .error e := by
    rcases hshape with h | ⟨c, h1, h2, h3⟩ | ⟨pre, keyText, ws, v, c, rfl, h1, h2, h3, h4, h5, h6⟩
    · cases hv : json.checkValid data with
      | none => exact absurd hv h
      | some e => exact ⟨e, by simp only [json.Unmarshal, hv]⟩
    · exact json.Unmarshal_not_object data c h1 h2 h3
    · exact json.Unmarshal_bad_member pre keyText ws v c h1 h2 h3 h4 h5 h6
  obtain ⟨e, he⟩ := hU
  exact ⟨e, by simp only [parseState, hdec, he]⟩

/-- C11, the claim as written fails at `e30=`, the base64url text of `{}`: it is valid
base64url, its payload is a JSON object without `redirect_url`, and `parseState`
returns the empty string without error; so it does for `null`, for an object
with another member and for a `redirect_url` that is `null`. -/
theorem parseState_empty_object_counterexample :
    base64.DecodeString (ascii "e30=") = .ok (ascii "\x7b\x7d") ∧
      parseState (ascii "e30=") = .ok [] ∧
      base64.DecodeString (ascii "bnVsbA==") = .ok (ascii "null") ∧
      parseState (ascii "bnVsbA==") = .ok [] ∧
      base64.DecodeString (ascii "eyJvdGhlciI6IngifQ==") = .ok (ascii "\x7b\"other\":\"x\"\x7d") ∧
      parseState (ascii "eyJvdGhlciI6IngifQ==") = .ok [] ∧
      base64.DecodeString (ascii "eyJyZWRpcmVjdF91cmwiOm51bGx9") =
        .ok (ascii "\x7b\"redirect_url\":null\x7d") ∧
      parseState (ascii "eyJyZWRpcmVjdF91cmwiOm51bGx9") = .ok [] := by
  decide

set_option maxRecDepth 100000 in
theorem parseState_wrong_shape_witness :
    (base64.DecodeString (ascii "eyAicmVkaXJlY3RfdXJsIjoxfQ==") = .ok (ascii "\x7b \"redirect_url\":1\x7d") ∧
      ascii "\x7b \"redirect_url\":1\x7d" =
        ascii "\x7b " ++ ascii "\"redirect_url\"" ++ [] ++ 58 :: ascii "1\x7d" ∧
      json.atObjectKey (ascii "\x7b ") = true ∧
      json.namesField (ascii "\"redirect_url\"") = true ∧
      json.firstByte (ascii "1\x7d") = some 49 ∧
      ∃ e, parseState (ascii "eyAicmVkaXJlY3RfdXJsIjoxfQ==") = .error e) ∧
    (base64.DecodeString (ascii "eyJhIjoxLCJyZWRpcmVjdF91cmwiOjJ9") = .ok (ascii "\x7b\"a\":1,\"redirect_url\":2\x7d") ∧
      ascii "\x7b\"a\":1,\"redirect_url\":2\x7d" =
        ascii "\x7b\"a\":1," ++ ascii "\"redirect_url\"" ++ [] ++ 58 :: ascii "2\x7d" ∧
      json.atObjectKey (ascii "\x7b\"a\":1,") = true ∧
      json.namesField (ascii "\"redirect_url\"") = true ∧
      json.firstByte (ascii "2\x7d") = some 50 ∧
      ∃ e, parseState (ascii "eyJhIjoxLCJyZWRpcmVjdF91cmwiOjJ9") = .error e) ∧
    (base64.DecodeString (ascii "eyJSRURJUkVDVF9VUkwiOjF9") = .ok (ascii "\x7b\"REDIRECT_URL\":1\x7d") ∧
      ascii "\x7b\"REDIRECT_URL\":1\x7d" =
        ascii "\x7b" ++ ascii "\"REDIRECT_URL\"" ++ [] ++ 58 :: ascii "1\x7d" ∧
      json.atObjectKey (ascii "\x7b") = true ∧
      json.namesField (ascii "\"REDIRECT_URL\"") = true ∧
      json.firstByte (ascii "1\x7d") = some 49 ∧
      ∃ e, parseState (ascii "eyJSRURJUkVDVF9VUkwiOjF9") = .error e) ∧
    (base64.DecodeString (ascii "eyJyZWRpcmVjdF91cmwiIDoxfQ==") = .ok (ascii "\x7b\"redirect_url\" :1\x7d") ∧
      ascii "\x7b\"redirect_url\" :1\x7d" =
        ascii "\x7b" ++ ascii "\"redirect_url\"" ++ [32] ++ 58 :: ascii "1\x7d" ∧
      json.atObjectKey (ascii "\x7b") = true ∧
      json.namesField (ascii "\"redirect_url\"") = true ∧
      json.firstByte (ascii "1\x7d") = some 49 ∧
      ∃ e, parseState (ascii "eyJyZWRpcmVjdF91cmwiIDoxfQ==") = .error e) ∧
    (base64.DecodeString (ascii "eyJhIjpbMSx7ImIiOiJ9In1dLCAiUmVkaXJlY3RfVVJMIiA6IFsyXX0=") = .ok (ascii "\x7b\"a\":[1,\x7b\"b\":\"\x7d\"\x7d], \"Redirect_URL\" : [2]\x7d") ∧
      ascii "\x7b\"a\":[1,\x7b\"b\":\"\x7d\"\x7d], \"Redirect_URL\" : [2]\x7d" =
        ascii "\x7b\"a\":[1,\x7b\"b\":\"\x7d\"\x7d], " ++ ascii "\"Redirect_URL\"" ++ [32] ++ 58 :: ascii " [2]\x7d" ∧
      json.atObjectKey (ascii "\x7b\"a\":[1,\x7b\"b\":\"\x7d\"\x7d], ") = true ∧
      json.namesField (ascii "\"Redirect_URL\"") = true ∧
      json.firstByte (ascii " [2]\x7d") = some 91 ∧
      ∃ e, parseState (ascii "eyJhIjpbMSx7ImIiOiJ9In1dLCAiUmVkaXJlY3RfVVJMIiA6IFsyXX0=") = .error e) :=
  ⟨⟨by decide, by decide, by decide, by decide, by decide,
      parseState_wrong_shape (ascii "eyAicmVkaXJlY3RfdXJsIjoxfQ==") (ascii "\x7b \"redirect_url\":1\x7d") (by decide)
        (Or.inr (Or.inr ⟨ascii "\x7b ", ascii "\"redirect_url\"", [], ascii "1\x7d", 49,
          by decide, by decide, by decide, by decide, by decide, by decide, by decide⟩))⟩,
    ⟨by decide, by decide, by decide, by decide, by decide,
      parseState_wrong_shape (ascii "eyJhIjoxLCJyZWRpcmVjdF91cmwiOjJ9") (ascii "\x7b\"a\":1,\"redirect_url\":2\x7d") (by decide)
        (Or.inr (Or.inr ⟨ascii "\x7b\"a\":1,", ascii "\"redirect_url\"", [], ascii "2\x7d", 50,
          by decide, by decide, by decide, by decide, by decide, by decide, by decide⟩))⟩,
    ⟨by decide, by decide, by decide, by decide, by decide,
      parseState_wrong_shape (ascii "eyJSRURJUkVDVF9VUkwiOjF9") (ascii "\x7b\"REDIRECT_URL\":1\x7d") (by decide)
        (Or.inr (Or.inr ⟨ascii "\x7b", ascii "\"REDIRECT_URL\"", [], ascii "1\x7d", 49,
          by decide, by decide, by decide, by decide, by decide, by decide, by decide⟩))⟩,
    ⟨by decide, by decide, by decide, by decide, by decide,
      parseState_wrong_shape (ascii "eyJyZWRpcmVjdF91cmwiIDoxfQ==") (ascii "\x7b\"redirect_url\" :1\x7d") (by decide)
        (Or.inr (Or.inr ⟨ascii "\x7b", ascii "\"redirect_url\"", [32], ascii "1\x7d", 49,
          by decide, by decide, by decide, by decide, by decide, by decide, by decide⟩))⟩,
    ⟨by decide, by decide, by decide, by decide, by decide,
      parseState_wrong_shape (ascii "eyJhIjpbMSx7ImIiOiJ9In1dLCAiUmVkaXJlY3RfVVJMIiA6IFsyXX0=") (ascii "\x7b\"a\":[1,\x7b\"b\":\"\x7d\"\x7d], \"Redirect_URL\" : [2]\x7d") (by decide)
        (Or.inr (Or.inr ⟨ascii "\x7b\"a\":[1,\x7b\"b\":\"\x7d\"\x7d], ", ascii "\"Redirect_URL\"", [32], ascii " [2]\x7d", 91,
          by decide, by decide, by decide, by decide, by decide, by decide, by decide⟩))⟩⟩

theorem callback_exchange_failed_witness :
    (⟨ascii "/callback", [(ascii "state", exampleState), (ascii "code", ascii "bad")]⟩ :
        APIGatewayProxyRequest).Path = ascii "/callback" ∧
      (⟨ascii "/callback", [(ascii "state", exampleState), (ascii "code", ascii "bad")]⟩ :
        APIGatewayProxyRequest).QueryStringParameters.lookup (ascii "state") =
          some exampleState ∧
      parseState exampleState = .ok exampleRedirect ∧
      (⟨ascii "/callback", [(ascii "state", exampleState), (ascii "code", ascii "bad")]⟩ :
        APIGatewayProxyRequest).QueryStringParameters.lookup (ascii "code") =
          some (ascii "bad") ∧
      ascii "bad" ≠ [] ∧
      exampleExchange (ascii "bad") =
        .error (.exchangeError (ascii "oauth2: cannot fetch token: 400 Bad Request")) ∧
      (handleRequest exampleConfig exampleExchange
          ⟨ascii "/callback", [(ascii "state", exampleState), (ascii "code", ascii "bad")]⟩ =
        ({ StatusCode := 500,
           Body := ascii "\x7b\"error\": \"failed to exchange token: " ++
             (GoError.exchangeError (ascii "oauth2: cannot fetch token: 400 Bad Request")).Error ++
             ascii "\"\x7d" }, none) ∧
       (handleRequest exampleConfig exampleExchange
          ⟨ascii "/callback",
            [(ascii "state", exampleState), (ascii "code", ascii "bad")]⟩).1.Headers = [] ∧
       (handleRequest exampleConfig exampleExchange
          ⟨ascii "/callback",
            [(ascii "state", exampleState), (ascii "code", ascii "bad")]⟩).1.Headers.lookup
          (ascii "Location") = none) :=
  ⟨by decide, by decide, by decide, by decide, by decide, by decide,
    callback_exchange_failed exampleConfig exampleExchange
      ⟨ascii "/callback", [(ascii "state", exampleState), (ascii "code", ascii "bad")]⟩
      exampleState exampleRedirect (ascii "bad")
      (.exchangeError (ascii "oauth2: cannot fetch token: 400 Bad Request"))
      (by decide) (by decide) (by decide) (by decide) (by decide) (by decide)⟩

/-- C13, at the state `MSI=`, the base64url text of `1"`: the body of the 400 response
carries the text of the decode error with its double quote as it is, and the
body is not a JSON text. -/
theorem error_body_not_json :
    base64.DecodeString (ascii "MSI=") = .ok (ascii "1\"") ∧
      handleRequest exampleConfig exampleExchange
          ⟨ascii "/callback", [(ascii "state", ascii "MSI=")]⟩ =
        ({ StatusCode := 400,
           Body := ascii ("\x7b\"error\": \"invalid state parameter: " ++
             "invalid character '\"' after top-level value\"\x7d") }, none) ∧
      json.checkValid (ascii ("\x7b\"error\": \"invalid state parameter: " ++
          "invalid character '\"' after top-level value\"\x7d")) =
        some (.SyntaxError (ascii "invalid character '\\'' after object key:value pair")) := by
  decide

theorem callback_token_in_fragment_witness :
    (⟨ascii "/callback", [(ascii "state", exampleState), (ascii "code", ascii "good")]⟩ :
        APIGatewayProxyRequest).Path = ascii "/callback" ∧
      (⟨ascii "/callback", [(ascii "state", exampleState), (ascii "code", ascii "good")]⟩ :
        APIGatewayProxyRequest).QueryStringParameters.lookup (ascii "state") =
          some exampleState ∧
      parseState exampleState = .ok exampleRedirect ∧
      (⟨ascii "/callback", [(ascii "state", exampleState), (ascii "code", ascii "good")]⟩ :
        APIGatewayProxyRequest).QueryStringParameters.lookup (ascii "code") =
          some (ascii "good") ∧
      ascii "good" ≠ [] ∧ exampleExchange (ascii "good") = .ok ⟨ascii "abc123"⟩ ∧
      (fun _ => Except.ok ⟨ascii "?x=1&y=2"⟩ : Bytes → Except GoError oauth2.Token)
        (ascii "good") = .ok ⟨ascii "?x=1&y=2"⟩ ∧
      ∃ loc1 loc2,
        handleRequest exampleConfig exampleExchange
            ⟨ascii "/callback", [(ascii "state", exampleState), (ascii "code", ascii "good")]⟩ =
          ({ StatusCode := 302, Headers := [(ascii "Location", loc1)] }, none) ∧
        handleRequest exampleConfig (fun _ => Except.ok ⟨ascii "?x=1&y=2"⟩)
            ⟨ascii "/callback", [(ascii "state", exampleState), (ascii "code", ascii "good")]⟩ =
          ({ StatusCode := 302, Headers := [(ascii "Location", loc2)] }, none) ∧
        (url.cut 35 loc1).1 = (url.cut 35 loc2).1 ∧
        (url.cut 35 loc1).1 = (url.cut 35 exampleRedirect).1 :=
  ⟨by decide, by decide, by decide, by decide, by decide, by decide, rfl,
    callback_token_in_fragment exampleConfig exampleExchange
      (fun _ => Except.ok ⟨ascii "?x=1&y=2"⟩)
      ⟨ascii "/callback", [(ascii "state", exampleState), (ascii "code", ascii "good")]⟩
      exampleState exampleRedirect (ascii "good") ⟨ascii "abc123"⟩ ⟨ascii "?x=1&y=2"⟩
      (by decide) (by decide) (by decide) (by decide) (by decide) (by decide) rfl⟩

/-- C16, the claim as written fails in the environment `exampleGetenv`: the variables
`OAUTH_CLIENT_ID`, `OAUTH_CLIENT_SECRET` and `OAUTH_REDIRECT_URL` are empty and `init`
does not abort, it builds the configuration from the variables `GOOGLE_...`. -/
theorem init_oauth_counterexample :
    exampleGetenv (ascii "OAUTH_CLIENT_ID") = [] ∧
      exampleGetenv (ascii "OAUTH_CLIENT_SECRET") = [] ∧
      exampleGetenv (ascii "OAUTH_REDIRECT_URL") = [] ∧
      init exampleGetenv = some exampleConfig ∧
      exampleConfig.ClientID ≠ exampleGetenv (ascii "OAUTH_CLIENT_ID") := by
  decide

theorem generateState_never_fails_witness :
    (⟨ascii "/auth", [(ascii "redirect_url", exampleRedirect)]⟩ :
        APIGatewayProxyRequest).Path = ascii "/auth" ∧
      (⟨ascii "/auth", [(ascii "redirect_url", exampleRedirect)]⟩ :
        APIGatewayProxyRequest).QueryStringParameters.lookup (ascii "redirect_url") =
          some exampleRedirect ∧
      exampleRedirect ≠ [] ∧
      ((∀ r' : Bytes, ∃ s, generateState r' = .ok s) ∧
        (handleRequest exampleConfig exampleExchange
          ⟨ascii "/auth", [(ascii "redirect_url", exampleRedirect)]⟩).1.StatusCode = 302 ∧
        (∀ request' : APIGatewayProxyRequest, request'.Path = ascii "/auth" →
          (handleRequest exampleConfig exampleExchange request').1.StatusCode ≠ 500)) :=
  ⟨by decide, by decide, by decide,
    generateState_never_fails exampleConfig exampleExchange
      ⟨ascii "/auth", [(ascii "redirect_url", exampleRedirect)]⟩ exampleRedirect
      (by decide) (by decide) (by decide)⟩

theorem empty_parameter_is_missing_witness :
    (⟨ascii "/auth", [(ascii "redirect_url", [])]⟩ : APIGatewayProxyRequest).Path =
        ascii "/auth" ∧
      (⟨ascii "/auth", [(ascii "redirect_url", [])]⟩ :
        APIGatewayProxyRequest).QueryStringParameters.lookup (ascii "redirect_url") =
          some [] ∧
      (⟨ascii "/auth", []⟩ : APIGatewayProxyRequest).Path = ascii "/auth" ∧
      (⟨ascii "/auth", []⟩ : APIGatewayProxyRequest).QueryStringParameters.lookup
        (ascii "redirect_url") = none ∧
      (⟨ascii "/callback", [(ascii "state", []), (ascii "code", ascii "good")]⟩ :
        APIGatewayProxyRequest).Path = ascii "/callback" ∧
      (⟨ascii "/callback", [(ascii "state", []), (ascii "code", ascii "good")]⟩ :
        APIGatewayProxyRequest).QueryStringParameters.lookup (ascii "state") = some [] ∧
      (⟨ascii "/callback", [(ascii "code", ascii "good")]⟩ : APIGatewayProxyRequest).Path =
        ascii "/callback" ∧
      (⟨ascii "/callback", [(ascii "code", ascii "good")]⟩ :
        APIGatewayProxyRequest).QueryStringParameters.lookup (ascii "state") = none ∧
      (⟨ascii "/callback", [(ascii "state", exampleState), (ascii "code", [])]⟩ :
        APIGatewayProxyRequest).Path = ascii "/callback" ∧
      (⟨ascii "/callback", [(ascii "state", exampleState), (ascii "code", [])]⟩ :
        APIGatewayProxyRequest).QueryStringParameters.lookup (ascii "state") =
          some exampleState ∧
      parseState exampleState = .ok exampleRedirect ∧
      (⟨ascii "/callback", [(ascii "state", exampleState), (ascii "code", [])]⟩ :
        APIGatewayProxyRequest).QueryStringParameters.lookup (ascii "code") = some [] ∧
      (⟨ascii "/callback", [(ascii "state", exampleState)]⟩ : APIGatewayProxyRequest).Path =
        ascii "/callback" ∧
      (⟨ascii "/callback", [(ascii "state", exampleState)]⟩ :
        APIGatewayProxyRequest).QueryStringParameters.lookup (ascii "state") =
          some exampleState ∧
      (⟨ascii "/callback", [(ascii "state", exampleState)]⟩ :
        APIGatewayProxyRequest).QueryStringParameters.lookup (ascii "code") = none ∧
      ((handleRequest exampleConfig exampleExchange ⟨ascii "/auth", [(ascii "redirect_url", [])]⟩ =
            ({ StatusCode := 400,
               Body := ascii "\x7b\"error\": \"redirect_url parameter is required\"\x7d" },
              none) ∧
          handleRequest exampleConfig exampleExchange ⟨ascii "/auth", [(ascii "redirect_url", [])]⟩ =
            handleRequest exampleConfig exampleExchange ⟨ascii "/auth", []⟩ ∧
          codecCalls exampleConfig exampleExchange ⟨ascii "/auth", [(ascii "redirect_url", [])]⟩ =
            [] ∧
          exchangeCalls exampleConfig exampleExchange
            ⟨ascii "/auth", [(ascii "redirect_url", [])]⟩ = []) ∧
        (handleRequest exampleConfig exampleExchange
              ⟨ascii "/callback", [(ascii "state", []), (ascii "code", ascii "good")]⟩ =
            ({ StatusCode := 400,
               Body := ascii "\x7b\"error\": \"state parameter is required\"\x7d" }, none) ∧
          handleRequest exampleConfig exampleExchange
              ⟨ascii "/callback", [(ascii "state", []), (ascii "code", ascii "good")]⟩ =
            handleRequest exampleConfig exampleExchange
              ⟨ascii "/callback", [(ascii "code", ascii "good")]⟩ ∧
          codecCalls exampleConfig exampleExchange
            ⟨ascii "/callback", [(ascii "state", []), (ascii "code", ascii "good")]⟩ = [] ∧
          exchangeCalls exampleConfig exampleExchange
            ⟨ascii "/callback", [(ascii "state", []), (ascii "code", ascii "good")]⟩ = []) ∧
        (handleRequest exampleConfig exampleExchange
              ⟨ascii "/callback", [(ascii "state", exampleState), (ascii "code", [])]⟩ =
            ({ StatusCode := 400,
               Body := ascii "\x7b\"error\": \"code parameter is required\"\x7d" }, none) ∧
          handleRequest exampleConfig exampleExchange
              ⟨ascii "/callback", [(ascii "state", exampleState), (ascii "code", [])]⟩ =
            handleRequest exampleConfig exampleExchange
              ⟨ascii "/callback", [(ascii "state", exampleState)]⟩ ∧
          codecCalls exampleConfig exampleExchange
            ⟨ascii "/callback", [(ascii "state", exampleState), (ascii "code", [])]⟩ =
            [exampleState] ∧
          exampleState ≠ [] ∧
          exchangeCalls exampleConfig exampleExchange
            ⟨ascii "/callback", [(ascii "state", exampleState), (ascii "code", [])]⟩ = [])) :=
  ⟨by decide, by decide, by decide, by decide, by decide, by decide, by decide, by decide,
    by decide, by decide, by decide, by decide, by decide, by decide, by decide,
    empty_parameter_is_missing exampleConfig exampleExchange
      ⟨ascii "/auth", [(ascii "redirect_url", [])]⟩ ⟨ascii "/auth", []⟩
      ⟨ascii "/callback", [(ascii "state", []), (ascii "code", ascii "good")]⟩
      ⟨ascii "/callback", [(ascii "code", ascii "good")]⟩
      ⟨ascii "/callback", [(ascii "state", exampleState), (ascii "code", [])]⟩
      ⟨ascii "/callback", [(ascii "state", exampleState)]⟩ exampleState exampleRedirect
      (by decide) (by decide) (by decide) (by decide) (by decide) (by decide) (by decide)
      (by decide) (by decide) (by decide) (by decide) (by decide) (by decide) (by decide)
      (by decide)⟩

end CherevanAuth
